import Mathlib

/-!
# Verification of the `otio-ale` ALE codec

A shallow embedding, in Lean 4, of the Go package `ale` (an Avid Log
Exchange adapter for OpenTimelineIO).  Pure Go functions become Lean
functions over `String`, `List` and `ℚ`; Go `map[string]string` values are
modelled as association lists built through an overwrite-on-insert
operation (`mapSet`), so that lookups agree with Go map semantics; the Go
`float64` values flowing through the codec (frame rates, frame counts,
CDL numbers) are modelled as exact rationals.  Functions of the external
`gotio`/`opentime` library (the timeline object model and the timecode
codec) are modelled from the specification of those operations, since the
library is outside this repository.

Sources embedded: `ale.go`, `decoder.go`, and the encoder file
(`Encoder`, `determineColumns`, `clipToRow`, `writeALE`).
-/

namespace OtioAle

/-! ## Go string primitives

Models of the `strings`/`strconv`/`unicode` standard-library functions the
codec uses.  Strings are Lean `String`s; the functions work on the
underlying `List Char`. -/

/-- Model of `unicode.IsSpace`: the Unicode White_Space property
(`\t \n \v \f \r ' '` U+0085 U+00A0 U+1680 U+2000–U+200A U+2028 U+2029
U+202F U+205F U+3000). -/
def goIsSpace (c : Char) : Bool :=
  let n := c.toNat
  (9 ≤ n && n ≤ 13) || n == 32 || n == 0x85 || n == 0xA0 || n == 0x1680 ||
  (0x2000 ≤ n && n ≤ 0x200A) || n == 0x2028 || n == 0x2029 || n == 0x202F ||
  n == 0x205F || n == 0x3000

/-- Drop leading and trailing space characters from a character list. -/
def trimList (l : List Char) : List Char :=
  ((l.dropWhile goIsSpace).reverse.dropWhile goIsSpace).reverse

/-- Model of Go `strings.TrimSpace`. -/
def goTrimSpace (s : String) : String := ⟨trimList s.data⟩

/-- Model of Go `strings.HasPrefix`. -/
def goHasPrefix (s pre : String) : Bool := pre.data.isPrefixOf s.data

/-- Model of Go `strings.Contains`. -/
def goContains (s sub : String) : Bool := decide (sub.data <:+: s.data)

/-- Split a character list at every occurrence of `sep` (model of the
behaviour of `strings.Split` on a one-character separator: splitting the
empty string yields `[[]]`, and `n` separators yield `n+1` fields). -/
def splitOnChar (sep : Char) : List Char → List (List Char)
  | [] => [[]]
  | c :: rest =>
    let r := splitOnChar sep rest
    if c = sep then [] :: r
    else
      match r with
      | [] => [[c]]
      | h :: t => (c :: h) :: t


/-- Model of `splitTabs` (`ale.go`): `strings.Split(line, "\t")`. -/
def splitTabs (s : String) : List String := (splitOnChar '\t' s.data).map (⟨·⟩)

/-- Model of `joinTabs` (`ale.go`): `strings.Join(parts, "\t")`. -/
def joinTabs (parts : List String) : String := ⟨List.intercalate ['\t'] (parts.map String.data)⟩

/-- Go byte-wise string comparison `a < b` (lexicographic on code points;
for valid UTF-8 this agrees with Go's byte comparison). -/
def charsLt : List Char → List Char → Bool
  | [], [] => false
  | [], _ :: _ => true
  | _ :: _, [] => false
  | a :: as, b :: bs =>
    if a.toNat < b.toNat then true
    else if b.toNat < a.toNat then false
    else charsLt as bs

/-- The Go comparison `a > b` on strings, as used by the encoder's sort. -/
def strGt (a b : String) : Bool := charsLt b.data a.data

/-- The complement order `a ≤ b` (i.e. `!(a > b)` in Go terms). -/
def strLe (a b : String) : Prop := charsLt b.data a.data = false

instance : DecidableRel strLe := fun a b => by
  unfold strLe; infer_instance


/-! ## Decimal digits -/

/-- The decimal digit character for `n < 10`. -/
def digitChar (n : ℕ) : Char := Char.ofNat (48 + n)

def isDigitChar (c : Char) : Bool := 48 ≤ c.toNat && c.toNat ≤ 57

def digitVal (c : Char) : ℕ := c.toNat - 48

/-- The digits of `n`, least significant first. -/
def natDigitsRev (n : ℕ) : List Char :=
  if h : n < 10 then [digitChar n]
  else digitChar (n % 10) :: natDigitsRev (n / 10)
  decreasing_by exact Nat.div_lt_self (by omega) (by omega)

/-- Decimal rendering of a natural number (model of Go integer printing). -/
def natToStr (n : ℕ) : String := ⟨(natDigitsRev n).reverse⟩

/-- Decimal rendering of an integer (model of `strconv.FormatInt`). -/
def intToStr (i : ℤ) : String :=
  if i < 0 then ⟨'-' :: (natToStr i.natAbs).data⟩ else natToStr i.natAbs

/-- The value of a digit string read left to right. -/
def digitsVal (l : List Char) : ℕ := l.foldl (fun acc c => 10 * acc + digitVal c) 0

/-- Zero-padded two-digit rendering (model of Go `fmt` verb `%02d`). -/
def pad2 (n : ℕ) : String :=
  if n < 10 then ⟨['0', digitChar n]⟩ else natToStr n

/-- All-digit parse of a whole character list (used for timecode fields). -/
def parseNatAll (l : List Char) : Option ℕ :=
  if l.isEmpty then none
  else if l.all isDigitChar then some (digitsVal l) else none

/-- Model of `strconv.ParseFloat` on an unsigned decimal form: integer
digits and/or a fractional part.  Exponent, hexadecimal, `Inf` and `NaN`
forms are not modelled (no claim depends on them), and the value is kept
exact as a rational instead of being rounded to binary. -/
def parseUnsignedFloat (l : List Char) : Option ℚ :=
  let ip := l.takeWhile isDigitChar
  let rest := l.dropWhile isDigitChar
  match rest with
  | [] => if ip.isEmpty then none else some (digitsVal ip)
  | '.' :: frac =>
    if ip.isEmpty && frac.isEmpty then none
    else if frac.all isDigitChar then
      some ((digitsVal ip : ℚ) + (digitsVal frac : ℚ) / (10 ^ frac.length))
    else none
  | _ => none

/-- Model of `strconv.ParseFloat` (decimal forms, with sign). -/
def parseGoFloat (s : String) : Option ℚ :=
  match s.data with
  | '-' :: rest => (parseUnsignedFloat rest).map (fun q => -q)
  | '+' :: rest => parseUnsignedFloat rest
  | l => parseUnsignedFloat l

/-- Round to the nearest integer, ties to even: the rounding applied by Go
`fmt` fixed-precision formatting to an exactly representable value. -/
def rne (q : ℚ) : ℤ :=
  if q - ⌊q⌋ < 1/2 then ⌊q⌋
  else if (1 : ℚ)/2 < q - ⌊q⌋ then ⌊q⌋ + 1
  else if ⌊q⌋ % 2 = 0 then ⌊q⌋ else ⌊q⌋ + 1

/-- Zero-padded decimal rendering of width at least `w`. -/
def natToStrPad (w : ℕ) (n : ℕ) : String :=
  ⟨List.replicate (w - (natDigitsRev n).length) '0' ++ (natDigitsRev n).reverse⟩

/-- Model of Go `fmt.Sprintf("%.<digits>f", q)`: fixed-point rendering
with `digits` places after the decimal point (signed zero of `float64` is
not modelled). -/
def formatFixed (digits : ℕ) (q : ℚ) : String :=
  let n := rne (q * (10 ^ digits : ℕ))
  let mag := n.natAbs
  (if q < 0 ∧ n ≠ 0 then "-" else "") ++ natToStr (mag / 10 ^ digits) ++ "." ++
    natToStrPad digits (mag % 10 ^ digits)

/-! ## The opentime model

The codec delegates time arithmetic to the external
`gotio/opentime` library.  These definitions model that library from the
specification's description of the Timecode Codec (§4.2) and the standard
OpenTimelineIO `RationalTime` semantics, over exact rationals. -/

/-- Model of `opentime.RationalTime`: a count of frames at a rate. -/
structure RationalTime where
  value : ℚ
  rate : ℚ
deriving DecidableEq

/-- Model of `RationalTime.RescaledTo`. -/
def RationalTime.rescaledTo (t : RationalTime) (newRate : ℚ) : RationalTime :=
  ⟨t.value * newRate / t.rate, newRate⟩

/-- Model of `opentime.TimeRange` (and `NewTimeRange`). -/
structure TimeRange where
  startTime : RationalTime
  duration : RationalTime
deriving DecidableEq

/-- Model of `opentime.FromFrames`. -/
def fromFrames (frames fps : ℚ) : RationalTime := ⟨frames, fps⟩

/-- Model of `opentime.DurationFromStartEndTime`:
`end` rescaled to `start`'s rate, minus `start`. -/
def durationFromStartEndTime (s e : RationalTime) : RationalTime :=
  ⟨(e.rescaledTo s.rate).value - s.value, s.rate⟩

/-- Model of `TimeRange.EndTimeExclusive`: start plus duration, at the
duration's rate. -/
def TimeRange.endTimeExclusive (r : TimeRange) : RationalTime :=
  ⟨(r.startTime.rescaledTo r.duration.rate).value + r.duration.value, r.duration.rate⟩

/-- Modelled from the spec: `opentime.FromTimecode` (§4.2) on non-drop
timecode `HH:MM:SS:FF` — four colon-separated decimal fields converted to
an absolute frame count at the nominal (integral ceiling) rate.
Drop-frame strings (`;` before the frame field) are not modelled; no
claim exercises them. -/
def fromTimecode (tc : String) (fps : ℚ) : Option RationalTime :=
  if fps ≤ 0 then none
  else
    let nominal : ℕ := (⌈fps⌉).toNat
    match (splitOnChar ':' tc.data).mapM parseNatAll with
    | some [h, m, s, f] =>
      if m < 60 ∧ s < 60 ∧ f < nominal then
        some ⟨(((h * 60 + m) * 60 + s) * nominal + f : ℕ), fps⟩
      else none
    | _ => none

/-- Modelled from the spec: `opentime.ToTimecode` (§4.2), non-drop path:
a nonnegative time is rounded to whole frames and rendered as
`HH:MM:SS:FF` with two-digit-padded fields.  Drop-frame rendering
(`ForceYes`) is not modelled and errors; no claim exercises it. -/
def toTimecode (t : RationalTime) (fps : ℚ) (dropFrame : Bool) : Except String String :=
  if dropFrame then .error "drop-frame rendering not modelled"
  else if fps ≤ 0 then .error "invalid rate"
  else if t.value < 0 then .error "negative value"
  else
    let nominal : ℕ := (⌈fps⌉).toNat
    let n : ℕ := (round t.value).toNat
    .ok (pad2 (n / nominal / 3600) ++ ":" ++ pad2 (n / nominal / 60 % 60) ++ ":" ++
      pad2 (n / nominal % 60) ++ ":" ++ pad2 (n % nominal))

/-! ## `ale.go`: constants, timecode helpers, FPS, CDL -/

def ColumnName : String := "Name"
def ColumnTracks : String := "Tracks"
def ColumnStart : String := "Start"
def ColumnEnd : String := "End"
def ColumnDuration : String := "Duration"
def ColumnTape : String := "Tape"
def ColumnSourceFile : String := "Source File"

def HeaderHeading : String := "Heading"
def HeaderColumn : String := "Column"
def HeaderData : String := "Data"
def HeaderFieldDelim : String := "FIELD_DELIM"
def HeaderVideoFormat : String := "VIDEO_FORMAT"
def HeaderAudioFormat : String := "AUDIO_FORMAT"
def HeaderFPS : String := "FPS"

def DefaultFPS : ℚ := 24
def DefaultFieldDelim : String := "TABS"

/-- Model of `parseTimecode` (`ale.go`): timecode first, then a bare
frame number. -/
def parseTimecode (tc : String) (fps : ℚ) : Except String RationalTime :=
  if tc = "" then .error "empty timecode"
  else
    match fromTimecode tc fps with
    | some rt => .ok rt
    | none =>
      match parseGoFloat tc with
      | some frames => .ok (fromFrames frames fps)
      | none => .error ("invalid timecode format: " ++ tc)

/-- Model of `formatTimecode` (`ale.go`): rescale to `fps` and render. -/
def formatTimecode (rt : RationalTime) (fps : ℚ) (dropFrame : Bool) : Except String String :=
  toTimecode (rt.rescaledTo fps) fps dropFrame

/-- Model of `parseFrameNumber` (`ale.go`). -/
def parseFrameNumber (s : String) (fps : ℚ) : Except String RationalTime :=
  match parseGoFloat s with
  | some frames => .ok (fromFrames frames fps)
  | none => .error ("invalid frame number: " ++ s)

/-- Truncation toward zero (the Go `int64(f)` conversion). -/
def ratTrunc (q : ℚ) : ℤ := if q < 0 then ⌈q⌉ else ⌊q⌋

/-- Model of `formatFrameNumber` (`ale.go`): rescale and print the
truncated integer value. -/
def formatFrameNumber (rt : RationalTime) (fps : ℚ) : String :=
  intToStr (ratTrunc (rt.rescaledTo fps).value)

/-- Model of `parseFPS` (`ale.go`): trim; empty means the default rate;
otherwise a positive number is required. -/
def parseFPS (s : String) : Except String ℚ :=
  let t := goTrimSpace s
  if t = "" then .ok DefaultFPS
  else
    match parseGoFloat t with
    | none => .error ("invalid FPS value: " ++ t)
    | some fps => if fps ≤ 0 then .error "FPS must be positive" else .ok fps

/-- Model of `isDropFrame` (`ale.go`):
`(fps > 29.96 && fps < 29.98) || (fps > 59.93 && fps < 59.95)`. -/
def isDropFrame (fps : ℚ) : Bool :=
  decide ((29.96 : ℚ) < fps ∧ fps < 29.98) || decide ((59.93 : ℚ) < fps ∧ fps < 59.95)

/-- Model of `SOPValues` (`ale.go`): slope, offset, power triples. -/
structure SOPValues where
  slope : ℚ × ℚ × ℚ
  offset : ℚ × ℚ × ℚ
  power : ℚ × ℚ × ℚ
deriving DecidableEq

/-- Model of `CDLData` (`ale.go`). -/
structure CDLData where
  ascSOP : Option SOPValues
  ascSat : Option ℚ
deriving DecidableEq

/-- Splitting into whitespace-separated fields (model of
`strings.Fields`); `cur` accumulates the current field reversed. -/
def fieldsAux : List Char → List Char → List (List Char)
  | [], cur => if cur.isEmpty then [] else [cur.reverse]
  | c :: rest, cur =>
    if goIsSpace c then
      if cur.isEmpty then fieldsAux rest [] else cur.reverse :: fieldsAux rest []
    else fieldsAux rest (c :: cur)

/-- Model of Go `strings.Fields`. -/
def goFields (s : String) : List String := (fieldsAux s.data []).map (⟨·⟩)

/-- Model of `parseASCSOP` (`ale.go`): parentheses become spaces, the
string is split into fields, at least 9 are required and the first 9 are
parsed as slope, offset and power values. -/
def parseASCSOP (s : String) : Except String SOPValues :=
  let cleaned : String := ⟨s.data.map (fun c => if c = '(' ∨ c = ')' then ' ' else c)⟩
  let fields := goFields cleaned
  if fields.length < 9 then .error "ASC_SOP requires at least 9 values"
  else
    match (fields.take 9).mapM parseGoFloat with
    | some [a, b, c, d, e, f, g, h, i] => .ok ⟨(a, b, c), (d, e, f), (g, h, i)⟩
    | _ => .error "invalid value in ASC_SOP"

/-- Model of `parseASCCDL` (`ale.go`).  The Go function returns a pair
`(cdl, err)`; both components are reproduced: sub-parser failures are
discarded (`if err == nil`), and the error result is nil on every path. -/
def parseASCCDL (ascSOP ascSat : String) : Option CDLData × Option String :=
  let sop : Option SOPValues :=
    if ascSOP ≠ "" then
      match parseASCSOP ascSOP with
      | .ok v => some v
      | .error _ => none
    else none
  let sat : Option ℚ :=
    if ascSat ≠ "" then parseGoFloat (goTrimSpace ascSat)
    else none
  if sop.isSome ∨ sat.isSome then (some ⟨sop, sat⟩, none) else (none, none)

/-- Model of `formatASCSOP` (`ale.go`): 4-decimal fixed formatting. -/
def formatASCSOP (sop : SOPValues) : String :=
  "(" ++ formatFixed 4 sop.slope.1 ++ " " ++ formatFixed 4 sop.slope.2.1 ++ " " ++
    formatFixed 4 sop.slope.2.2 ++ ")(" ++
    formatFixed 4 sop.offset.1 ++ " " ++ formatFixed 4 sop.offset.2.1 ++ " " ++
    formatFixed 4 sop.offset.2.2 ++ ")(" ++
    formatFixed 4 sop.power.1 ++ " " ++ formatFixed 4 sop.power.2.1 ++ " " ++
    formatFixed 4 sop.power.2.2 ++ ")"

/-- Model of `videoFormatFromDimensions` (`ale.go`). -/
def videoFormatFromDimensions (width height : ℕ) : String :=
  if height = 1080 then (if width > 1920 then "CUSTOM" else "1080")
  else if height = 720 then "720"
  else if height = 576 then "PAL"
  else if height = 486 then "NTSC"
  else "CUSTOM"

/-- Scan one decimal number (one `%d` of `fmt.Sscanf`: leading
whitespace is skipped before the digits; negative dimensions are not
modelled). -/
def scanNat (l : List Char) : Option (ℕ × List Char) :=
  let l2 := l.dropWhile goIsSpace
  let ds := l2.takeWhile isDigitChar
  if ds.isEmpty then none else some (digitsVal ds, l2.dropWhile isDigitChar)

/-- Model of `parseImageSize` (`ale.go`): delete spaces, replace `x`/`X`
by a space, then scan two decimal numbers (`fmt.Sscanf` with `"%d %d"`). -/
def parseImageSize (imageSize : String) : Option (ℕ × ℕ) :=
  let normalized := imageSize.data.foldr
    (fun c acc => if c = ' ' then acc else if c = 'x' ∨ c = 'X' then ' ' :: acc else c :: acc) []
  match scanNat normalized with
  | none => none
  | some (w, rest) =>
    match scanNat rest with
    | none => none
    | some (h, _) => some (w, h)

/-! ## Go maps and the `ALEFile` structure -/

/-- Association-list model of a Go `map[string]string`:
`mapSet` removes any previous binding before appending, so maps built
from `[]` have unique keys and lookups agree with Go map semantics. -/
abbrev StrMap := List (String × String)

def mapSet (m : StrMap) (k v : String) : StrMap :=
  m.filter (fun p => !(p.1 == k)) ++ [(k, v)]

def mapGet (m : StrMap) (k : String) : Option String :=
  (m.find? (fun p => p.1 == k)).map Prod.snd

/-- Go map indexing: a missing key reads as the zero value `""`. -/
def getRow (row : StrMap) (k : String) : String := (mapGet row k).getD ""

/-- Model of `ALEFile` (`ale.go`). -/
structure ALEFile where
  headers : StrMap
  columns : List String
  rows : List StrMap
deriving DecidableEq

def NewALEFile : ALEFile := ⟨[], [], []⟩

/-! ## `decoder.go`: the section parser -/

/-- One data row (`decoder.go` 140–147): field `i` of the tab-split line
is assigned, whitespace-trimmed, to declared column `i`; a missing
trailing field maps to the empty string; extra fields are ignored (the
zip stops at the declared columns). -/
def buildRow (columns values : List String) : StrMap :=
  (columns.zip (values ++ List.replicate (columns.length - values.length) "")).foldl
    (fun row p => mapSet row p.1 (goTrimSpace p.2)) []

/-- The scan loop of `parseALE` (`decoder.go` 90–151).  State: `inHeading`,
`inData`, and the currently declared `columns`.  The `Column` branch
consumes the following line as the column list (when the scanner has
one). -/
def parseALEAux : List String → Bool → Bool → List String → ALEFile → ALEFile
  | [], _, _, _, acc => acc
  | line :: rest, inHeading, inData, columns, acc =>
    let trimmed := goTrimSpace line
    if trimmed = "" then parseALEAux rest inHeading inData columns acc
    else if goHasPrefix trimmed HeaderHeading then parseALEAux rest true inData columns acc
    else if goHasPrefix trimmed HeaderColumn then
      match rest with
      | [] => acc
      | columnLine :: rest2 =>
        let cols := (splitTabs columnLine).map goTrimSpace
        parseALEAux rest2 false inData cols { acc with columns := cols }
    else if goHasPrefix trimmed HeaderData then parseALEAux rest inHeading true columns acc
    else if inHeading then
      match splitTabs line with
      | k :: v :: _ =>
        parseALEAux rest inHeading inData columns
          { acc with headers := mapSet acc.headers (goTrimSpace k) (goTrimSpace v) }
      | _ => parseALEAux rest inHeading inData columns acc
    else if inData ∧ columns ≠ [] then
      match splitTabs line with
      | [] => parseALEAux rest inHeading inData columns acc
      | values => parseALEAux rest inHeading inData columns
          { acc with rows := acc.rows ++ [buildRow columns values] }
    else parseALEAux rest inHeading inData columns acc

/-- Model of `Decoder.parseALE` (`decoder.go`), over the sequence of
scanner lines (stream read errors are outside the model). -/
def parseALE (lines : List String) : ALEFile :=
  parseALEAux lines false false [] NewALEFile

/-- The section parser as the C6 spec sentence words it: a mode switch
happens exactly on lines EQUAL (after trimming) to the literal section
names.  This definition follows the spec's words — not the source, which
tests prefixes — for comparison against `parseALEAux`. -/
def parseALESpecEqAux : List String → Bool → Bool → List String → ALEFile → ALEFile
  | [], _, _, _, acc => acc
  | line :: rest, inHeading, inData, columns, acc =>
    let trimmed := goTrimSpace line
    if trimmed = "" then parseALESpecEqAux rest inHeading inData columns acc
    else if trimmed = HeaderHeading then parseALESpecEqAux rest true inData columns acc
    else if trimmed = HeaderColumn then
      match rest with
      | [] => acc
      | columnLine :: rest2 =>
        let cols := (splitTabs columnLine).map goTrimSpace
        parseALESpecEqAux rest2 false inData cols { acc with columns := cols }
    else if trimmed = HeaderData then parseALESpecEqAux rest inHeading true columns acc
    else if inHeading then
      match splitTabs line with
      | k :: v :: _ =>
        parseALESpecEqAux rest inHeading inData columns
          { acc with headers := mapSet acc.headers (goTrimSpace k) (goTrimSpace v) }
      | _ => parseALESpecEqAux rest inHeading inData columns acc
    else if inData ∧ columns ≠ [] then
      match splitTabs line with
      | [] => parseALESpecEqAux rest inHeading inData columns acc
      | values => parseALESpecEqAux rest inHeading inData columns
          { acc with rows := acc.rows ++ [buildRow columns values] }
    else parseALESpecEqAux rest inHeading inData columns acc

/-- The whole-file spec-worded parser for the C6 comparison. -/
def parseALESpecEq (lines : List String) : ALEFile :=
  parseALESpecEqAux lines false false [] NewALEFile

/-! ## The gotio timeline model

The decoder populates and the encoder reads entities of the external
`gotio` library.  They are modelled structurally, holding exactly the
fields the codec touches (spec §6: name, source range, media reference
target and available range, and the `metadata["cdl"]` /
`metadata["ALE"]` entries, the latter string-valued). -/

def TrackKindVideo : String := "Video"
def TrackKindAudio : String := "Audio"

/-- Model of a gotio media reference. -/
inductive MediaRef
  | external (name targetURL : String) (availableRange : Option TimeRange)
  | missing (name : String) (availableRange : Option TimeRange)
deriving DecidableEq

def MediaRef.availableRange : MediaRef → Option TimeRange
  | .external _ _ ar => ar
  | .missing _ ar => ar

/-- Model of a gotio clip, as far as the codec reads or writes it. -/
structure Clip where
  name : String
  sourceRange : Option TimeRange
  mediaRef : MediaRef
  cdl : Option CDLData
  ale : StrMap
deriving DecidableEq

structure Track where
  name : String
  kind : String
  children : List Clip
deriving DecidableEq

structure Timeline where
  name : String
  tracks : List Track
deriving DecidableEq

/-- Model of `Timeline.FindClips(nil, false)`: all clips in track order. -/
def Timeline.findClips (t : Timeline) : List Clip := (t.tracks.map Track.children).flatten

def Timeline.videoTracks (t : Timeline) : List Track :=
  t.tracks.filter (fun tr => tr.kind == TrackKindVideo)

def Timeline.audioTracks (t : Timeline) : List Track :=
  t.tracks.filter (fun tr => tr.kind == TrackKindAudio)

/-! ## `decoder.go`: row conversion and timeline assembly -/

/-- Model of the `Decoder` configuration. -/
structure Decoder where
  fps : ℚ
  nameColumnKey : String
  dropFrame : Bool

/-- `NewDecoder` defaults (`decoder.go`). -/
def NewDecoder : Decoder := ⟨DefaultFPS, ColumnName, false⟩

/-- The distinct failures of `rowToClip` (`decoder.go` 345–380). -/
inductive RowError
  | invalidStartTimecode (tc : String)
  | invalidEndTimecode (tc : String)
  | invalidDuration (s : String)
deriving DecidableEq

/-- The failures of `aleToTimeline`/`Decode` (`decoder.go`). -/
inductive DecodeError
  | emptyInput
  | rowError (index : ℕ) (e : RowError)
deriving DecidableEq

/-- The time-range phase of `Decoder.rowToClip` (`decoder.go` 339–380):
a Start/End pair wins, else Duration (as frame count, falling back to
timecode) with an optional Start, else no range. -/
def rowSourceRange (d : Decoder) (row : StrMap) : Except RowError (Option TimeRange) :=
  let startTC := getRow row ColumnStart
  let endTC := getRow row ColumnEnd
  let durationStr := getRow row ColumnDuration
  if startTC ≠ "" ∧ endTC ≠ "" then
    match parseTimecode startTC d.fps with
    | .error _ => .error (.invalidStartTimecode startTC)
    | .ok startTime =>
      match parseTimecode endTC d.fps with
      | .error _ => .error (.invalidEndTimecode endTC)
      | .ok endTime =>
        .ok (some ⟨startTime, durationFromStartEndTime startTime endTime⟩)
  else if durationStr ≠ "" then
    let durE : Except RowError RationalTime :=
      match parseFrameNumber durationStr d.fps with
      | .ok dur => .ok dur
      | .error _ =>
        match parseTimecode durationStr d.fps with
        | .ok dur => .ok dur
        | .error _ => .error (.invalidDuration durationStr)
    match durE with
    | .error e => .error e
    | .ok duration =>
      if startTC ≠ "" then
        match parseTimecode startTC d.fps with
        | .error _ => .error (.invalidStartTimecode startTC)
        | .ok startTime => .ok (some ⟨startTime, duration⟩)
      else .ok (some ⟨⟨0, d.fps⟩, duration⟩)
  else .ok none

/-- Model of `Decoder.rowToClip` (`decoder.go` 332–456). -/
def rowToClip (d : Decoder) (row : StrMap) (index : ℕ) : Except RowError Clip :=
  let name0 := getRow row d.nameColumnKey
  let name := if name0 = "" then "Clip " ++ natToStr (index + 1) else name0
  match rowSourceRange d row with
  | .error e => .error e
  | .ok sourceRange =>
    let sf0 := getRow row ColumnSourceFile
    let sourceFile := if sf0 = "" then getRow row ColumnTape else sf0
    let mediaRef : MediaRef :=
      if sourceFile ≠ "" then .external sourceFile sourceFile sourceRange
      else .missing name sourceRange
    let ascSOP := getRow row "ASC_SOP"
    let ascSat := getRow row "ASC_SAT"
    let cdl : Option CDLData :=
      if ascSOP ≠ "" ∨ ascSat ≠ "" then
        match parseASCCDL ascSOP ascSat with
        | (c, none) => c
        | (_, some _) => none
      else none
    let excluded : List String :=
      [d.nameColumnKey, ColumnStart, ColumnEnd, ColumnDuration,
       ColumnSourceFile, ColumnTape, "ASC_SOP", "ASC_SAT"]
    let aleMetadata := row.filter (fun p => !(excluded.contains p.1) && !(p.2 == ""))
    .ok ⟨name, sourceRange, mediaRef, cdl, aleMetadata⟩

/-- Model of Go `strings.ToUpper` (ASCII; the track values the codec
compares are ASCII). -/
def goToUpper (s : String) : String := ⟨s.data.map Char.toUpper⟩

/-- Model of `Decoder.parseTrackKind` (`decoder.go`). -/
def parseTrackKind (tracksValue : String) : String :=
  let tv := goToUpper (goTrimSpace tracksValue)
  if goContains tv "V" && goContains tv "A" then TrackKindVideo
  else if goContains tv "A" then TrackKindAudio
  else TrackKindVideo

/-- Model of `strings.Compare`. -/
def strCompare (a b : String) : ℤ :=
  if charsLt a.data b.data then -1 else if charsLt b.data a.data then 1 else 0

/-- Model of `compareTrackKeys` (`decoder.go`). -/
def compareTrackKeys (a b : String) : ℤ :=
  let aHasV := goContains a "V"
  let aHasA := goContains a "A"
  let bHasV := goContains b "V"
  let bHasA := goContains b "A"
  if aHasV && aHasA && bHasV && bHasA then strCompare a b
  else if aHasV && aHasA then -1
  else if bHasV && bHasA then 1
  else if aHasV && bHasA then -1
  else if aHasA && bHasV then 1
  else strCompare a b

/-- The inner loop of `sortTrackKeys` (`decoder.go`): the element at
position `i` is compared against each later element, swapping when out
of order; the result is the final element at `i` and the updated tail. -/
def sortTrackKeysInner (x : String) : List String → String × List String
  | [] => (x, [])
  | y :: rest =>
    if compareTrackKeys x y > 0 then
      let p := sortTrackKeysInner y rest
      (p.1, x :: p.2)
    else
      let p := sortTrackKeysInner x rest
      (p.1, y :: p.2)

/-- The outer loop of `sortTrackKeys`: the Go loop runs once per index,
so the iteration count is the list length (the inner pass preserves
length). -/
def sortTrackKeysGo : ℕ → List String → List String
  | 0, l => l
  | _, [] => []
  | fuel + 1, x :: rest =>
    let p := sortTrackKeysInner x rest
    p.1 :: sortTrackKeysGo fuel p.2

/-- Model of `sortTrackKeys` (`decoder.go`): the in-place exchange sort. -/
def sortTrackKeys (keys : List String) : List String := sortTrackKeysGo keys.length keys

/-- Sequential conversion of rows to clips (the single-track branch of
`aleToTimeline`), indexing rows from 0. -/
def rowsToClips (d : Decoder) : List StrMap → ℕ → Except DecodeError (List Clip)
  | [], _ => .ok []
  | row :: rest, i =>
    match rowToClip d row i with
    | .error e => .error (.rowError i e)
    | .ok clip =>
      match rowsToClips d rest (i + 1) with
      | .error e => .error e
      | .ok clips => .ok (clip :: clips)

/-- The grouping loop of `aleToTimeline` (Tracks-column branch): each
clip is appended to the track for its `Tracks` value (key `"V"` when
blank); a track is created with that row's kind on first use.  The
accumulator lists groups in first-encounter order; the Go `trackMap` is
unordered but is only read through the sorted key list. -/
def groupRows (d : Decoder) : List StrMap → ℕ →
    List (String × String × List Clip) →
    Except DecodeError (List (String × String × List Clip))
  | [], _, acc => .ok acc
  | row :: rest, i, acc =>
    match rowToClip d row i with
    | .error e => .error (.rowError i e)
    | .ok clip =>
      let tracksValue := getRow row ColumnTracks
      let trackKind := parseTrackKind tracksValue
      let trackKey := if tracksValue = "" then "V" else tracksValue
      let acc' :=
        if (acc.find? (fun p => p.1 == trackKey)).isSome then
          acc.map (fun p => if p.1 == trackKey then (p.1, p.2.1, p.2.2 ++ [clip]) else p)
        else acc ++ [(trackKey, trackKind, [clip])]
      groupRows d rest (i + 1) acc'

/-- Model of `Decoder.aleToTimeline` (`decoder.go` 161–266). -/
def aleToTimeline (d : Decoder) (f : ALEFile) : Except DecodeError Timeline :=
  if f.rows = [] then .error .emptyInput
  else if ColumnTracks ∈ f.columns then
    match groupRows d f.rows 0 [] with
    | .error e => .error e
    | .ok groups =>
      let sortedKeys := sortTrackKeys (groups.map Prod.fst)
      let tracks := sortedKeys.filterMap (fun key =>
        (groups.find? (fun p => p.1 == key)).map (fun p => Track.mk key p.2.1 p.2.2))
      .ok ⟨"ALE Timeline", tracks⟩
  else
    match rowsToClips d f.rows 0 with
    | .error e => .error e
    | .ok clips => .ok ⟨"ALE Timeline", [⟨"Video", TrackKindVideo, clips⟩]⟩

/-- Model of `Decoder.Decode` (`decoder.go` 63–78): parse the file, let a
parseable FPS header override the configured rate and re-derive the
drop-frame flag, then convert. -/
def Decode (d : Decoder) (lines : List String) : Except DecodeError Timeline :=
  let aleFile := parseALE lines
  let d' :=
    match mapGet aleFile.headers HeaderFPS with
    | some fpsStr =>
      match parseFPS fpsStr with
      | .ok fps => { d with fps := fps, dropFrame := isDropFrame fps }
      | .error _ => d
    | none => d
  aleToTimeline d' aleFile

/-- `bufio.dropCR`: drop one terminal carriage return from a scanned
line. -/
def dropCR (l : List Char) : List Char :=
  if l.getLast? = some '\r' then l.dropLast else l

/-- Model of the `bufio.Scanner` with the default `ScanLines` split that
`parseALE` runs over the decoder's reader: the contents are split at
every newline, the empty final token left by a terminating newline (or
by empty input) yields no line, and each line loses one trailing
carriage return. -/
def scanLines (s : String) : List String :=
  let ts := splitOnChar '\n' s.data
  (if ts.getLast? = some [] then ts.dropLast else ts).map (fun l => (⟨dropCR l⟩ : String))

/-! ## The encoder -/

/-- Model of the `Encoder` configuration. -/
structure Encoder where
  fps : ℚ
  dropFrame : Bool
  columns : List String

/-- `NewEncoder` defaults. -/
def NewEncoder : Encoder := ⟨DefaultFPS, false, []⟩

/-- Model of `Encoder.inferVideoFormat`: scan the clips' `Image Size`
metadata for the largest height and map it to an Avid format name. -/
def inferVideoFormat (clips : List Clip) : String :=
  let wh := clips.foldl (fun (acc : ℕ × ℕ) c =>
    match mapGet c.ale "Image Size" with
    | some s =>
      match parseImageSize s with
      | some (w, h) => if h > acc.2 then (w, h) else acc
      | none => acc
    | none => acc) (0, 0)
  if wh.2 > 0 then videoFormatFromDimensions wh.1 wh.2 else "1080"

def addUnique (l : List String) (k : String) : List String :=
  if k ∈ l then l else l ++ [k]

/-- The extra-column contributions of one clip, in the order the Go loop
inspects them: Source File (external reference with non-empty target),
the clip's residual `ALE` metadata keys, then the CDL columns. -/
def clipExtraColumns (c : Clip) : List String :=
  (match c.mediaRef with
   | .external _ target _ => if target ≠ "" then [ColumnSourceFile] else []
   | .missing _ _ => []) ++
  c.ale.map Prod.fst ++
  (match c.cdl with
   | some cdl =>
     (if cdl.ascSOP.isSome then ["ASC_SOP"] else []) ++
     (if cdl.ascSat.isSome then ["ASC_SAT"] else [])
   | none => [])

/-- Model of `Encoder.determineColumns`.  The Go code collects the extra
columns into a `map[string]bool` and sorts the key set with a pairwise
exchange sort on `>`; the model deduplicates in encounter order and
insertion-sorts under the same byte order, which yields the same sorted
key set. -/
def determineColumns (e : Encoder) (t : Timeline) : List String :=
  if e.columns ≠ [] then e.columns
  else
    let base := [ColumnName, ColumnStart, ColumnEnd, ColumnDuration]
    let base :=
      if t.videoTracks ≠ [] ∨ t.audioTracks ≠ [] then base ++ [ColumnTracks] else base
    let extras := t.findClips.foldl (fun acc c => (clipExtraColumns c).foldl addUnique acc) []
    base ++ List.insertionSort strLe extras

/-- The extra-column pool `determineColumns` actually sorts: every
clip's contributions, deduplicated in encounter order. -/
def encodeExtras (t : Timeline) : List String :=
  t.findClips.foldl (fun acc c => (clipExtraColumns c).foldl addUnique acc) []

/-- The column inference as the specification words it: the base
columns, then Tracks when the timeline has tracks, then the Source File
column when some clip has an external reference with a non-empty target,
then ASC_SOP / ASC_SAT when some clip carries the corresponding CDL
field, and finally the deduplicated residual metadata keys alone in
lexically sorted order; an explicit caller column list overrides all
inference.  Stated for comparison with `determineColumns`. -/
def determineColumnsSpec (e : Encoder) (t : Timeline) : List String :=
  if e.columns ≠ [] then e.columns
  else
    let base := [ColumnName, ColumnStart, ColumnEnd, ColumnDuration]
    let base :=
      if t.videoTracks ≠ [] ∨ t.audioTracks ≠ [] then base ++ [ColumnTracks] else base
    let hasSF := t.findClips.any (fun c =>
      match c.mediaRef with
      | .external _ target _ => target != ""
      | .missing _ _ => false)
    let hasSOP := t.findClips.any (fun c =>
      match c.cdl with
      | some cdl => cdl.ascSOP.isSome
      | none => false)
    let hasSat := t.findClips.any (fun c =>
      match c.cdl with
      | some cdl => cdl.ascSat.isSome
      | none => false)
    let residual := t.findClips.foldl (fun acc c => (c.ale.map Prod.fst).foldl addUnique acc) []
    base ++ (if hasSF then [ColumnSourceFile] else []) ++
      (if hasSOP then ["ASC_SOP"] else []) ++
      (if hasSat then ["ASC_SAT"] else []) ++
      List.insertionSort strLe residual

/-- A concrete clip whose extra columns mix all three sources: an
external reference with a non-empty target, a CDL saturation, and one
residual metadata key. -/
def c8Clip : Clip :=
  ⟨"C", none, .external "C" "file.mov" none, some ⟨none, some 1⟩, [("Scene", "5")]⟩

def c8Timeline : Timeline := ⟨"T", [⟨"V1", TrackKindVideo, [c8Clip]⟩]⟩

/-- The effective source range used by `clipToRow`: the clip's source
range, else the media reference's available range. -/
def encSourceRange (c : Clip) : Option TimeRange :=
  match c.sourceRange with
  | some r => some r
  | none => c.mediaRef.availableRange

/-- Model of `Encoder.clipToRow`: fill each requested column from the
clip.  Metadata values are strings in this model (the Go `%v` fallback
for non-string metadata values is outside it). -/
def clipToRow (e : Encoder) (c : Clip) : List String → StrMap → Except String StrMap
  | [], row => .ok row
  | col :: rest, row =>
    if col = ColumnName then clipToRow e c rest (mapSet row col c.name)
    else if col = ColumnStart then
      match encSourceRange c with
      | some r =>
        match formatTimecode r.startTime e.fps e.dropFrame with
        | .ok tc => clipToRow e c rest (mapSet row col tc)
        | .error msg => .error msg
      | none => clipToRow e c rest row
    else if col = ColumnEnd then
      match encSourceRange c with
      | some r =>
        match formatTimecode r.endTimeExclusive e.fps e.dropFrame with
        | .ok tc => clipToRow e c rest (mapSet row col tc)
        | .error msg => .error msg
      | none => clipToRow e c rest row
    else if col = ColumnDuration then
      match encSourceRange c with
      | some r => clipToRow e c rest (mapSet row col (formatFrameNumber r.duration e.fps))
      | none => clipToRow e c rest row
    else if col = ColumnTracks then clipToRow e c rest (mapSet row col "V")
    else if col = ColumnSourceFile ∨ col = ColumnTape then
      match c.mediaRef with
      | .external _ target _ => clipToRow e c rest (mapSet row col target)
      | .missing _ _ => clipToRow e c rest row
    else if col = "ASC_SOP" then
      match c.cdl with
      | some cdl =>
        match cdl.ascSOP with
        | some sop => clipToRow e c rest (mapSet row col (formatASCSOP sop))
        | none => clipToRow e c rest row
      | none => clipToRow e c rest row
    else if col = "ASC_SAT" then
      match c.cdl with
      | some cdl =>
        match cdl.ascSat with
        | some sat => clipToRow e c rest (mapSet row col (formatFixed 1 sat))
        | none => clipToRow e c rest row
      | none => clipToRow e c rest row
    else
      match mapGet c.ale col with
      | some v => clipToRow e c rest (mapSet row col v)
      | none => clipToRow e c rest row

/-- The value `clipToRow` writes for one requested column of a clip when
the column's branch succeeds (`none` when the branch writes nothing);
the branch structure mirrors `clipToRow` exactly. -/
def clipCell (e : Encoder) (c : Clip) (col : String) : Option String :=
  if col = ColumnName then some c.name
  else if col = ColumnStart then
    match encSourceRange c with
    | some r => (formatTimecode r.startTime e.fps e.dropFrame).toOption
    | none => none
  else if col = ColumnEnd then
    match encSourceRange c with
    | some r => (formatTimecode r.endTimeExclusive e.fps e.dropFrame).toOption
    | none => none
  else if col = ColumnDuration then
    match encSourceRange c with
    | some r => some (formatFrameNumber r.duration e.fps)
    | none => none
  else if col = ColumnTracks then some "V"
  else if col = ColumnSourceFile ∨ col = ColumnTape then
    match c.mediaRef with
    | .external _ target _ => some target
    | .missing _ _ => none
  else if col = "ASC_SOP" then
    match c.cdl with
    | some cdl => cdl.ascSOP.map formatASCSOP
    | none => none
  else if col = "ASC_SAT" then
    match c.cdl with
    | some cdl => cdl.ascSat.map (formatFixed 1)
    | none => none
  else mapGet c.ale col

/-- The section lines that `Encoder.writeALE` accumulates in its
`lines` slice, in emission order. -/
def writeALELines (f : ALEFile) : List String :=
  [HeaderHeading] ++ f.headers.map (fun p => p.1 ++ "\t" ++ p.2) ++ [""] ++
  [HeaderColumn, joinTabs f.columns, ""] ++
  [HeaderData] ++
  f.rows.map (fun row => joinTabs (f.columns.map (fun col => getRow row col)))

/-- Model of `Encoder.writeALE`: the accumulated lines are joined with
`"\n"` (`strings.Join`) and a terminating newline is appended when the
join does not already end in one; the resulting string is what reaches
the encoder's writer. -/
def writeALE (f : ALEFile) : String :=
  let output : List Char := List.intercalate ['\n'] ((writeALELines f).map String.data)
  if output.getLast? = some '\n' then ⟨output⟩ else ⟨output ++ ['\n']⟩

/-- The clip loop of `timelineToALE`. -/
def clipsToRows (e : Encoder) (columns : List String) : List Clip → Except String (List StrMap)
  | [] => .ok []
  | c :: cs =>
    match clipToRow e c columns [] with
    | .error msg => .error msg
    | .ok row =>
      match clipsToRows e columns cs with
      | .error msg => .error msg
      | .ok rows => .ok (row :: rows)

/-- Model of `Encoder.timelineToALE`.  The Go header map is unordered;
the model lists the four insertions in program order (the decoder reads
headers only by key, so order is unobservable). -/
def timelineToALE (e : Encoder) (t : Timeline) : Except String ALEFile :=
  let clips := t.findClips
  let headers :=
    mapSet (mapSet (mapSet (mapSet [] HeaderFieldDelim DefaultFieldDelim)
      HeaderAudioFormat "48kHz") HeaderFPS (formatFixed 2 e.fps))
      HeaderVideoFormat (inferVideoFormat clips)
  let columns := determineColumns e t
  match clipsToRows e columns clips with
  | .error msg => .error msg
  | .ok rows => .ok ⟨headers, columns, rows⟩

/-- Model of `Encoder.Encode` (a nil timeline cannot be expressed in the
model, so the `NilTimeline` guard has no counterpart): convert and
serialize; the result is the string written to the encoder's writer. -/
def Encode (e : Encoder) (t : Timeline) : Except String String :=
  match timelineToALE e t with
  | .error msg => .error msg
  | .ok f => .ok (writeALE f)

/-! ## Round-trip side conditions

The predicates below delimit the timelines for which the encode→decode
round trip can be compared field by field: residual metadata that the
tab-separated, whitespace-trimming ALE format can carry at all, names
that no line of the file can mistake for a section marker, and frame
ranges that the default 24 fps timecode columns represent exactly. -/

/-- The rendered `HH:MM:SS:FF` shape produced by `toTimecode`. -/
def tcRender (a b c d : ℕ) : String :=
  pad2 a ++ ":" ++ pad2 b ++ ":" ++ pad2 c ++ ":" ++ pad2 d

/-- A residual metadata key that the ALE row format can store and
return: trim-stable, free of the tab cell separator and of the newline
and carriage-return characters the line scanner consumes, non-empty and
distinct from every column the decoder consumes specially. -/
def goodKey (k : String) : Prop :=
  goTrimSpace k = k ∧ '\t' ∉ k.data ∧ '\n' ∉ k.data ∧ '\r' ∉ k.data ∧ k ≠ "" ∧
  k ∉ [ColumnName, ColumnStart, ColumnEnd, ColumnDuration, ColumnTracks,
       ColumnSourceFile, ColumnTape, "ASC_SOP", "ASC_SAT"]

/-- A residual metadata value that survives a data cell: trim-stable,
free of tabs, newlines and carriage returns, and non-empty (an empty
cell reads back as an absent key; an embedded newline would split the
data line in the scanner). -/
def goodVal (v : String) : Prop :=
  goTrimSpace v = v ∧ '\t' ∉ v.data ∧ '\n' ∉ v.data ∧ '\r' ∉ v.data ∧ v ≠ ""

/-- A clip name that survives a data cell (trim-stable, no tab, newline
or carriage return) and whose data line cannot be taken for a section
marker (the parser switches modes on any line whose trimmed text merely
starts with `Heading`, `Column` or `Data`, so names opening with those
initials are kept out). -/
def goodName (n : String) : Prop :=
  goTrimSpace n = n ∧ '\t' ∉ n.data ∧ '\n' ∉ n.data ∧ '\r' ∉ n.data ∧
  ∃ ch t, n.data = ch :: t ∧ ch ≠ 'H' ∧ ch ≠ 'C' ∧ ch ≠ 'D'

/-- A clip the default-configuration round trip reproduces: good name,
a source range of whole frames at the default 24 fps rate, a missing
media reference without available range, no CDL metadata, and residual
metadata with distinct good keys and good values. -/
def GoodClip (c : Clip) : Prop :=
  goodName c.name ∧
  (∃ s dur : ℕ, c.sourceRange = some ⟨⟨(s : ℚ), DefaultFPS⟩, ⟨(dur : ℚ), DefaultFPS⟩⟩) ∧
  (∃ m, c.mediaRef = .missing m none) ∧
  c.cdl = none ∧
  (c.ale.map Prod.fst).Nodup ∧
  ∀ p ∈ c.ale, goodKey p.1 ∧ goodVal p.2

/-- A timeline the default-configuration round trip reproduces clip by
clip: at least one clip, at least one video track, every clip good. -/
def GoodTimeline (t : Timeline) : Prop :=
  t.findClips ≠ [] ∧ t.videoTracks ≠ [] ∧ ∀ c ∈ t.findClips, GoodClip c

/-- How a decoded clip relates to the clip it was encoded from: same
name, the same time range (start exactly, duration by value and rate),
and the same residual metadata except for the decoder's extra
`Tracks ↦ V` entry. -/
def c1Rel (c' c : Clip) : Prop :=
  c'.name = c.name ∧
  (∀ r, c.sourceRange = some r → ∃ r', c'.sourceRange = some r' ∧
    r'.startTime = r.startTime ∧ r'.duration.value = r.duration.value ∧
    r'.duration.rate = r.duration.rate) ∧
  (∀ k, mapGet c'.ale k = if k = ColumnTracks then some "V" else mapGet c.ale k)

/-- A concrete good timeline: one video track, one clip with a whole
range at 24 fps and one residual metadata entry. -/
def c1Clip : Clip :=
  ⟨"X", some ⟨⟨((0 : ℕ) : ℚ), DefaultFPS⟩, ⟨((24 : ℕ) : ℚ), DefaultFPS⟩⟩,
   .missing "X" none, none, [("Scene", "5")]⟩

def c1Timeline : Timeline := ⟨"T", [⟨"V1", TrackKindVideo, [c1Clip]⟩]⟩


/-! ## Supporting lemmas -/

theorem splitOnChar_ne_nil (sep : Char) (l : List Char) : splitOnChar sep l ≠ [] := by
  cases l with
  | nil => simp [splitOnChar]
  | cons c rest =>
    simp only [splitOnChar]
    split
    · simp
    · split <;> simp

theorem charsLt_asymm : ∀ a b : List Char, charsLt a b = true → charsLt b a = false
  | [], [] => by simp [charsLt]
  | [], _ :: _ => by simp [charsLt]
  | _ :: _, [] => by simp [charsLt]
  | a :: as, b :: bs => by
    simp only [charsLt]
    intro h
    rcases Nat.lt_trichotomy a.toNat b.toNat with hc | hc | hc
    · rw [if_neg (by omega), if_pos hc]
    · rw [if_neg (by omega), if_neg (by omega)] at h ⊢
      exact charsLt_asymm as bs h
    · rw [if_neg (by omega), if_pos hc] at h
      cases h

theorem charsLt_total : ∀ a b : List Char, charsLt a b = false → charsLt b a = false → a = b
  | [], [] => by simp
  | [], _ :: _ => by simp [charsLt]
  | _ :: _, [] => by simp [charsLt]
  | a :: as, b :: bs => by
    simp only [charsLt]
    intro h1 h2
    rcases Nat.lt_trichotomy a.toNat b.toNat with hc | hc | hc
    · rw [if_pos hc] at h1; cases h1
    · rw [if_neg (by omega), if_neg (by omega)] at h1 h2
      have hab : a = b := by
        have := congrArg Char.ofNat hc
        rwa [Char.ofNat_toNat, Char.ofNat_toNat] at this
      rw [hab, charsLt_total as bs h1 h2]
    · rw [if_pos hc] at h2; cases h2

theorem charsLt_trans : ∀ a b c : List Char,
    charsLt a b = true → charsLt b c = true → charsLt a c = true
  | [], [], [] => by simp [charsLt]
  | [], _ :: _, [] => by simp [charsLt]
  | [], [], _ :: _ => by simp [charsLt]
  | [], _ :: _, _ :: _ => by simp [charsLt]
  | _ :: _, [], _ => by simp [charsLt]
  | _ :: _, _ :: _, [] => by simp [charsLt]
  | a :: as, b :: bs, c :: cs => by
    simp only [charsLt]
    intro h1 h2
    rcases Nat.lt_trichotomy a.toNat b.toNat with hab | hab | hab
    · rcases Nat.lt_trichotomy b.toNat c.toNat with hbc | hbc | hbc
      · rw [if_pos (by omega)]
      · rw [if_pos (by omega)]
      · rw [if_neg (by omega), if_pos hbc] at h2; cases h2
    · rw [if_neg (by omega), if_neg (by omega)] at h1
      rcases Nat.lt_trichotomy b.toNat c.toNat with hbc | hbc | hbc
      · rw [if_pos (by omega)]
      · rw [if_neg (by omega), if_neg (by omega)] at h2
        rw [if_neg (by omega), if_neg (by omega)]
        exact charsLt_trans as bs cs h1 h2
      · rw [if_neg (by omega), if_pos hbc] at h2; cases h2
    · rw [if_neg (by omega), if_pos hab] at h1; cases h1

instance : IsTotal String strLe :=
  ⟨fun a b => by
    unfold strLe
    by_cases h : charsLt b.data a.data = true
    · right
      exact charsLt_asymm _ _ h
    · left
      simpa using h⟩

instance : IsTrans String strLe :=
  ⟨fun a b c hab hbc => by
    unfold strLe at *
    by_cases h : charsLt c.data a.data = true
    · by_cases h2 : charsLt a.data b.data = true
      · have := charsLt_trans _ _ _ h h2
        rw [this] at hbc; cases hbc
      · have hba : a.data = b.data := charsLt_total _ _ (by simpa using h2) hab
        rw [← hba, h] at hbc; cases hbc
    · simpa using h⟩

instance : IsAntisymm String strLe :=
  ⟨fun a b hab hba => by
    unfold strLe at *
    have h := charsLt_total a.data b.data hba hab
    cases a; cases b
    exact congrArg String.mk h⟩

theorem digitsVal_append_one (l : List Char) (c : Char) :
    digitsVal (l ++ [c]) = 10 * digitsVal l + digitVal c := by
  simp [digitsVal, List.foldl_append]

theorem digitVal_digitChar (n : ℕ) (h : n < 10) : digitVal (digitChar n) = n := by
  interval_cases n <;> decide

theorem isDigitChar_digitChar (n : ℕ) (h : n < 10) : isDigitChar (digitChar n) = true := by
  interval_cases n <;> decide

theorem digitsVal_natDigitsRev (n : ℕ) : digitsVal (natDigitsRev n).reverse = n := by
  induction n using Nat.strong_induction_on with
  | _ n ih =>
    unfold natDigitsRev
    split
    · simpa [digitsVal] using digitVal_digitChar n (by omega)
    · have hlt : n / 10 < n := Nat.div_lt_self (by omega) (by omega)
      simp only [List.reverse_cons, digitsVal_append_one, ih _ hlt,
        digitVal_digitChar (n % 10) (Nat.mod_lt _ (by omega))]
      omega

theorem natDigitsRev_all_digits (n : ℕ) : ∀ c ∈ natDigitsRev n, isDigitChar c = true := by
  induction n using Nat.strong_induction_on with
  | _ n ih =>
    unfold natDigitsRev
    split
    · intro c hc
      simp only [List.mem_singleton] at hc
      exact hc ▸ isDigitChar_digitChar n (by omega)
    · intro c hc
      simp only [List.mem_cons] at hc
      rcases hc with hc | hc
      · exact hc ▸ isDigitChar_digitChar _ (Nat.mod_lt _ (by omega))
      · exact ih _ (Nat.div_lt_self (by omega) (by omega)) c hc

theorem natDigitsRev_ne_nil (n : ℕ) : natDigitsRev n ≠ [] := by
  unfold natDigitsRev
  split <;> simp

/-! ### Trimming -/

theorem dropWhile_head_not {p : Char → Bool} :
    ∀ {l : List Char} {c : Char}, (l.dropWhile p).head? = some c → p c = false
  | [], c => by simp [List.dropWhile]
  | a :: l, c => by
    rw [List.dropWhile_cons]
    split
    · exact dropWhile_head_not
    · intro h
      injection h with h
      subst h
      simp_all

theorem dropWhile_eq_self_of_head {p : Char → Bool} {l : List Char}
    (h : ∀ c, l.head? = some c → p c = false) : l.dropWhile p = l := by
  cases l with
  | nil => rfl
  | cons a l => rw [List.dropWhile_cons, if_neg (by simp [h a rfl])]

theorem dropWhile_dropWhile (p : Char → Bool) (l : List Char) :
    (l.dropWhile p).dropWhile p = l.dropWhile p :=
  dropWhile_eq_self_of_head fun _ hc => dropWhile_head_not hc

theorem prefix_head? {l₁ l₂ : List Char} (h : l₁ <+: l₂) (hne : l₁ ≠ []) :
    l₂.head? = l₁.head? := by
  obtain ⟨t, rfl⟩ := h
  cases l₁ with
  | nil => exact absurd rfl hne
  | cons a l => rfl

theorem trimList_prefix_dropWhile (l : List Char) :
    trimList l <+: l.dropWhile goIsSpace := by
  unfold trimList
  have h : ((l.dropWhile goIsSpace).reverse.dropWhile goIsSpace) <:+
      (l.dropWhile goIsSpace).reverse := List.dropWhile_suffix _
  have := List.reverse_prefix.mpr (by simpa using h)
  simpa using this

theorem trimList_idem (l : List Char) : trimList (trimList l) = trimList l := by
  have h1 : (trimList l).dropWhile goIsSpace = trimList l := by
    apply dropWhile_eq_self_of_head
    intro c hc
    have hpre := trimList_prefix_dropWhile l
    have hne : trimList l ≠ [] := by
      intro h0; rw [h0] at hc; cases hc
    have := prefix_head? hpre hne
    exact dropWhile_head_not (by rw [this, hc])
  show ((((trimList l).dropWhile goIsSpace).reverse).dropWhile goIsSpace).reverse = trimList l
  rw [h1]
  have h2 : (trimList l).reverse.dropWhile goIsSpace = (trimList l).reverse := by
    unfold trimList
    rw [List.reverse_reverse]
    exact dropWhile_dropWhile _ _
  rw [h2, List.reverse_reverse]

theorem goTrimSpace_idem (s : String) : goTrimSpace (goTrimSpace s) = goTrimSpace s :=
  congrArg String.mk (trimList_idem s.data)

theorem dropWhile_eq_self_of_all {p : Char → Bool} {l : List Char}
    (h : ∀ c ∈ l, p c = false) : l.dropWhile p = l := by
  apply dropWhile_eq_self_of_head
  intro c hc
  cases l with
  | nil => cases hc
  | cons a t => exact h c (by injection hc with hc; exact hc ▸ List.mem_cons_self a t)

theorem trimList_eq_self_of_all {l : List Char}
    (h : ∀ c ∈ l, goIsSpace c = false) : trimList l = l := by
  unfold trimList
  rw [dropWhile_eq_self_of_all h, dropWhile_eq_self_of_all (by simpa using h),
    List.reverse_reverse]

theorem goTrimSpace_eq_self_of_all {s : String}
    (h : ∀ c ∈ s.data, goIsSpace c = false) : goTrimSpace s = s := by
  unfold goTrimSpace
  rw [trimList_eq_self_of_all h]

theorem goTrimSpace_nil : goTrimSpace ⟨[]⟩ = ⟨[]⟩ := rfl

/-! ### Splitting and joining -/

theorem splitOnChar_of_not_mem {sep : Char} :
    ∀ {l : List Char}, sep ∉ l → splitOnChar sep l = [l]
  | [], _ => rfl
  | c :: rest, h => by
    have hc : ¬c = sep := fun hh => h (hh ▸ List.mem_cons_self c rest)
    have hr : sep ∉ rest := fun hh => h (List.mem_cons_of_mem c hh)
    rw [splitOnChar]
    simp only [if_neg hc, splitOnChar_of_not_mem hr]

theorem splitOnChar_append_sep {sep : Char} :
    ∀ {a : List Char} (b : List Char), sep ∉ a →
      splitOnChar sep (a ++ sep :: b) = a :: splitOnChar sep b
  | [], b, _ => by
    rw [List.nil_append, splitOnChar, if_pos rfl]
  | c :: a, b, h => by
    have hc : ¬c = sep := fun hh => h (hh ▸ List.mem_cons_self c a)
    have ha : sep ∉ a := fun hh => h (List.mem_cons_of_mem c hh)
    rw [List.cons_append, splitOnChar, if_neg hc, splitOnChar_append_sep b ha]

theorem splitOnChar_intercalate {sep : Char} :
    ∀ {ls : List (List Char)}, ls ≠ [] → (∀ l ∈ ls, sep ∉ l) →
      splitOnChar sep (List.intercalate [sep] ls) = ls
  | [], h, _ => absurd rfl h
  | [x], _, hmem => by
    rw [List.intercalate]
    simp only [List.intersperse_single, List.flatten, List.append_nil]
    exact splitOnChar_of_not_mem (hmem x (List.mem_singleton_self x))
  | x :: y :: t, _, hmem => by
    have hx : sep ∉ x := hmem x (List.mem_cons_self _ _)
    have step : List.intercalate [sep] (x :: y :: t) =
        x ++ sep :: List.intercalate [sep] (y :: t) := by
      simp [List.intercalate, List.intersperse]
    rw [step, splitOnChar_append_sep _ hx,
      splitOnChar_intercalate (by simp) (fun l hl => hmem l (List.mem_cons_of_mem x hl))]

theorem data_mk (l : List Char) : (String.mk l).data = l := rfl

theorem mk_data (s : String) : String.mk s.data = s := rfl

theorem splitTabs_joinTabs (cells : List String) (hne : cells ≠ [])
    (h : ∀ s ∈ cells, '\t' ∉ s.data) : splitTabs (joinTabs cells) = cells := by
  unfold splitTabs joinTabs
  rw [data_mk, splitOnChar_intercalate (by simpa using hne)
    (by intro l hl; obtain ⟨s, hs, rfl⟩ := List.mem_map.mp hl; exact h s hs)]
  rw [List.map_map, show ((fun l => String.mk l) ∘ String.data) = id from funext fun s => rfl,
    List.map_id]

/-! ### Joining and re-scanning lines -/

theorem intercalate_singleton {sep : Char} (x : List Char) :
    List.intercalate [sep] [x] = x := by
  rw [List.intercalate]
  simp only [List.intersperse_single, List.flatten, List.append_nil]

theorem intercalate_cons_cons {sep : Char} (x y : List Char) (t : List (List Char)) :
    List.intercalate [sep] (x :: y :: t) = x ++ sep :: List.intercalate [sep] (y :: t) := by
  simp [List.intercalate, List.intersperse]

theorem mem_intercalate_sep {sep c : Char} :
    ∀ {L : List (List Char)}, c ∈ List.intercalate [sep] L → c = sep ∨ ∃ l ∈ L, c ∈ l
  | [], h => by
    rw [show List.intercalate [sep] ([] : List (List Char)) = [] from rfl] at h
    cases h
  | [x], h => by
    rw [intercalate_singleton] at h
    exact Or.inr ⟨x, List.mem_singleton_self x, h⟩
  | x :: y :: t, h => by
    rw [intercalate_cons_cons] at h
    rcases List.mem_append.mp h with h | h
    · exact Or.inr ⟨x, List.mem_cons_self _ _, h⟩
    · rcases List.mem_cons.mp h with h | h
      · exact Or.inl h
      · rcases mem_intercalate_sep h with h | ⟨l, hl, hcl⟩
        · exact Or.inl h
        · exact Or.inr ⟨l, List.mem_cons_of_mem _ hl, hcl⟩

theorem intercalate_append_last {sep : Char} :
    ∀ (L : List (List Char)) (x : List Char), L ≠ [] →
      List.intercalate [sep] (L ++ [x]) = List.intercalate [sep] L ++ sep :: x
  | [], _, h => absurd rfl h
  | [y], x, _ => by
    rw [show (([y] : List (List Char)) ++ [x]) = y :: x :: [] from rfl,
      intercalate_cons_cons, intercalate_singleton, intercalate_singleton]
  | y :: z :: t, x, _ => by
    rw [show (((y :: z :: t) : List (List Char)) ++ [x]) = y :: z :: (t ++ [x]) from rfl,
      intercalate_cons_cons,
      show ((z :: (t ++ [x])) : List (List Char)) = (z :: t) ++ [x] from rfl,
      intercalate_append_last (z :: t) x (by simp), intercalate_cons_cons]
    simp [List.append_assoc]

theorem getLast?_append_right {α : Type} : ∀ (l₁ : List α) {l₂ : List α}, l₂ ≠ [] →
    (l₁ ++ l₂).getLast? = l₂.getLast?
  | [], _, _ => rfl
  | x :: xs, l₂, h => by
    rw [List.cons_append]
    cases hx : xs ++ l₂ with
    | nil => exact absurd (List.append_eq_nil.mp hx).2 h
    | cons y t =>
      rw [List.getLast?_cons_cons, ← hx, getLast?_append_right xs h]

theorem mem_of_getLast?_eq {α : Type} : ∀ {l : List α} {a : α}, l.getLast? = some a → a ∈ l
  | [], _, h => by cases h
  | [x], a, h => by
    have h3 : some x = some a := h
    injection h3 with h4
    rw [← h4]
    exact List.mem_singleton_self x
  | x :: y :: t, a, h => by
    rw [List.getLast?_cons_cons] at h
    exact List.mem_cons_of_mem x (mem_of_getLast?_eq h)

theorem dropLast_append_singleton {α : Type} : ∀ (l : List α) (a : α), (l ++ [a]).dropLast = l
  | [], _ => rfl
  | [x], _ => rfl
  | x :: y :: t, a => by
    show x :: (((y :: t) ++ [a]).dropLast) = x :: y :: t
    rw [dropLast_append_singleton (y :: t) a]

/-- The decoder's scanner recovers exactly the written lines: whenever
no emitted line embeds a newline or a carriage return and the final
emitted line is non-empty, scanning `writeALE`'s serialized output
undoes the newline join. -/
theorem scanLines_writeALE (f : ALEFile) (l0 : String)
    (hlast : (writeALELines f).getLast? = some l0) (hl0 : l0 ≠ "")
    (hn : ∀ l ∈ writeALELines f, '\n' ∉ l.data)
    (hr : ∀ l ∈ writeALELines f, '\r' ∉ l.data) :
    scanLines (writeALE f) = writeALELines f := by
  have hne : writeALELines f ≠ [] := by
    intro h0
    rw [h0] at hlast
    cases hlast
  have hLne : (writeALELines f).map String.data ≠ [] := by
    intro h0
    exact hne (List.map_eq_nil_iff.mp h0)
  have hl0mem : l0 ∈ writeALELines f := mem_of_getLast?_eq hlast
  have hl0d : l0.data ≠ [] := by
    intro hd
    exact hl0 (by rw [← mk_data l0, hd])
  have hJ : (List.intercalate ['\n'] ((writeALELines f).map String.data)).getLast? =
      l0.data.getLast? := by
    have hgl : (writeALELines f).getLast hne = l0 := by
      have h2 := List.getLast?_eq_getLast (writeALELines f) hne
      have h3 := h2.symm.trans hlast
      exact Option.some.inj h3
    have hsplit : writeALELines f = (writeALELines f).dropLast ++ [l0] := by
      rw [← hgl]
      exact (List.dropLast_append_getLast hne).symm
    rw [hsplit, List.map_append, List.map_singleton]
    cases hdl : ((writeALELines f).dropLast).map String.data with
    | nil =>
      rw [List.nil_append, intercalate_singleton]
    | cons m ms =>
      rw [← hdl, intercalate_append_last _ _ (by rw [hdl]; simp),
        getLast?_append_right _ (show ('\n' :: l0.data : List Char) ≠ [] by simp),
        show (('\n' :: l0.data : List Char)) = ['\n'] ++ l0.data from rfl,
        getLast?_append_right _ hl0d]
  have hJne : (List.intercalate ['\n'] ((writeALELines f).map String.data)).getLast? ≠
      some '\n' := by
    intro hcon
    rw [hJ] at hcon
    exact hn l0 hl0mem (mem_of_getLast?_eq hcon)
  have hout : writeALE f =
      ⟨List.intercalate ['\n'] ((writeALELines f).map String.data) ++ ['\n']⟩ := by
    show (if (List.intercalate ['\n'] ((writeALELines f).map String.data)).getLast? =
        some '\n'
      then (⟨List.intercalate ['\n'] ((writeALELines f).map String.data)⟩ : String)
      else ⟨List.intercalate ['\n'] ((writeALELines f).map String.data) ++ ['\n']⟩) = _
    rw [if_neg hJne]
  have hsp : splitOnChar '\n'
      (List.intercalate ['\n'] ((writeALELines f).map String.data) ++ ['\n']) =
      (writeALELines f).map String.data ++ [[]] := by
    rw [show (List.intercalate ['\n'] ((writeALELines f).map String.data) ++ ['\n']) =
        List.intercalate ['\n'] ((writeALELines f).map String.data) ++ '\n' :: [] from rfl,
      ← intercalate_append_last _ _ hLne]
    apply splitOnChar_intercalate (by simp)
    intro l hl
    rcases List.mem_append.mp hl with hl | hl
    · obtain ⟨s, hs, rfl⟩ := List.mem_map.mp hl
      exact hn s hs
    · rw [List.mem_singleton.mp hl]
      exact List.not_mem_nil _
  rw [hout]
  show ((if (splitOnChar '\n'
        (List.intercalate ['\n'] ((writeALELines f).map String.data) ++ ['\n'])).getLast? =
          some []
      then (splitOnChar '\n'
        (List.intercalate ['\n'] ((writeALELines f).map String.data) ++ ['\n'])).dropLast
      else splitOnChar '\n'
        (List.intercalate ['\n'] ((writeALELines f).map String.data) ++ ['\n'])).map
      (fun l => (⟨dropCR l⟩ : String))) = writeALELines f
  have hlastpos : (List.map String.data (writeALELines f) ++ [[]]).getLast? =
      some ([] : List Char) := by
    rw [getLast?_append_right (List.map String.data (writeALELines f))
      (show ([[]] : List (List Char)) ≠ [] by simp)]
    simp
  rw [hsp, if_pos hlastpos, dropLast_append_singleton, List.map_map]
  have hcongr : ∀ s ∈ writeALELines f,
      ((fun l => (⟨dropCR l⟩ : String)) ∘ String.data) s = id s := by
    intro s hs
    show (⟨dropCR s.data⟩ : String) = s
    unfold dropCR
    rw [if_neg (fun hcon => hr s hs (mem_of_getLast?_eq hcon)), mk_data]
  exact (List.map_congr_left hcongr).trans (List.map_id _)

/-! ### Go map lemmas -/

theorem find?_append_opt {α} (p : α → Bool) (l₁ l₂ : List α) :
    (l₁ ++ l₂).find? p = ((l₁.find? p).or (l₂.find? p)) := by
  induction l₁ with
  | nil => simp [List.find?]
  | cons a l ih =>
    by_cases h : p a <;> simp [List.find?, h, ih]

theorem find?_filter_of_imp {α} (p q : α → Bool) (l : List α)
    (h : ∀ x, p x = true → q x = true) : (l.filter q).find? p = l.find? p := by
  induction l with
  | nil => rfl
  | cons a l ih =>
    rw [List.filter_cons]
    by_cases hq : q a
    · rw [if_pos hq]
      by_cases hp : p a <;> simp [List.find?, hp, ih]
    · rw [if_neg hq]
      have hp : p a = false := by
        cases hpa : p a
        · rfl
        · exact absurd (h a hpa) hq
      simp [List.find?, hp, ih]

theorem mapGet_mapSet (m : StrMap) (k v q : String) :
    mapGet (mapSet m k v) q = if q = k then some v else mapGet m q := by
  unfold mapGet mapSet
  rw [find?_append_opt]
  by_cases h : q = k
  · subst h
    have : (m.filter (fun p => !(p.1 == q))).find? (fun p => p.1 == q) = none := by
      rw [List.find?_eq_none]
      intro x hx
      have := (List.mem_filter.mp hx).2
      simpa using this
    simp [this, List.find?]
  · rw [if_neg h]
    have h1 : (m.filter (fun p => !(p.1 == k))).find? (fun p => p.1 == q) =
        m.find? (fun p => p.1 == q) := by
      apply find?_filter_of_imp
      intro x hx
      have hx1 : x.1 = q := by simpa using hx
      simp only [hx1, Bool.not_eq_true']
      simpa using fun hc => h hc
    rw [h1]
    have h2 : List.find? (fun p => p.1 == q) [(k, v)] = none := by
      rw [List.find?_eq_none]
      intro x hx
      rw [List.mem_singleton.mp hx]
      simpa using fun hc => h hc.symm
    rw [h2]
    cases m.find? (fun p => p.1 == q) <;> rfl

theorem mem_mapSet {m : StrMap} {k v : String} {p : String × String}
    (h : p ∈ mapSet m k v) : p ∈ m ∨ p = (k, v) := by
  unfold mapSet at h
  rcases List.mem_append.mp h with h | h
  · exact Or.inl (List.mem_of_mem_filter h)
  · exact Or.inr (List.mem_singleton.mp h)

/-- The row-building fold of `parseALE`. -/
def rowFold (ps : List (String × String)) (r₀ : StrMap) : StrMap :=
  ps.foldl (fun r p => mapSet r p.1 (goTrimSpace p.2)) r₀

theorem buildRow_eq_rowFold (cols vals : List String) :
    buildRow cols vals =
      rowFold (cols.zip (vals ++ List.replicate (cols.length - vals.length) "")) [] := rfl

theorem rowFold_get_notmem (ps : List (String × String)) (r₀ : StrMap) (q : String)
    (h : ∀ p ∈ ps, p.1 ≠ q) : mapGet (rowFold ps r₀) q = mapGet r₀ q := by
  induction ps generalizing r₀ with
  | nil => rfl
  | cons p ps ih =>
    rw [rowFold, List.foldl_cons, ← rowFold, ih _ (fun x hx => h x (List.mem_cons_of_mem p hx)),
      mapGet_mapSet, if_neg (Ne.symm (h p (List.mem_cons_self p ps)))]

theorem rowFold_isSome (ps : List (String × String)) (r₀ : StrMap) (q : String)
    (h : (mapGet r₀ q).isSome = true) : (mapGet (rowFold ps r₀) q).isSome = true := by
  induction ps generalizing r₀ with
  | nil => exact h
  | cons p ps ih =>
    rw [rowFold, List.foldl_cons, ← rowFold]
    apply ih
    rw [mapGet_mapSet]
    split
    · rfl
    · exact h

theorem rowFold_isSome_of_mem (ps : List (String × String)) (r₀ : StrMap) (q : String)
    (h : q ∈ ps.map Prod.fst) : (mapGet (rowFold ps r₀) q).isSome = true := by
  induction ps generalizing r₀ with
  | nil => cases h
  | cons p ps ih =>
    rw [rowFold, List.foldl_cons, ← rowFold]
    rcases List.mem_cons.mp h with h | h
    · apply rowFold_isSome
      rw [mapGet_mapSet, if_pos h]
      rfl
    · exact ih _ (by simpa using h)

theorem rowFold_mem (ps : List (String × String)) (r₀ : StrMap) (p : String × String)
    (h : p ∈ rowFold ps r₀) : p ∈ r₀ ∨ ∃ x ∈ ps, p = (x.1, goTrimSpace x.2) := by
  induction ps generalizing r₀ with
  | nil => exact Or.inl h
  | cons x ps ih =>
    rw [rowFold, List.foldl_cons, ← rowFold] at h
    rcases ih _ h with h | ⟨y, hy, rfl⟩
    · rcases mem_mapSet h with h | h
      · exact Or.inl h
      · exact Or.inr ⟨x, List.mem_cons_self x ps, h⟩
    · exact Or.inr ⟨y, List.mem_cons_of_mem x hy, rfl⟩

theorem rowFold_zip_get (cols vals : List String) (r₀ : StrMap)
    (hnd : cols.Nodup) (hlen : cols.length ≤ vals.length) (i : ℕ) (hi : i < cols.length) :
    mapGet (rowFold (cols.zip vals) r₀) (cols.get ⟨i, hi⟩) =
      some (goTrimSpace (vals.getD i "")) := by
  induction cols generalizing vals r₀ i with
  | nil => cases hi
  | cons c cols ih =>
    cases vals with
    | nil => simp at hlen
    | cons v vals =>
      rw [List.zip_cons_cons, rowFold, List.foldl_cons, ← rowFold]
      cases i with
      | zero =>
        have hq : ∀ p ∈ cols.zip vals, p.1 ≠ c := by
          intro p hp
          have h1 : p.1 ∈ cols := by
            have := List.of_mem_zip (by exact hp)
            exact this.1
          intro hc
          exact (List.nodup_cons.mp hnd).1 (hc ▸ h1)
        rw [show (c :: cols).get ⟨0, hi⟩ = c from rfl,
          rowFold_get_notmem _ _ _ hq, mapGet_mapSet, if_pos rfl]
        rfl
      | succ i =>
        have := ih vals (mapSet r₀ c (goTrimSpace v)) (List.nodup_cons.mp hnd).2
          (by simpa using Nat.le_of_succ_le_succ hlen) i (Nat.lt_of_succ_lt_succ hi)
        simpa using this

theorem buildRow_get (cols vals : List String) (hnd : cols.Nodup) (i : ℕ)
    (hi : i < cols.length) :
    mapGet (buildRow cols vals) (cols.get ⟨i, hi⟩) =
      some (goTrimSpace ((vals ++ List.replicate (cols.length - vals.length) "").getD i "")) := by
  rw [buildRow_eq_rowFold]
  apply rowFold_zip_get
  · exact hnd
  · simp only [List.length_append, List.length_replicate]
    omega

theorem buildRow_isSome (cols vals : List String) (c : String) (h : c ∈ cols) :
    (mapGet (buildRow cols vals) c).isSome = true := by
  rw [buildRow_eq_rowFold]
  apply rowFold_isSome_of_mem
  rw [List.map_fst_zip]
  · exact h
  · simp only [List.length_append, List.length_replicate]
    omega

theorem buildRow_values_trimmed (cols vals : List String) :
    ∀ p ∈ buildRow cols vals, goTrimSpace p.2 = p.2 := by
  intro p hp
  rw [buildRow_eq_rowFold] at hp
  rcases rowFold_mem _ _ _ hp with h | ⟨x, _, rfl⟩
  · cases h
  · exact goTrimSpace_idem x.2

/-! ### Rows collected by the section parser -/

theorem parseALEAux_nil (inH inD : Bool) (cols : List String) (acc : ALEFile) :
    parseALEAux [] inH inD cols acc = acc := rfl

/-- One scan step, spelled out (the compiled equations of `parseALEAux`
in a directly rewritable form). -/
theorem parseALEAux_cons (line : String) (rest : List String) (inH inD : Bool)
    (cols : List String) (acc : ALEFile) :
    parseALEAux (line :: rest) inH inD cols acc =
      (if goTrimSpace line = "" then parseALEAux rest inH inD cols acc
       else if goHasPrefix (goTrimSpace line) HeaderHeading then
         parseALEAux rest true inD cols acc
       else if goHasPrefix (goTrimSpace line) HeaderColumn then
         match rest with
         | [] => acc
         | columnLine :: rest2 =>
           parseALEAux rest2 false inD ((splitTabs columnLine).map goTrimSpace)
             { acc with columns := (splitTabs columnLine).map goTrimSpace }
       else if goHasPrefix (goTrimSpace line) HeaderData then
         parseALEAux rest inH true cols acc
       else if inH then
         match splitTabs line with
         | k :: v :: _ =>
           parseALEAux rest inH inD cols
             { acc with headers := mapSet acc.headers (goTrimSpace k) (goTrimSpace v) }
         | _ => parseALEAux rest inH inD cols acc
       else if inD ∧ cols ≠ [] then
         match splitTabs line with
         | [] => parseALEAux rest inH inD cols acc
         | values => parseALEAux rest inH inD cols
             { acc with rows := acc.rows ++ [buildRow cols values] }
       else parseALEAux rest inH inD cols acc) := by
  conv_lhs => rw [parseALEAux.eq_def]

/-- Every row the scan loop ever collects is `buildRow cols vals` for the
columns `cols` declared at the moment the row was read, and rows are only
collected once at least one column is declared. -/
theorem parseALEAux_rows_inv (P : StrMap → Prop)
    (hP : ∀ cols vals, cols ≠ [] → P (buildRow cols vals)) :
    ∀ (lines : List String) (inH inD : Bool) (cols : List String) (acc : ALEFile),
      (∀ r ∈ acc.rows, P r) → ∀ r ∈ (parseALEAux lines inH inD cols acc).rows, P r
  | [], _, _, _, _, h => by simpa [parseALEAux_nil] using h
  | line :: rest, inH, inD, cols, acc, h => by
    rw [parseALEAux_cons]
    split_ifs with h0 h1 h2 h3 h4 h5
    · exact parseALEAux_rows_inv P hP rest _ _ _ _ h
    · exact parseALEAux_rows_inv P hP rest _ _ _ _ h
    · cases rest with
      | nil => exact h
      | cons columnLine rest2 => exact parseALEAux_rows_inv P hP rest2 _ _ _ _ h
    · exact parseALEAux_rows_inv P hP rest _ _ _ _ h
    · rcases hsp : splitTabs line with _ | ⟨k, _ | ⟨v, tail⟩⟩ <;> simp only [hsp]
      · exact parseALEAux_rows_inv P hP rest _ _ _ _ h
      · exact parseALEAux_rows_inv P hP rest _ _ _ _ h
      · exact parseALEAux_rows_inv P hP rest _ _ _ _ h
    · rcases hsp : splitTabs line with _ | ⟨v, vs⟩ <;> simp only [hsp]
      · exact parseALEAux_rows_inv P hP rest _ _ _ _ h
      · apply parseALEAux_rows_inv P hP rest
        intro r hr
        rcases List.mem_append.mp hr with hr | hr
        · exact h r hr
        · rw [List.mem_singleton.mp hr]
          exact hP _ _ h5.2
    · exact parseALEAux_rows_inv P hP rest _ _ _ _ h
  termination_by lines _ _ _ _ _ => lines.length
  decreasing_by all_goals simp <;> omega

theorem parseALE_rows_inv (P : StrMap → Prop)
    (hP : ∀ cols vals, cols ≠ [] → P (buildRow cols vals)) (lines : List String) :
    ∀ r ∈ (parseALE lines).rows, P r :=
  parseALEAux_rows_inv P hP lines false false [] NewALEFile (by intro r hr; cases hr)

/-! ### Decode never confuses row errors with the empty-input error -/

theorem rowsToClips_ne_emptyInput (d : Decoder) :
    ∀ (rows : List StrMap) (i : ℕ), rowsToClips d rows i ≠ .error .emptyInput
  | [], i => by simp [rowsToClips]
  | row :: rest, i => by
    rw [rowsToClips]
    cases h : rowToClip d row i with
    | error e => simp
    | ok clip =>
      cases h2 : rowsToClips d rest (i + 1) with
      | error e =>
        simp only []
        intro hc
        injection hc with hc
        exact rowsToClips_ne_emptyInput d rest (i + 1) (by rw [h2, hc])
      | ok clips => simp

theorem groupRows_ne_emptyInput (d : Decoder) :
    ∀ (rows : List StrMap) (i : ℕ) (acc : List (String × String × List Clip)),
      groupRows d rows i acc ≠ .error .emptyInput
  | [], i, acc => by simp [groupRows]
  | row :: rest, i, acc => by
    rw [groupRows]
    cases h : rowToClip d row i with
    | error e => simp
    | ok clip => exact groupRows_ne_emptyInput d rest (i + 1) _

theorem aleToTimeline_emptyInput (d : Decoder) (f : ALEFile) :
    (f.rows = [] → aleToTimeline d f = .error .emptyInput) ∧
    (f.rows ≠ [] → aleToTimeline d f ≠ .error .emptyInput) := by
  constructor
  · intro h
    unfold aleToTimeline
    rw [if_pos h]
  · intro h
    unfold aleToTimeline
    rw [if_neg h]
    split
    · cases hg : groupRows d f.rows 0 [] with
      | error e =>
        simp only []
        intro hc
        injection hc with hc
        exact groupRows_ne_emptyInput d f.rows 0 [] (by rw [hg, hc])
      | ok groups => simp
    · cases hr : rowsToClips d f.rows 0 with
      | error e =>
        simp only []
        intro hc
        injection hc with hc
        exact rowsToClips_ne_emptyInput d f.rows 0 (by rw [hr, hc])
      | ok clips => simp

/-- C2: on an input whose parsed file structure contains zero data rows,
`Decode` fails with the empty-input error (it never returns a timeline),
and on an input with at least one data row that error cannot occur (a
decode failure is then always a distinct row-conversion error). -/
theorem c2_empty_input (d : Decoder) (lines : List String) :
    ((parseALE lines).rows = [] → Decode d lines = .error .emptyInput) ∧
    ((parseALE lines).rows ≠ [] → Decode d lines ≠ .error .emptyInput) := by
  constructor
  · intro h
    exact (aleToTimeline_emptyInput _ _).1 h
  · intro h
    exact (aleToTimeline_emptyInput _ _).2 h

theorem c2_empty_input_witness :
    Decode NewDecoder ["Column", "Name", "Data"] = .error .emptyInput ∧
    Decode NewDecoder ["Column", "Name", "Data", "x"] ≠ .error .emptyInput :=
  ⟨(c2_empty_input NewDecoder _).1 rfl,
   (c2_empty_input NewDecoder _).2 (by
     rw [show (parseALE ["Column", "Name", "Data", "x"]).rows = [[("Name", "x")]] from rfl]
     exact List.cons_ne_nil _ _)⟩

/-! ### C7: the drop-frame heuristic -/

/-- C7: `isDropFrame` holds exactly for rates within the ±0.01 (strict)
tolerance of 29.97 or 59.94; in particular it holds at 29.97 and 59.94
and fails at 24, 25, 30 and 60; and on decode a parseable FPS header
re-derives the drop-frame flag through this very predicate. -/
theorem c7_drop_frame :
    (∀ fps : ℚ, isDropFrame fps = true ↔
      |fps - 29.97| < 0.01 ∨ |fps - 59.94| < 0.01) ∧
    (isDropFrame 29.97 = true ∧ isDropFrame 59.94 = true ∧ isDropFrame 24 = false ∧
      isDropFrame 25 = false ∧ isDropFrame 30 = false ∧ isDropFrame 60 = false) ∧
    (∀ (d : Decoder) (lines : List String) (fpsStr : String) (fps : ℚ),
      mapGet (parseALE lines).headers HeaderFPS = some fpsStr →
      parseFPS fpsStr = .ok fps →
      Decode d lines =
        aleToTimeline { d with fps := fps, dropFrame := isDropFrame fps } (parseALE lines)) := by
  have hval : ∀ q : ℚ, isDropFrame q = true ↔
      ((29.96 : ℚ) < q ∧ q < 29.98) ∨ ((59.93 : ℚ) < q ∧ q < 59.95) := by
    intro q
    unfold isDropFrame
    rw [Bool.or_eq_true, decide_eq_true_eq, decide_eq_true_eq]
  have hvalf : ∀ q : ℚ, isDropFrame q = false ↔
      ¬(((29.96 : ℚ) < q ∧ q < 29.98) ∨ ((59.93 : ℚ) < q ∧ q < 59.95)) := by
    intro q
    rw [← hval]
    cases isDropFrame q <;> simp
  refine ⟨?_,
    ⟨(hval _).mpr (by norm_num), (hval _).mpr (by norm_num), (hvalf _).mpr (by norm_num),
     (hvalf _).mpr (by norm_num), (hvalf _).mpr (by norm_num), (hvalf _).mpr (by norm_num)⟩, ?_⟩
  · intro fps
    unfold isDropFrame
    rw [Bool.or_eq_true, decide_eq_true_eq, decide_eq_true_eq, abs_sub_lt_iff, abs_sub_lt_iff]
    constructor
    · rintro (⟨a, b⟩ | ⟨a, b⟩)
      · exact Or.inl ⟨by linarith, by linarith⟩
      · exact Or.inr ⟨by linarith, by linarith⟩
    · rintro (⟨a, b⟩ | ⟨a, b⟩)
      · exact Or.inl ⟨by linarith, by linarith⟩
      · exact Or.inr ⟨by linarith, by linarith⟩
  · intro d lines fpsStr fps h1 h2
    simp only [Decode, h1, h2]

/-- The structural fields of a successfully converted clip, read off the
success branch of `rowToClip`. -/
theorem rowToClip_ok_fields (d : Decoder) (row : StrMap) (i : ℕ) (clip : Clip)
    (h : rowToClip d row i = .ok clip) :
    clip.name = (if getRow row d.nameColumnKey = "" then "Clip " ++ natToStr (i + 1)
      else getRow row d.nameColumnKey) ∧
    clip.ale = row.filter (fun p =>
      !([d.nameColumnKey, ColumnStart, ColumnEnd, ColumnDuration, ColumnSourceFile,
         ColumnTape, "ASC_SOP", "ASC_SAT"].contains p.1) && !(p.2 == "")) ∧
    clip.cdl = (if getRow row "ASC_SOP" ≠ "" ∨ getRow row "ASC_SAT" ≠ "" then
        match parseASCCDL (getRow row "ASC_SOP") (getRow row "ASC_SAT") with
        | (c, none) => c
        | (_, some _) => none
      else none) := by
  unfold rowToClip at h
  cases hsr : rowSourceRange d row with
  | error e =>
    rw [hsr] at h
    cases h
  | ok sr =>
    rw [hsr] at h
    injection h with h
    subst h
    exact ⟨rfl, rfl, rfl⟩

/-! ### C9: trimming of stored values -/

/-- C9: every stored data cell is the whitespace-trimmed source field:
by position for the declared columns (for a well-formed, duplicate-free
column list), every value the section parser ever stores is stable under
trimming, and consequently residual clip metadata values never carry
leading or trailing whitespace. -/
theorem c9_trimmed_values :
    (∀ (columns values : List String), columns.Nodup → ∀ i (hi : i < columns.length),
      mapGet (buildRow columns values) (columns.get ⟨i, hi⟩) =
        some (goTrimSpace
          ((values ++ List.replicate (columns.length - values.length) "").getD i ""))) ∧
    (∀ (lines : List String), ∀ row ∈ (parseALE lines).rows, ∀ p ∈ row,
      goTrimSpace p.2 = p.2) ∧
    (∀ (d : Decoder) (row : StrMap) (i : ℕ) (clip : Clip),
      rowToClip d row i = .ok clip → (∀ p ∈ row, goTrimSpace p.2 = p.2) →
      ∀ p ∈ clip.ale, goTrimSpace p.2 = p.2) := by
  refine ⟨buildRow_get, ?_, ?_⟩
  · intro lines
    exact parseALE_rows_inv _ (fun cols vals _ => buildRow_values_trimmed cols vals) lines
  · intro d row i clip h hrow p hp
    have hale := (rowToClip_ok_fields d row i clip h).2.1
    rw [hale] at hp
    exact hrow p (List.mem_of_mem_filter hp)

theorem c9_trimmed_values_witness :
    mapGet (buildRow ["A", "B"] [" x ", "y"]) "A" = some "x" := by
  have h := c9_trimmed_values.1 ["A", "B"] [" x ", "y"] (by decide) 0 (by decide)
  exact h

/-! ### C4: the row-record invariant -/

/-- C4 counterexample: a file that redeclares its columns after data was
collected produces a row with no entry for the finally declared column:
the row `{A: x}` lacks an entry for column `"B"` even though the parsed
file declares exactly the column `"B"`. -/
theorem c4_counterexample :
    (parseALE ["Column", "A", "Data", "x", "Column", "B"]).columns = ["B"] ∧
    (parseALE ["Column", "A", "Data", "x", "Column", "B"]).rows = [[("A", "x")]] ∧
    mapGet [("A", "x")] "B" = none := ⟨rfl, rfl, rfl⟩

theorem getD_replicate_default (k n : ℕ) :
    (List.replicate k (α := String) "").getD n "" = "" := by
  induction k generalizing n with
  | zero => cases n <;> rfl
  | succ k ih =>
    cases n with
    | zero => rfl
    | succ n => exact ih n

theorem zip_take_length {α β : Type} :
    ∀ (l₁ : List α) (l₂ : List β), l₁.zip l₂ = l₁.zip (l₂.take l₁.length)
  | [], _ => rfl
  | _ :: _, [] => rfl
  | a :: l₁, b :: l₂ => by
    simp only [List.zip_cons_cons, List.length_cons, List.take_succ_cons]
    rw [← zip_take_length l₁ l₂]

/-- C4 amended: every row record contains an entry for every column that
was declared when the row was collected (fields assigned by position,
missing trailing fields as the empty string, extra fields ignored, rows
collected only under a non-empty column declaration) — but when a file
redeclares columns after rows were collected, earlier rows need not have
entries for the finally declared columns (see the counterexample). -/
theorem c4_amended :
    (∀ (cols vals : List String) (c : String), c ∈ cols →
      (mapGet (buildRow cols vals) c).isSome = true) ∧
    (∀ (cols vals : List String), cols.Nodup → ∀ i (hi : i < cols.length),
      vals.length ≤ i → mapGet (buildRow cols vals) (cols.get ⟨i, hi⟩) = some "") ∧
    (∀ (cols vals : List String), buildRow cols vals = buildRow cols (vals.take cols.length)) ∧
    (∀ (lines : List String), ∀ r ∈ (parseALE lines).rows,
      ∃ cols vals, cols ≠ [] ∧ r = buildRow cols vals) := by
  refine ⟨buildRow_isSome, ?_, ?_, ?_⟩
  · intro cols vals hnd i hi hle
    rw [buildRow_get cols vals hnd i hi, List.getD_append_right _ _ _ _ hle,
      getD_replicate_default]
    rfl
  · intro cols vals
    rw [buildRow_eq_rowFold, buildRow_eq_rowFold]
    by_cases h : vals.length ≤ cols.length
    · rw [List.take_of_length_le h]
    · have h1 : cols.length - vals.length = 0 := by omega
      have h2 : cols.length - (vals.take cols.length).length = 0 := by
        simp only [List.length_take]
        omega
      rw [h1, h2]
      simp only [List.replicate_zero, List.append_nil]
      congr 1
      have h3 : cols.length ≤ (vals.take cols.length).length := by
        simp only [List.length_take]
        omega
      rw [zip_take_length cols vals, zip_take_length cols (vals.take cols.length),
        List.take_take]
  · intro lines
    exact parseALE_rows_inv _ (fun cols vals h => ⟨cols, vals, h, rfl⟩) lines

theorem c4_amended_witness :
    (mapGet (buildRow ["A"] []) "A").isSome = true :=
  c4_amended.1 ["A"] [] "A" (List.mem_singleton_self "A")

/-! ### C6: section-marker recognition -/

/-- C6 counterexample: the source parser switches modes on PREFIX
matches, not on equality: `"Heading2"` is not equal to `"Heading"` after
trimming, yet it switches the parser into header mode (the following FPS
line is collected as a header), whereas the spec-worded equality parser
collects nothing. -/
theorem c6_counterexample :
    goTrimSpace "Heading2" ≠ HeaderHeading ∧
    (parseALE ["Heading2", "FPS\t25"]).headers = [("FPS", "25")] ∧
    (parseALESpecEq ["Heading2", "FPS\t25"]).headers = [] :=
  ⟨by decide, rfl, rfl⟩

/-- C6 amended: a mode switch happens exactly on non-blank lines whose
TRIMMED form has a section name as a PREFIX — `Heading`-prefixed lines
enter header mode, `Column`-prefixed lines leave header mode and consume
the following line as the trimmed tab-split column list, `Data`-prefixed
lines enter data mode; blank lines are skipped everywhere; every other
line leaves the mode flags and the declared columns unchanged. -/
theorem c6_amended (line : String) (rest : List String) (inH inD : Bool)
    (cols : List String) (acc : ALEFile) :
    (goTrimSpace line = "" →
      parseALEAux (line :: rest) inH inD cols acc = parseALEAux rest inH inD cols acc) ∧
    (goHasPrefix (goTrimSpace line) HeaderHeading = true →
      parseALEAux (line :: rest) inH inD cols acc = parseALEAux rest true inD cols acc) ∧
    (goHasPrefix (goTrimSpace line) HeaderHeading = false →
      goHasPrefix (goTrimSpace line) HeaderColumn = true →
      parseALEAux (line :: rest) inH inD cols acc =
        (match rest with
         | [] => acc
         | columnLine :: rest2 =>
           parseALEAux rest2 false inD ((splitTabs columnLine).map goTrimSpace)
             { acc with columns := (splitTabs columnLine).map goTrimSpace })) ∧
    (goHasPrefix (goTrimSpace line) HeaderHeading = false →
      goHasPrefix (goTrimSpace line) HeaderColumn = false →
      goHasPrefix (goTrimSpace line) HeaderData = true →
      parseALEAux (line :: rest) inH inD cols acc = parseALEAux rest inH true cols acc) ∧
    (goTrimSpace line ≠ "" →
      goHasPrefix (goTrimSpace line) HeaderHeading = false →
      goHasPrefix (goTrimSpace line) HeaderColumn = false →
      goHasPrefix (goTrimSpace line) HeaderData = false →
      ∃ acc', parseALEAux (line :: rest) inH inD cols acc = parseALEAux rest inH inD cols acc' ∧
        acc'.columns = acc.columns) := by
  have hblank : ∀ m : String, m.data ≠ [] → goTrimSpace line = "" →
      goHasPrefix (goTrimSpace line) m = false := by
    intro m hm h0
    rw [h0]
    unfold goHasPrefix
    cases hd : m.data with
    | nil => exact absurd hd hm
    | cons c t => rfl
  refine ⟨?_, ?_, ?_, ?_, ?_⟩
  · intro h0
    rw [parseALEAux_cons, if_pos h0]
  · intro h1
    have h0 : ¬goTrimSpace line = "" := by
      intro h0
      rw [hblank HeaderHeading (by decide) h0] at h1
      cases h1
    rw [parseALEAux_cons, if_neg h0, if_pos h1]
  · intro h1 h2
    have h0 : ¬goTrimSpace line = "" := by
      intro h0
      rw [hblank HeaderColumn (by decide) h0] at h2
      cases h2
    rw [parseALEAux_cons, if_neg h0, if_neg (by rw [h1]; exact Bool.false_ne_true),
      if_pos h2]
  · intro h1 h2 h3
    have h0 : ¬goTrimSpace line = "" := by
      intro h0
      rw [hblank HeaderData (by decide) h0] at h3
      cases h3
    rw [parseALEAux_cons, if_neg h0, if_neg (by rw [h1]; exact Bool.false_ne_true),
      if_neg (by rw [h2]; exact Bool.false_ne_true), if_pos h3]
  · intro h0 h1 h2 h3
    rw [parseALEAux_cons, if_neg h0, if_neg (by rw [h1]; exact Bool.false_ne_true),
      if_neg (by rw [h2]; exact Bool.false_ne_true),
      if_neg (by rw [h3]; exact Bool.false_ne_true)]
    by_cases hh : inH
    · rw [if_pos hh]
      rcases hsp : splitTabs line with _ | ⟨k, _ | ⟨v, tail⟩⟩ <;> simp only [hsp]
      · exact ⟨acc, rfl, rfl⟩
      · exact ⟨acc, rfl, rfl⟩
      · exact ⟨_, rfl, rfl⟩
    · rw [if_neg hh]
      by_cases hd : inD ∧ cols ≠ []
      · rw [if_pos hd]
        rcases hsp : splitTabs line with _ | ⟨v, vs⟩ <;> simp only [hsp]
        · exact ⟨acc, rfl, rfl⟩
        · exact ⟨_, rfl, rfl⟩
      · rw [if_neg hd]
        exact ⟨acc, rfl, rfl⟩

theorem c6_amended_witness :
    parseALEAux ["Data"] false false [] NewALEFile =
      parseALEAux [] false true [] NewALEFile :=
  (c6_amended "Data" [] false false [] NewALEFile).2.2.2.1 (by decide) (by decide) (by decide)

/-! ### C3: CDL failures are swallowed -/

/-- C3 counterexample: an ASC_SOP with only three numeric tokens makes
the inner `parseASCSOP` fail, yet `Decode` succeeds and the resulting
clip simply carries no CDL metadata — the failure reaches no caller. -/
theorem c3_counterexample :
    parseASCSOP "(1 2 3)" = .error "ASC_SOP requires at least 9 values" ∧
    Decode NewDecoder ["Column", "Name\tDuration\tASC_SOP", "Data", "C1\t10\t(1 2 3)"] =
      .ok ⟨"ALE Timeline", [⟨"Video", TrackKindVideo,
        [⟨"C1",
          some ⟨⟨0, DefaultFPS⟩, ⟨((10 : ℕ) : ℚ), DefaultFPS⟩⟩,
          .missing "C1" (some ⟨⟨0, DefaultFPS⟩, ⟨((10 : ℕ) : ℚ), DefaultFPS⟩⟩),
          none, []⟩]⟩]⟩ := ⟨rfl, rfl⟩

/-- C3 amended: an ASC_SOP that is non-empty but malformed is NOT
reported to the caller: `parseASCCDL` returns a nil error on every path,
discards the inner `parseASCSOP` failure, and (with an empty ASC_SAT)
yields no CDL data; `rowToClip` then succeeds with CDL metadata simply
absent.  Only the both-empty case is the specified non-error. -/
theorem c3_amended :
    (∀ ascSOP ascSat : String, (parseASCCDL ascSOP ascSat).2 = none) ∧
    (∀ ascSOP ascSat : String, (∃ msg, parseASCSOP ascSOP = .error msg) → ascSat = "" →
      (parseASCCDL ascSOP ascSat).1 = none) ∧
    (∀ (d : Decoder) (row : StrMap) (i : ℕ) (clip : Clip),
      rowToClip d row i = .ok clip →
      (∃ msg, parseASCSOP (getRow row "ASC_SOP") = .error msg) →
      getRow row "ASC_SAT" = "" → clip.cdl = none) := by
  have hcore : ∀ ascSOP ascSat : String, (∃ msg, parseASCSOP ascSOP = .error msg) →
      ascSat = "" → parseASCCDL ascSOP ascSat = (none, none) := by
    intro ascSOP ascSat ⟨msg, hmsg⟩ hsat
    subst hsat
    simp only [parseASCCDL, hmsg]
    have hg : parseGoFloat (goTrimSpace "") = none := rfl
    split_ifs <;> simp_all
  refine ⟨?_, ?_, ?_⟩
  · intro ascSOP ascSat
    simp only [parseASCCDL]
    split_ifs <;> rfl
  · intro ascSOP ascSat hsop hsat
    rw [hcore ascSOP ascSat hsop hsat]
  · intro d row i clip hok hsop hsat
    have hcdl := (rowToClip_ok_fields d row i clip hok).2.2
    rw [hcdl]
    by_cases hcond : getRow row "ASC_SOP" ≠ "" ∨ getRow row "ASC_SAT" ≠ ""
    · rw [if_pos hcond, hcore _ _ hsop hsat]
    · rw [if_neg hcond]

theorem c3_amended_witness :
    rowToClip NewDecoder [("Name", "C1"), ("ASC_SOP", "(1 2 3)")] 0 =
      .ok ⟨"C1", none, .missing "C1" none, none, []⟩ ∧
    (⟨"C1", none, .missing "C1" none, none, []⟩ : Clip).cdl = none :=
  ⟨rfl,
   c3_amended.2.2 NewDecoder [("Name", "C1"), ("ASC_SOP", "(1 2 3)")] 0
     ⟨"C1", none, .missing "C1" none, none, []⟩ rfl
     ⟨"ASC_SOP requires at least 9 values", rfl⟩ rfl⟩

/-! ### clipToRow characterization -/

theorem clipToRow_nil (e : Encoder) (c : Clip) (row : StrMap) :
    clipToRow e c [] row = .ok row := rfl

/-- One encoding step: a successful `clipToRow` over `col :: rest` first
transforms the row according to `clipCell` for `col`. -/
theorem clipToRow_cons_ok (e : Encoder) (c : Clip) (col : String) (rest : List String)
    (row₀ row : StrMap) (hok : clipToRow e c (col :: rest) row₀ = .ok row) :
    clipToRow e c rest
      (match clipCell e c col with
       | some v => mapSet row₀ col v
       | none => row₀) = .ok row := by
  rw [clipToRow] at hok
  unfold clipCell
  split_ifs at hok ⊢ with h1 h2 h3 h4 h5 h6 h7 h8
  · exact hok
  · cases hsr : encSourceRange c with
    | none => simp only [hsr] at hok ⊢; exact hok
    | some r =>
      simp only [hsr] at hok ⊢
      cases hf : formatTimecode r.startTime e.fps e.dropFrame with
      | error msg => simp only [hf] at hok; exact Except.noConfusion hok
      | ok tc => simp only [hf, Except.toOption] at hok ⊢; exact hok
  · cases hsr : encSourceRange c with
    | none => simp only [hsr] at hok ⊢; exact hok
    | some r =>
      simp only [hsr] at hok ⊢
      cases hf : formatTimecode r.endTimeExclusive e.fps e.dropFrame with
      | error msg => simp only [hf] at hok; exact Except.noConfusion hok
      | ok tc => simp only [hf, Except.toOption] at hok ⊢; exact hok
  · cases hsr : encSourceRange c with
    | none => simp only [hsr] at hok ⊢; exact hok
    | some r => simp only [hsr] at hok ⊢; exact hok
  · exact hok
  · cases hm : c.mediaRef with
    | external nm target ar => simp only [hm] at hok ⊢; exact hok
    | missing nm ar => simp only [hm] at hok ⊢; exact hok
  · cases hc : c.cdl with
    | none => simp only [hc] at hok ⊢; exact hok
    | some cdl =>
      simp only [hc] at hok ⊢
      cases hs : cdl.ascSOP with
      | none => simp only [hs, Option.map_none'] at hok ⊢; exact hok
      | some sop => simp only [hs, Option.map_some'] at hok ⊢; exact hok
  · cases hc : c.cdl with
    | none => simp only [hc] at hok ⊢; exact hok
    | some cdl =>
      simp only [hc] at hok ⊢
      cases hs : cdl.ascSat with
      | none => simp only [hs, Option.map_none'] at hok ⊢; exact hok
      | some sat => simp only [hs, Option.map_some'] at hok ⊢; exact hok
  · cases hv : mapGet c.ale col with
    | none => simp only [hv] at hok ⊢; exact hok
    | some v => simp only [hv] at hok ⊢; exact hok

/-- The final row of a successful `clipToRow` looks up as `clipCell` on
the processed columns and as the initial row elsewhere. -/
theorem clipToRow_ok_get (e : Encoder) (c : Clip) :
    ∀ (cols : List String) (row₀ row : StrMap),
      clipToRow e c cols row₀ = .ok row → ∀ k,
      mapGet row k =
        (if k ∈ cols then
          match clipCell e c k with
          | some v => some v
          | none => mapGet row₀ k
        else mapGet row₀ k)
  | [], row₀, row, hok, k => by
    rw [clipToRow_nil] at hok
    injection hok with hok
    subst hok
    simp
  | col :: rest, row₀, row, hok, k => by
    have hstep := clipToRow_cons_ok e c col rest row₀ row hok
    have IH := clipToRow_ok_get e c rest _ row hstep k
    have hrow₀ : mapGet
        (match clipCell e c col with
         | some v => mapSet row₀ col v
         | none => row₀) k =
        (if k = col then
          match clipCell e c col with
          | some v => some v
          | none => mapGet row₀ k
        else mapGet row₀ k) := by
      cases hcc : clipCell e c col with
      | some v =>
        show mapGet (mapSet row₀ col v) k = _
        rw [mapGet_mapSet]
      | none =>
        show mapGet row₀ k = _
        by_cases hkc : k = col
        · rw [if_pos hkc]
        · rw [if_neg hkc]
    by_cases hk : k ∈ col :: rest
    · rw [if_pos hk]
      rcases List.mem_cons.mp hk with rfl | hkrest
      · by_cases hkr : k ∈ rest
        · rw [IH, if_pos hkr, hrow₀, if_pos rfl]
          cases clipCell e c k <;> rfl
        · rw [IH, if_neg hkr, hrow₀, if_pos rfl]
      · by_cases hkc : k = col
        · subst hkc
          rw [IH, if_pos hkrest, hrow₀, if_pos rfl]
          cases clipCell e c k <;> rfl
        · rw [IH, if_pos hkrest, hrow₀, if_neg hkc]
    · have hkc : ¬k = col := fun hc => hk (hc ▸ List.mem_cons_self col rest)
      have hkr : ¬k ∈ rest := fun hc => hk (List.mem_cons_of_mem col hc)
      rw [if_neg hk, IH, if_neg hkr, hrow₀, if_neg hkc]

/-! ### Fixed-point formatting and parsing -/

theorem natToStr_data_ne_nil (n : ℕ) : (natToStr n).data ≠ [] := by
  unfold natToStr
  rw [data_mk]
  simpa using natDigitsRev_ne_nil n

theorem natToStr_all_digits (n : ℕ) : ∀ c ∈ (natToStr n).data, isDigitChar c = true := by
  intro c hc
  unfold natToStr at hc
  rw [data_mk, List.mem_reverse] at hc
  exact natDigitsRev_all_digits n c hc

theorem digitsVal_natToStr (n : ℕ) : digitsVal (natToStr n).data = n :=
  digitsVal_natDigitsRev n

theorem takeWhile_append_all {p : Char → Bool} :
    ∀ {a : List Char} (b : List Char), (∀ c ∈ a, p c = true) →
      (a ++ b).takeWhile p = a ++ b.takeWhile p
  | [], _, _ => rfl
  | c :: a, b, h => by
    rw [List.cons_append, List.takeWhile_cons_of_pos (h c (List.mem_cons_self c a)),
      takeWhile_append_all b (fun x hx => h x (List.mem_cons_of_mem c hx)), List.cons_append]

theorem dropWhile_append_all {p : Char → Bool} :
    ∀ {a : List Char} (b : List Char), (∀ c ∈ a, p c = true) →
      (a ++ b).dropWhile p = b.dropWhile p
  | [], _, _ => rfl
  | c :: a, b, h => by
    rw [List.cons_append, List.dropWhile_cons_of_pos (h c (List.mem_cons_self c a)),
      dropWhile_append_all b (fun x hx => h x (List.mem_cons_of_mem c hx))]

theorem parseUnsignedFloat_digits_dot_digit (ip : List Char) (d : Char)
    (hip : ∀ c ∈ ip, isDigitChar c = true) (hne : ip ≠ []) (hd : isDigitChar d = true) :
    parseUnsignedFloat (ip ++ '.' :: [d]) =
      some ((digitsVal ip : ℚ) + (digitsVal [d] : ℚ) / 10) := by
  unfold parseUnsignedFloat
  rw [takeWhile_append_all _ hip, dropWhile_append_all _ hip,
    List.takeWhile_cons_of_neg (by decide), List.dropWhile_cons_of_neg (by decide),
    List.append_nil]
  have h1 : ip.isEmpty = false := by
    cases ip
    · exact absurd rfl hne
    · rfl
  simp only [h1, Bool.false_and, Bool.false_eq_true, if_false, List.all_cons, List.all_nil,
    hd, Bool.and_true, if_true, List.length_cons, List.length_nil]
  norm_num

theorem rne_mem (q : ℚ) : rne q = ⌊q⌋ ∨ rne q = ⌊q⌋ + 1 := by
  unfold rne
  split_ifs <;> simp

theorem rne_nonneg {q : ℚ} (h : 0 ≤ q) : 0 ≤ rne q := by
  have h0 : 0 ≤ ⌊q⌋ := Int.floor_nonneg.mpr h
  rcases rne_mem q with h1 | h1 <;> omega

theorem rne_nonpos {q : ℚ} (h : q < 0) : rne q ≤ 0 := by
  have h0 : ⌊q⌋ < 0 := Int.floor_lt.mpr (by exact_mod_cast h)
  rcases rne_mem q with h1 | h1 <;> omega

theorem natDigitsRev_lt10 {m : ℕ} (h : m < 10) : natDigitsRev m = [digitChar m] := by
  unfold natDigitsRev
  rw [dif_pos h]

theorem natToStrPad_one_lt10 {m : ℕ} (h : m < 10) :
    (natToStrPad 1 m).data = [digitChar m] := by
  unfold natToStrPad
  rw [natDigitsRev_lt10 h, data_mk]
  rfl

theorem digit_not_sign {c : Char} (h : isDigitChar c = true) : c ≠ '-' ∧ c ≠ '+' := by
  constructor <;> intro hc <;> subst hc <;> cases h

theorem parseGoFloat_not_sign {s : String}
    (h : ∀ c, s.data.head? = some c → c ≠ '-' ∧ c ≠ '+') :
    parseGoFloat s = parseUnsignedFloat s.data := by
  unfold parseGoFloat
  split
  · rename_i rest heq
    exact absurd rfl (h '-' (by rw [heq]; rfl)).1
  · rename_i rest heq
    exact absurd rfl (h '+' (by rw [heq]; rfl)).2
  · rfl

theorem div_mod_cast_frac (mag : ℕ) :
    ((mag / 10 : ℕ) : ℚ) + ((mag % 10 : ℕ) : ℚ) / 10 = (mag : ℚ) / 10 := by
  rw [eq_div_iff (by norm_num : (10 : ℚ) ≠ 0), add_mul,
    div_mul_cancel₀ _ (by norm_num : (10 : ℚ) ≠ 0)]
  have h : (mag / 10) * 10 + mag % 10 = mag := by omega
  exact_mod_cast congrArg (fun x : ℕ => (x : ℚ)) h

/-- The rational value denoted by the one-decimal rendering. -/
theorem parse_formatFixed1 (q : ℚ) :
    parseGoFloat (formatFixed 1 q) = some ((rne (q * 10) : ℚ) / 10) := by
  have harg : q * ((10 ^ 1 : ℕ) : ℚ) = q * 10 := by norm_num
  have hfmt : formatFixed 1 q =
      (if q < 0 ∧ rne (q * 10) ≠ 0 then "-" else "") ++
        natToStr ((rne (q * 10)).natAbs / 10) ++ "." ++
        natToStrPad 1 ((rne (q * 10)).natAbs % 10) := by
    unfold formatFixed
    rw [harg]
    norm_num
  have hmaglt : (rne (q * 10)).natAbs % 10 < 10 := Nat.mod_lt _ (by omega)
  have hdata : (natToStr ((rne (q * 10)).natAbs / 10) ++ "." ++
      natToStrPad 1 ((rne (q * 10)).natAbs % 10)).data =
      (natToStr ((rne (q * 10)).natAbs / 10)).data ++
        '.' :: [digitChar ((rne (q * 10)).natAbs % 10)] := by
    rw [String.data_append, String.data_append, natToStrPad_one_lt10 hmaglt,
      List.append_assoc]
    rfl
  have hup : parseUnsignedFloat ((natToStr ((rne (q * 10)).natAbs / 10)).data ++
      '.' :: [digitChar ((rne (q * 10)).natAbs % 10)]) =
      some (((rne (q * 10)).natAbs : ℚ) / 10) := by
    rw [parseUnsignedFloat_digits_dot_digit _ _ (natToStr_all_digits _)
      (natToStr_data_ne_nil _) (isDigitChar_digitChar _ hmaglt), digitsVal_natToStr]
    have hdv : digitsVal [digitChar ((rne (q * 10)).natAbs % 10)] =
        (rne (q * 10)).natAbs % 10 := by
      show 10 * 0 + digitVal (digitChar ((rne (q * 10)).natAbs % 10)) = _
      rw [digitVal_digitChar _ hmaglt]
      omega
    rw [hdv, div_mod_cast_frac]
  by_cases hneg : q < 0 ∧ rne (q * 10) ≠ 0
  · have hn : rne (q * 10) < 0 := by
      have := rne_nonpos (q := q * 10) (by nlinarith [hneg.1])
      omega
    rw [hfmt, if_pos hneg]
    have hd : ("-" ++ natToStr ((rne (q * 10)).natAbs / 10) ++ "." ++
        natToStrPad 1 ((rne (q * 10)).natAbs % 10)).data =
        '-' :: ((natToStr ((rne (q * 10)).natAbs / 10)).data ++
          '.' :: [digitChar ((rne (q * 10)).natAbs % 10)]) := by
      simp only [String.data_append, natToStrPad_one_lt10 hmaglt, List.append_assoc]
      rfl
    unfold parseGoFloat
    rw [hd]
    simp only [hup, Option.map_some']
    congr 1
    have habs : (((rne (q * 10)).natAbs : ℕ) : ℚ) = -((rne (q * 10) : ℤ) : ℚ) := by
      rw [Int.cast_natAbs]
      rw [abs_of_neg (by exact_mod_cast hn)]
      push_cast
      ring
    rw [habs]
    ring
  · rw [hfmt, if_neg hneg]
    have hnn : 0 ≤ rne (q * 10) := by
      rcases not_and_or.mp hneg with h | h
      · exact rne_nonneg (by nlinarith [not_lt.mp h])
      · omega
    have hd : ("" ++ natToStr ((rne (q * 10)).natAbs / 10) ++ "." ++
        natToStrPad 1 ((rne (q * 10)).natAbs % 10)).data =
        (natToStr ((rne (q * 10)).natAbs / 10)).data ++
          '.' :: [digitChar ((rne (q * 10)).natAbs % 10)] := by
      simp only [String.data_append, natToStrPad_one_lt10 hmaglt, List.append_assoc]
      rfl
    have hhead : ∀ c, ("" ++ natToStr ((rne (q * 10)).natAbs / 10) ++ "." ++
        natToStrPad 1 ((rne (q * 10)).natAbs % 10)).data.head? = some c →
        c ≠ '-' ∧ c ≠ '+' := by
      intro c hc
      rw [hd] at hc
      cases hA : (natToStr ((rne (q * 10)).natAbs / 10)).data with
      | nil => exact absurd hA (natToStr_data_ne_nil _)
      | cons a t =>
        rw [hA] at hc
        injection hc with hc
        subst hc
        exact digit_not_sign (natToStr_all_digits _ a (by rw [hA]; exact List.mem_cons_self a t))
    rw [parseGoFloat_not_sign hhead, hd, hup]
    congr 1
    have habs : (((rne (q * 10)).natAbs : ℕ) : ℚ) = ((rne (q * 10) : ℤ) : ℚ) := by
      rw [Int.cast_natAbs, abs_of_nonneg hnn]
    rw [habs]

theorem isDigitChar_not_space {c : Char} (h : isDigitChar c = true) : goIsSpace c = false := by
  have h2 : 48 ≤ c.toNat ∧ c.toNat ≤ 57 := by
    unfold isDigitChar at h
    simpa using h
  unfold goIsSpace
  simp only [Bool.or_eq_false_iff, Bool.and_eq_false_iff, decide_eq_false_iff_not, not_le,
    beq_eq_false_iff_ne, ne_eq]
  omega

theorem formatFixed_chars (d : ℕ) (q : ℚ) :
    ∀ c ∈ (formatFixed d q).data, isDigitChar c = true ∨ c = '-' ∨ c = '.' := by
  intro c hc
  unfold formatFixed at hc
  simp only [String.data_append] at hc
  rcases List.mem_append.mp hc with hc | hc
  · rcases List.mem_append.mp hc with hc | hc
    · rcases List.mem_append.mp hc with hc | hc
      · split_ifs at hc
        · right; left
          simpa using hc
        · cases hc
      · exact Or.inl (natToStr_all_digits _ c hc)
    · right; right
      simpa using hc
  · unfold natToStrPad at hc
    rw [data_mk] at hc
    rcases List.mem_append.mp hc with hc | hc
    · exact Or.inl (by rw [List.eq_of_mem_replicate hc]; decide)
    · exact Or.inl (natDigitsRev_all_digits _ c (List.mem_reverse.mp hc))

theorem formatFixed_trim (d : ℕ) (q : ℚ) :
    goTrimSpace (formatFixed d q) = formatFixed d q := by
  apply goTrimSpace_eq_self_of_all
  intro c hc
  rcases formatFixed_chars d q c hc with h | h | h
  · exact isDigitChar_not_space h
  · subst h; decide
  · subst h; decide

theorem formatFixed_ne_empty (d : ℕ) (q : ℚ) : formatFixed d q ≠ "" := by
  intro h
  have hmem : ('.' : Char) ∈ (formatFixed d q).data := by
    unfold formatFixed
    simp only [String.data_append]
    exact List.mem_append.mpr (Or.inl (List.mem_append.mpr (Or.inr (by decide))))
  rw [h] at hmem
  exact absurd hmem (by decide)

/-! ### C10: one-decimal ASC_SAT formatting -/

/-- C10: when a clip carries a CDL saturation value and the ASC_SAT
column is requested, the encoder writes the fixed one-decimal rendering
of that value; the decimal that rendering denotes — and that the decoder
parses back into CDL metadata — is the saturation rounded (ties to even)
to one decimal place, so a saturation whose tenfold is not an integer is
not preserved across an encode→decode cycle. -/
theorem c10_sat_one_decimal :
    (∀ (e : Encoder) (c : Clip) (cdl : CDLData) (sat : ℚ) (cols : List String) (row : StrMap),
      c.cdl = some cdl → cdl.ascSat = some sat → "ASC_SAT" ∈ cols →
      clipToRow e c cols [] = .ok row →
      mapGet row "ASC_SAT" = some (formatFixed 1 sat)) ∧
    (∀ sat : ℚ,
      parseGoFloat (goTrimSpace (formatFixed 1 sat)) = some ((rne (sat * 10) : ℚ) / 10)) ∧
    (∀ (d : Decoder) (row : StrMap) (i : ℕ) (clip : Clip) (sat : ℚ),
      rowToClip d row i = .ok clip →
      getRow row "ASC_SAT" = formatFixed 1 sat → getRow row "ASC_SOP" = "" →
      clip.cdl = some ⟨none, some ((rne (sat * 10) : ℚ) / 10)⟩) ∧
    (∀ sat : ℚ, (¬∃ m : ℤ, sat * 10 = (m : ℚ)) → (rne (sat * 10) : ℚ) / 10 ≠ sat) := by
  have hparse : ∀ sat : ℚ,
      parseGoFloat (goTrimSpace (formatFixed 1 sat)) = some ((rne (sat * 10) : ℚ) / 10) := by
    intro sat
    rw [formatFixed_trim, parse_formatFixed1]
  refine ⟨?_, hparse, ?_, ?_⟩
  · intro e c cdl sat cols row hc hs hmem hok
    have hcc : clipCell e c "ASC_SAT" = some (formatFixed 1 sat) := by
      unfold clipCell
      rw [if_neg (by decide), if_neg (by decide), if_neg (by decide), if_neg (by decide),
        if_neg (by decide), if_neg (by decide), if_neg (by decide), if_pos rfl]
      simp only [hc, hs, Option.map_some']
    rw [clipToRow_ok_get e c cols [] row hok "ASC_SAT", if_pos hmem, hcc]
  · intro d row i clip sat hok hsat hsop
    have hpc : parseASCCDL "" (formatFixed 1 sat) =
        (some ⟨none, some ((rne (sat * 10) : ℚ) / 10)⟩, none) := by
      have hne := formatFixed_ne_empty 1 sat
      simp only [parseASCCDL]
      rw [if_neg (show ¬(("" : String) ≠ "") by simp), if_pos hne, hparse sat]
      simp
    have hcdl := (rowToClip_ok_fields d row i clip hok).2.2
    rw [hcdl, if_pos (Or.inr (by rw [hsat]; exact formatFixed_ne_empty 1 sat)),
      hsop, hsat, hpc]
  · intro sat hm heq
    refine hm ⟨rne (sat * 10), ?_⟩
    field_simp at heq
    linarith

theorem c10_sat_one_decimal_witness :
    mapGet [("Name", "C"), ("ASC_SAT", formatFixed 1 ((87 : ℚ) / 100))] "ASC_SAT" =
      some (formatFixed 1 ((87 : ℚ) / 100)) ∧
    (rne ((87 : ℚ) / 100 * 10) : ℚ) / 10 ≠ (87 : ℚ) / 100 := by
  have hnotint : ¬∃ m : ℤ, (87 : ℚ) / 100 * 10 = (m : ℚ) := by
    rintro ⟨m, hm⟩
    have h87 : (87 : ℚ) = m * 10 := by
      field_simp at hm
      linarith
    have h87z : (87 : ℤ) = m * 10 := by exact_mod_cast h87
    omega
  constructor
  · exact c10_sat_one_decimal.1 NewEncoder
      ⟨"C", none, .missing "C" none, some ⟨none, some ((87 : ℚ) / 100)⟩, []⟩
      ⟨none, some ((87 : ℚ) / 100)⟩ ((87 : ℚ) / 100) ["Name", "ASC_SAT"] _ rfl rfl
      (by decide) rfl
  · exact c10_sat_one_decimal.2.2.2 ((87 : ℚ) / 100) hnotint

/-! ### C8: inferred encoder columns -/

theorem mem_addUnique (l : List String) (a k : String) :
    k ∈ addUnique l a ↔ k ∈ l ∨ k = a := by
  unfold addUnique
  split_ifs with h
  · constructor
    · exact Or.inl
    · rintro (hk | rfl)
      · exact hk
      · exact h
  · simp

theorem nodup_addUnique (l : List String) (a : String) (h : l.Nodup) :
    (addUnique l a).Nodup := by
  unfold addUnique
  split_ifs with ha
  · exact h
  · refine List.Nodup.append h (List.nodup_singleton a) ?_
    intro x hx hxa
    rw [List.mem_singleton] at hxa
    subst hxa
    exact ha hx

theorem mem_foldl_addUnique (l : List String) :
    ∀ (acc : List String) (k : String), k ∈ l.foldl addUnique acc ↔ k ∈ acc ∨ k ∈ l := by
  induction l with
  | nil => simp
  | cons a t ih =>
    intro acc k
    rw [List.foldl_cons, ih, mem_addUnique, List.mem_cons]
    tauto

theorem nodup_foldl_addUnique (l : List String) :
    ∀ acc : List String, acc.Nodup → (l.foldl addUnique acc).Nodup := by
  induction l with
  | nil => exact fun _ h => h
  | cons a t ih =>
    intro acc h
    rw [List.foldl_cons]
    exact ih _ (nodup_addUnique acc a h)

theorem mem_clipsFold (clips : List Clip) :
    ∀ (acc : List String) (k : String),
      k ∈ clips.foldl (fun acc c => (clipExtraColumns c).foldl addUnique acc) acc ↔
        k ∈ acc ∨ ∃ c ∈ clips, k ∈ clipExtraColumns c := by
  induction clips with
  | nil => simp
  | cons c t ih =>
    intro acc k
    rw [List.foldl_cons, ih, mem_foldl_addUnique]
    simp only [List.exists_mem_cons_iff]
    tauto

theorem nodup_clipsFold (clips : List Clip) :
    ∀ acc : List String, acc.Nodup →
      (clips.foldl (fun acc c => (clipExtraColumns c).foldl addUnique acc) acc).Nodup := by
  induction clips with
  | nil => exact fun _ h => h
  | cons c t ih =>
    intro acc h
    rw [List.foldl_cons]
    exact ih _ (nodup_foldl_addUnique _ _ h)

theorem mem_encodeExtras (t : Timeline) (k : String) :
    k ∈ encodeExtras t ↔ ∃ c ∈ t.findClips, k ∈ clipExtraColumns c := by
  unfold encodeExtras
  rw [mem_clipsFold]
  simp

theorem nodup_encodeExtras (t : Timeline) : (encodeExtras t).Nodup :=
  nodup_clipsFold _ _ List.nodup_nil

/-- C8 counterexample: on a timeline whose single clip has an external
reference with a non-empty target, a CDL saturation, and a residual
metadata key "Scene", the code sorts Source File, ASC_SAT and the
residual key together into one pool (ASC_SAT, Scene, Source File),
whereas the claimed ordering appends Source File first, then ASC_SAT,
then the sorted residual keys. -/
theorem c8_counterexample :
    determineColumns NewEncoder c8Timeline =
      ["Name", "Start", "End", "Duration", "Tracks",
       "ASC_SAT", "Scene", "Source File"] ∧
    determineColumnsSpec NewEncoder c8Timeline =
      ["Name", "Start", "End", "Duration", "Tracks",
       "Source File", "ASC_SAT", "Scene"] ∧
    determineColumns NewEncoder c8Timeline ≠ determineColumnsSpec NewEncoder c8Timeline :=
  ⟨rfl, rfl, by decide⟩

/-- C8 amended: an explicit caller column list overrides all inference;
otherwise the columns are Name, Start, End, Duration, then Tracks when
the timeline has a video or audio track, followed by a single extra
block that pools Source File (external reference with non-empty
target), ASC_SOP / ASC_SAT (clip with the CDL field set) and the
residual metadata keys of every clip, deduplicated and lexically sorted
as one set — not Source File and the CDL columns in fixed positions
before the sorted residual keys. -/
theorem c8_amended :
    (∀ (e : Encoder) (t : Timeline), e.columns ≠ [] → determineColumns e t = e.columns) ∧
    (∀ (e : Encoder) (t : Timeline), e.columns = [] →
      determineColumns e t =
        (if t.videoTracks ≠ [] ∨ t.audioTracks ≠ []
          then [ColumnName, ColumnStart, ColumnEnd, ColumnDuration] ++ [ColumnTracks]
          else [ColumnName, ColumnStart, ColumnEnd, ColumnDuration]) ++
        List.insertionSort strLe (encodeExtras t)) ∧
    (∀ t : Timeline, (List.insertionSort strLe (encodeExtras t)).Sorted strLe) ∧
    (∀ t : Timeline, (List.insertionSort strLe (encodeExtras t)).Nodup) ∧
    (∀ (t : Timeline) (k : String),
      k ∈ List.insertionSort strLe (encodeExtras t) ↔
        ∃ c ∈ t.findClips, k ∈ clipExtraColumns c) := by
  refine ⟨?_, ?_, ?_, ?_, ?_⟩
  · intro e t h
    unfold determineColumns
    rw [if_pos h]
  · intro e t h
    have hne : ¬e.columns ≠ [] := by simp [h]
    unfold determineColumns
    rw [if_neg hne]
    rfl
  · intro t
    exact List.sorted_insertionSort strLe (encodeExtras t)
  · intro t
    exact ((List.perm_insertionSort strLe (encodeExtras t)).nodup_iff).mpr
      (nodup_encodeExtras t)
  · intro t k
    rw [(List.perm_insertionSort strLe (encodeExtras t)).mem_iff, mem_encodeExtras]

theorem c8_amended_witness :
    determineColumns ⟨DefaultFPS, false, ["X"]⟩ c8Timeline = ["X"] ∧
    determineColumns NewEncoder c8Timeline =
      (if c8Timeline.videoTracks ≠ [] ∨ c8Timeline.audioTracks ≠ []
        then [ColumnName, ColumnStart, ColumnEnd, ColumnDuration] ++ [ColumnTracks]
        else [ColumnName, ColumnStart, ColumnEnd, ColumnDuration]) ++
      List.insertionSort strLe (encodeExtras c8Timeline) :=
  ⟨c8_amended.1 ⟨DefaultFPS, false, ["X"]⟩ c8Timeline (by decide),
   c8_amended.2.1 NewEncoder c8Timeline rfl⟩

/-- C5 counterexample: a row whose End field ("0") denotes an earlier
time than its Start field ("24") decodes without error to a clip whose
assigned range has duration `0·24/24 − 24 = −24 < 0` frames: a decoded
time range CAN have negative duration. -/
theorem c5_counterexample :
    ((Decode NewDecoder ["Column", "Name\tStart\tEnd", "Data", "C1\t24\t0"]).toOption.map
      (fun tl => tl.findClips.map
        (fun c => c.sourceRange.map (fun r => r.duration.value)))) =
      some [some (((0 : ℕ) : ℚ) * 24 / 24 - ((24 : ℕ) : ℚ))] ∧
    (((0 : ℕ) : ℚ) * 24 / 24 - ((24 : ℕ) : ℚ)) < 0 := by
  constructor
  · rfl
  · push_cast
    norm_num

/-- C5 amended: for a row decoded from a Start/End pair, the assigned
range's duration is End minus Start (End rescaled to Start's rate), with
no clamping: the duration is negative exactly when the End timecode
denotes an earlier time than Start. -/
theorem c5_amended (d : Decoder) (row : StrMap) (i : ℕ) (clip : Clip) (r : TimeRange)
    (s e : RationalTime)
    (hs : getRow row ColumnStart ≠ "") (he : getRow row ColumnEnd ≠ "")
    (hps : parseTimecode (getRow row ColumnStart) d.fps = .ok s)
    (hpe : parseTimecode (getRow row ColumnEnd) d.fps = .ok e)
    (hok : rowToClip d row i = .ok clip) (hr : clip.sourceRange = some r) :
    r.startTime = s ∧
    r.duration.value = (e.rescaledTo s.rate).value - s.value ∧
    (r.duration.value < 0 ↔ (e.rescaledTo s.rate).value < s.value) := by
  have hsr : rowSourceRange d row = .ok (some ⟨s, durationFromStartEndTime s e⟩) := by
    unfold rowSourceRange
    rw [if_pos (And.intro hs he), hps, hpe]
  unfold rowToClip at hok
  rw [hsr] at hok
  injection hok with hok
  rw [← hok] at hr
  have hr2 : r = ⟨s, durationFromStartEndTime s e⟩ := by
    injection hr with hr2
    exact hr2.symm
  subst hr2
  refine ⟨rfl, rfl, ?_⟩
  show (e.rescaledTo s.rate).value - s.value < 0 ↔ _
  constructor
  · intro h
    linarith
  · intro h
    linarith

theorem c5_amended_witness :
    (durationFromStartEndTime ⟨((24 : ℕ) : ℚ), 24⟩ ⟨((0 : ℕ) : ℚ), 24⟩).value < 0 ∧
    rowToClip NewDecoder [("Name", "C1"), ("Start", "24"), ("End", "0")] 0 =
      .ok ⟨"C1",
        some ⟨⟨((24 : ℕ) : ℚ), 24⟩,
          durationFromStartEndTime ⟨((24 : ℕ) : ℚ), 24⟩ ⟨((0 : ℕ) : ℚ), 24⟩⟩,
        .missing "C1" (some ⟨⟨((24 : ℕ) : ℚ), 24⟩,
          durationFromStartEndTime ⟨((24 : ℕ) : ℚ), 24⟩ ⟨((0 : ℕ) : ℚ), 24⟩⟩),
        none, []⟩ := by
  have happ := c5_amended NewDecoder [("Name", "C1"), ("Start", "24"), ("End", "0")] 0
    ⟨"C1",
      some ⟨⟨((24 : ℕ) : ℚ), 24⟩,
        durationFromStartEndTime ⟨((24 : ℕ) : ℚ), 24⟩ ⟨((0 : ℕ) : ℚ), 24⟩⟩,
      .missing "C1" (some ⟨⟨((24 : ℕ) : ℚ), 24⟩,
        durationFromStartEndTime ⟨((24 : ℕ) : ℚ), 24⟩ ⟨((0 : ℕ) : ℚ), 24⟩⟩),
      none, []⟩
    ⟨⟨((24 : ℕ) : ℚ), 24⟩, durationFromStartEndTime ⟨((24 : ℕ) : ℚ), 24⟩ ⟨((0 : ℕ) : ℚ), 24⟩⟩
    ⟨((24 : ℕ) : ℚ), 24⟩ ⟨((0 : ℕ) : ℚ), 24⟩
    (by decide) (by decide) rfl rfl rfl rfl
  refine ⟨?_, rfl⟩
  exact happ.2.2.mpr (by
    show ((0 : ℕ) : ℚ) * 24 / 24 < ((24 : ℕ) : ℚ)
    push_cast
    norm_num)

theorem c7_drop_frame_witness :
    isDropFrame 29.97 = true ∧
    Decode NewDecoder ["Heading", "FPS\t29.97"] =
      aleToTimeline { NewDecoder with fps := 29.97, dropFrame := isDropFrame 29.97 }
        (parseALE ["Heading", "FPS\t29.97"]) :=
  ⟨c7_drop_frame.2.1.1,
   c7_drop_frame.2.2 NewDecoder ["Heading", "FPS\t29.97"] "29.97" 29.97 rfl (by
     have hval : (((29 : ℕ) : ℚ) + ((97 : ℕ) : ℚ) / 10 ^ (2 : ℕ)) = 29.97 := by
       push_cast
       norm_num
     have h2 : parseFPS "29.97" =
         if (((29 : ℕ) : ℚ) + ((97 : ℕ) : ℚ) / 10 ^ (2 : ℕ)) ≤ 0 then
           Except.error "FPS must be positive"
         else Except.ok (((29 : ℕ) : ℚ) + ((97 : ℕ) : ℚ) / 10 ^ (2 : ℕ)) := rfl
     rw [h2, if_neg (by rw [hval]; norm_num), hval])⟩

/-! ### C1 support: two-digit fields and the timecode round trip -/

theorem pad2_all_digits (n : ℕ) : ∀ c ∈ (pad2 n).data, isDigitChar c = true := by
  intro c hc
  unfold pad2 at hc
  split_ifs at hc with h
  · rw [data_mk] at hc
    rcases List.mem_cons.mp hc with rfl | hc
    · decide
    · rw [List.mem_singleton.mp hc]
      exact isDigitChar_digitChar n h
  · exact natToStr_all_digits n c hc

theorem pad2_data_ne_nil (n : ℕ) : (pad2 n).data ≠ [] := by
  unfold pad2
  split_ifs with h
  · rw [data_mk]
    simp
  · exact natToStr_data_ne_nil n

theorem digitsVal_pad2 (n : ℕ) : digitsVal (pad2 n).data = n := by
  unfold pad2
  split_ifs with h
  · rw [data_mk]
    show 10 * (10 * 0 + digitVal '0') + digitVal (digitChar n) = n
    rw [show digitVal '0' = 0 from rfl, digitVal_digitChar n h]
    omega
  · exact digitsVal_natToStr n

theorem parseNatAll_pad2 (n : ℕ) : parseNatAll (pad2 n).data = some n := by
  unfold parseNatAll
  rw [if_neg (fun h => pad2_data_ne_nil n (List.isEmpty_iff.mp h)),
    if_pos (List.all_eq_true.mpr (pad2_all_digits n)), digitsVal_pad2]

theorem tcRender_chars (a b c d : ℕ) :
    ∀ ch ∈ (tcRender a b c d).data, isDigitChar ch = true ∨ ch = ':' := by
  intro ch hch
  unfold tcRender at hch
  simp only [String.data_append] at hch
  rcases List.mem_append.mp hch with hch | hch
  · rcases List.mem_append.mp hch with hch | hch
    · rcases List.mem_append.mp hch with hch | hch
      · rcases List.mem_append.mp hch with hch | hch
        · rcases List.mem_append.mp hch with hch | hch
          · rcases List.mem_append.mp hch with hch | hch
            · exact Or.inl (pad2_all_digits a ch hch)
            · right; simpa using hch
          · exact Or.inl (pad2_all_digits b ch hch)
        · right; simpa using hch
      · exact Or.inl (pad2_all_digits c ch hch)
    · right; simpa using hch
  · exact Or.inl (pad2_all_digits d ch hch)

theorem tcRender_trim (a b c d : ℕ) : goTrimSpace (tcRender a b c d) = tcRender a b c d := by
  apply goTrimSpace_eq_self_of_all
  intro ch hch
  rcases tcRender_chars a b c d ch hch with h | h
  · exact isDigitChar_not_space h
  · subst h; decide

theorem tcRender_tab_free (a b c d : ℕ) : '\t' ∉ (tcRender a b c d).data := by
  intro h
  rcases tcRender_chars a b c d _ h with h | h
  · exact absurd h (by decide)
  · exact absurd h (by decide)

theorem tcRender_nl_free (a b c d : ℕ) : '\n' ∉ (tcRender a b c d).data := by
  intro h
  rcases tcRender_chars a b c d _ h with h | h
  · exact absurd h (by decide)
  · exact absurd h (by decide)

theorem tcRender_cr_free (a b c d : ℕ) : '\r' ∉ (tcRender a b c d).data := by
  intro h
  rcases tcRender_chars a b c d _ h with h | h
  · exact absurd h (by decide)
  · exact absurd h (by decide)

theorem tcRender_ne_empty (a b c d : ℕ) : tcRender a b c d ≠ "" := by
  intro h
  have hmem : (':' : Char) ∈ (tcRender a b c d).data := by
    unfold tcRender
    simp only [String.data_append]
    exact List.mem_append.mpr (Or.inl (List.mem_append.mpr (Or.inl (List.mem_append.mpr
      (Or.inl (List.mem_append.mpr (Or.inl (List.mem_append.mpr (Or.inl
        (List.mem_append.mpr (Or.inr (by decide))))))))))))
  rw [h] at hmem
  exact absurd hmem (by decide)

theorem ceil_default_fps : (⌈DefaultFPS⌉).toNat = 24 := by
  have h : DefaultFPS = ((24 : ℤ) : ℚ) := by norm_num [DefaultFPS]
  rw [h, Int.ceil_intCast]
  rfl

theorem not_default_fps_nonpos : ¬DefaultFPS ≤ 0 := by norm_num [DefaultFPS]

theorem splitColons_tcRender (a b c d : ℕ) :
    splitOnChar ':' (tcRender a b c d).data =
      [(pad2 a).data, (pad2 b).data, (pad2 c).data, (pad2 d).data] := by
  have hfree : ∀ n : ℕ, ':' ∉ (pad2 n).data := by
    intro n h
    exact absurd (pad2_all_digits n _ h) (by decide)
  have hdata : (tcRender a b c d).data =
      (pad2 a).data ++ ':' :: ((pad2 b).data ++ ':' :: ((pad2 c).data ++ ':' ::
        (pad2 d).data)) := by
    unfold tcRender
    simp only [String.data_append, List.append_assoc]
    rfl
  rw [hdata, splitOnChar_append_sep _ (hfree a), splitOnChar_append_sep _ (hfree b),
    splitOnChar_append_sep _ (hfree c), splitOnChar_of_not_mem (hfree d)]

theorem fromTimecode_tcRender (a b c d : ℕ) (hb : b < 60) (hc : c < 60) (hd : d < 24) :
    fromTimecode (tcRender a b c d) DefaultFPS =
      some ⟨((((a * 60 + b) * 60 + c) * 24 + d : ℕ) : ℚ), DefaultFPS⟩ := by
  have hmapM : ((splitOnChar ':' (tcRender a b c d).data).mapM parseNatAll) =
      some [a, b, c, d] := by
    rw [splitColons_tcRender]
    simp [List.mapM, List.mapM.loop, parseNatAll_pad2]
  simp only [fromTimecode]
  rw [if_neg not_default_fps_nonpos]
  simp only [hmapM, ceil_default_fps]
  rw [if_pos ⟨hb, hc, hd⟩]

theorem parseTimecode_tcRender (a b c d : ℕ) (hb : b < 60) (hc : c < 60) (hd : d < 24) :
    parseTimecode (tcRender a b c d) DefaultFPS =
      .ok ⟨((((a * 60 + b) * 60 + c) * 24 + d : ℕ) : ℚ), DefaultFPS⟩ := by
  unfold parseTimecode
  rw [if_neg (tcRender_ne_empty a b c d)]
  simp only [fromTimecode_tcRender a b c d hb hc hd]

theorem parseTimecode_roundtrip24 (n : ℕ) :
    parseTimecode (tcRender (n / 24 / 3600) (n / 24 / 60 % 60) (n / 24 % 60) (n % 24))
      DefaultFPS = .ok ⟨((n : ℕ) : ℚ), DefaultFPS⟩ := by
  rw [parseTimecode_tcRender _ _ _ _ (Nat.mod_lt _ (by omega)) (Nat.mod_lt _ (by omega))
    (Nat.mod_lt _ (by omega))]
  have he : ((n / 24 / 3600 * 60 + n / 24 / 60 % 60) * 60 + n / 24 % 60) * 24 + n % 24
      = n := by omega
  rw [he]

theorem formatTimecode_natCast (v : ℚ) (n : ℕ) (hv : v = (n : ℚ)) :
    formatTimecode ⟨v, DefaultFPS⟩ DefaultFPS false =
      .ok (tcRender (n / 24 / 3600) (n / 24 / 60 % 60) (n / 24 % 60) (n % 24)) := by
  subst hv
  simp only [formatTimecode, toTimecode, RationalTime.rescaledTo]
  have hval : ((n : ℕ) : ℚ) * DefaultFPS / DefaultFPS = ((n : ℕ) : ℚ) := by
    rw [mul_div_assoc, div_self (by norm_num [DefaultFPS]), mul_one]
  rw [if_neg (by simp), if_neg not_default_fps_nonpos, hval]
  rw [if_neg (not_lt.mpr (Nat.cast_nonneg n)), ceil_default_fps, round_natCast,
    Int.toNat_natCast]
  rfl

theorem formatFrameNumber_natCast (n : ℕ) :
    formatFrameNumber ⟨((n : ℕ) : ℚ), DefaultFPS⟩ DefaultFPS = natToStr n := by
  simp only [formatFrameNumber, RationalTime.rescaledTo, ratTrunc]
  have hval : ((n : ℕ) : ℚ) * DefaultFPS / DefaultFPS = ((n : ℕ) : ℚ) := by
    rw [mul_div_assoc, div_self (by norm_num [DefaultFPS]), mul_one]
  rw [hval, if_neg (not_lt.mpr (Nat.cast_nonneg n)), Int.floor_natCast]
  unfold intToStr
  rw [if_neg (by exact_mod_cast Nat.not_lt_zero n), Int.natAbs_ofNat]

/-! ### C1 support: the written FPS header parses back to the rate -/

theorem digitsVal_replicate_zero (k : ℕ) (l : List Char) :
    digitsVal (List.replicate k '0' ++ l) = digitsVal l := by
  induction k with
  | zero => rfl
  | succ k ih =>
    rw [List.replicate_succ, List.cons_append]
    show digitsVal (List.replicate k '0' ++ l) = digitsVal l
    exact ih

theorem natDigitsRev_length_le : ∀ (d m : ℕ), m < 10 ^ d → 1 ≤ d →
    (natDigitsRev m).length ≤ d := by
  intro d
  induction d with
  | zero => intro m _ h1; omega
  | succ d ih =>
    intro m hm _
    unfold natDigitsRev
    split_ifs with h
    · simp only [List.length_singleton]
      omega
    · rw [List.length_cons]
      have hd1 : 1 ≤ d := by
        rcases Nat.eq_zero_or_pos d with rfl | hpos
        · norm_num at hm
          omega
        · exact hpos
      have hdiv : m / 10 < 10 ^ d := by
        rw [Nat.div_lt_iff_lt_mul (by omega)]
        rw [pow_succ] at hm
        omega
      have := ih (m / 10) hdiv hd1
      omega

theorem natToStrPad_all_digits (w n : ℕ) :
    ∀ c ∈ (natToStrPad w n).data, isDigitChar c = true := by
  intro c hc
  unfold natToStrPad at hc
  rw [data_mk] at hc
  rcases List.mem_append.mp hc with hc | hc
  · rw [List.eq_of_mem_replicate hc]
    decide
  · exact natDigitsRev_all_digits n c (List.mem_reverse.mp hc)

theorem digitsVal_natToStrPad (w n : ℕ) : digitsVal (natToStrPad w n).data = n := by
  unfold natToStrPad
  rw [data_mk, digitsVal_replicate_zero, digitsVal_natDigitsRev]

theorem natToStrPad_length (w n : ℕ) (h : n < 10 ^ w) (hw : 1 ≤ w) :
    (natToStrPad w n).data.length = w := by
  unfold natToStrPad
  rw [data_mk, List.length_append, List.length_replicate, List.length_reverse]
  have := natDigitsRev_length_le w n h hw
  omega

theorem parseUnsignedFloat_digits_dot (ip frac : List Char)
    (hip : ∀ c ∈ ip, isDigitChar c = true) (hne : ip ≠ [])
    (hfrac : ∀ c ∈ frac, isDigitChar c = true) :
    parseUnsignedFloat (ip ++ '.' :: frac) =
      some ((digitsVal ip : ℚ) + (digitsVal frac : ℚ) / 10 ^ frac.length) := by
  unfold parseUnsignedFloat
  rw [takeWhile_append_all _ hip, dropWhile_append_all _ hip,
    List.takeWhile_cons_of_neg (by decide), List.dropWhile_cons_of_neg (by decide),
    List.append_nil]
  have h1 : ip.isEmpty = false := by
    cases ip
    · exact absurd rfl hne
    · rfl
  simp only [h1, Bool.false_and, Bool.false_eq_true, if_false,
    List.all_eq_true.mpr hfrac, if_true]

theorem rne_intCast (n : ℤ) : rne ((n : ℤ) : ℚ) = n := by
  unfold rne
  rw [Int.floor_intCast, if_pos (by norm_num)]

theorem parse_formatFixed_pos (d : ℕ) (hd : 1 ≤ d) (q : ℚ) (hq : 0 ≤ q) :
    parseGoFloat (formatFixed d q) =
      some (((rne (q * ((10 ^ d : ℕ) : ℚ))) : ℚ) / ((10 ^ d : ℕ) : ℚ)) := by
  have hnn : (0 : ℤ) ≤ rne (q * ((10 ^ d : ℕ) : ℚ)) := rne_nonneg (by positivity)
  have hneg : ¬(q < 0 ∧ rne (q * ((10 ^ d : ℕ) : ℚ)) ≠ 0) := by
    rintro ⟨h1, _⟩
    exact absurd h1 (not_lt.mpr hq)
  have hmaglt : (rne (q * ((10 ^ d : ℕ) : ℚ))).natAbs % 10 ^ d < 10 ^ d :=
    Nat.mod_lt _ (by positivity)
  have hfmt : formatFixed d q =
      "" ++ natToStr ((rne (q * ((10 ^ d : ℕ) : ℚ))).natAbs / 10 ^ d) ++ "." ++
        natToStrPad d ((rne (q * ((10 ^ d : ℕ) : ℚ))).natAbs % 10 ^ d) := by
    simp only [formatFixed]
    rw [if_neg hneg]
  have hdata : ("" ++ natToStr ((rne (q * ((10 ^ d : ℕ) : ℚ))).natAbs / 10 ^ d) ++ "." ++
      natToStrPad d ((rne (q * ((10 ^ d : ℕ) : ℚ))).natAbs % 10 ^ d)).data =
      (natToStr ((rne (q * ((10 ^ d : ℕ) : ℚ))).natAbs / 10 ^ d)).data ++
        '.' :: (natToStrPad d ((rne (q * ((10 ^ d : ℕ) : ℚ))).natAbs % 10 ^ d)).data := by
    simp only [String.data_append, List.append_assoc]
    rfl
  have hup : parseUnsignedFloat
      ((natToStr ((rne (q * ((10 ^ d : ℕ) : ℚ))).natAbs / 10 ^ d)).data ++
        '.' :: (natToStrPad d ((rne (q * ((10 ^ d : ℕ) : ℚ))).natAbs % 10 ^ d)).data) =
      some ((((rne (q * ((10 ^ d : ℕ) : ℚ))).natAbs / 10 ^ d : ℕ) : ℚ) +
        (((rne (q * ((10 ^ d : ℕ) : ℚ))).natAbs % 10 ^ d : ℕ) : ℚ) / (10 : ℚ) ^ d) := by
    rw [parseUnsignedFloat_digits_dot _ _ (natToStr_all_digits _) (natToStr_data_ne_nil _)
      (natToStrPad_all_digits _ _), digitsVal_natToStr, digitsVal_natToStrPad,
      natToStrPad_length _ _ hmaglt hd]
  have hhead : ∀ ch, ("" ++ natToStr ((rne (q * ((10 ^ d : ℕ) : ℚ))).natAbs / 10 ^ d) ++ "." ++
      natToStrPad d ((rne (q * ((10 ^ d : ℕ) : ℚ))).natAbs % 10 ^ d)).data.head? = some ch →
      ch ≠ '-' ∧ ch ≠ '+' := by
    intro ch hc
    rw [hdata] at hc
    cases hA : (natToStr ((rne (q * ((10 ^ d : ℕ) : ℚ))).natAbs / 10 ^ d)).data with
    | nil => exact absurd hA (natToStr_data_ne_nil _)
    | cons a t =>
      rw [hA] at hc
      injection hc with hc
      subst hc
      exact digit_not_sign (natToStr_all_digits _ a (by rw [hA]; exact List.mem_cons_self a t))
  rw [hfmt, parseGoFloat_not_sign hhead, hdata, hup]
  congr 1
  have habs : (((rne (q * ((10 ^ d : ℕ) : ℚ))).natAbs : ℕ) : ℚ) =
      ((rne (q * ((10 ^ d : ℕ) : ℚ)) : ℤ) : ℚ) := by
    rw [Int.cast_natAbs, abs_of_nonneg (by exact_mod_cast hnn)]
  have hsplit : (((rne (q * ((10 ^ d : ℕ) : ℚ))).natAbs / 10 ^ d : ℕ) : ℚ) +
      (((rne (q * ((10 ^ d : ℕ) : ℚ))).natAbs % 10 ^ d : ℕ) : ℚ) / (10 : ℚ) ^ d =
      ((((rne (q * ((10 ^ d : ℕ) : ℚ))).natAbs : ℕ) : ℚ)) / ((10 ^ d : ℕ) : ℚ) := by
    push_cast
    rw [eq_div_iff (by positivity), add_mul,
      div_mul_cancel₀ _ (by positivity : ((10 : ℚ) ^ d) ≠ 0)]
    have hℕ : ((rne (q * ((10 ^ d : ℕ) : ℚ))).natAbs / 10 ^ d) * 10 ^ d +
        (rne (q * ((10 ^ d : ℕ) : ℚ))).natAbs % 10 ^ d =
        (rne (q * ((10 ^ d : ℕ) : ℚ))).natAbs := Nat.div_add_mod' _ _
    exact_mod_cast congrArg (fun x : ℕ => (x : ℚ)) hℕ
  rw [hsplit, habs]

theorem parseFPS_formatFixed2 :
    parseFPS (formatFixed 2 DefaultFPS) =
      .ok (((rne (DefaultFPS * ((10 ^ 2 : ℕ) : ℚ))) : ℚ) / ((10 ^ 2 : ℕ) : ℚ)) ∧
    (((rne (DefaultFPS * ((10 ^ 2 : ℕ) : ℚ))) : ℚ) / ((10 ^ 2 : ℕ) : ℚ)) = DefaultFPS := by
  have hval : DefaultFPS * ((10 ^ 2 : ℕ) : ℚ) = ((2400 : ℤ) : ℚ) := by
    norm_num [DefaultFPS]
  have h24 : (((rne (DefaultFPS * ((10 ^ 2 : ℕ) : ℚ))) : ℚ) / ((10 ^ 2 : ℕ) : ℚ)) =
      DefaultFPS := by
    rw [hval, rne_intCast]
    norm_num [DefaultFPS]
  refine ⟨?_, h24⟩
  simp only [parseFPS]
  rw [formatFixed_trim, if_neg (formatFixed_ne_empty 2 DefaultFPS)]
  simp only [parse_formatFixed_pos 2 (by omega) DefaultFPS (by norm_num [DefaultFPS])]
  rw [if_neg (by rw [h24]; norm_num [DefaultFPS])]

theorem isDropFrame_of_eq_24 (v : ℚ) (hv : v = DefaultFPS) : isDropFrame v = false := by
  subst hv
  unfold isDropFrame
  rw [Bool.or_eq_false_iff]
  constructor <;> rw [decide_eq_false_iff_not] <;> rintro ⟨h1, h2⟩
  · norm_num [DefaultFPS] at h1
  · norm_num [DefaultFPS] at h1

theorem decode_override (lines : List String)
    (hfps : mapGet (parseALE lines).headers HeaderFPS = some (formatFixed 2 DefaultFPS)) :
    Decode NewDecoder lines = aleToTimeline NewDecoder (parseALE lines) := by
  obtain ⟨hok, hval⟩ := parseFPS_formatFixed2
  simp only [Decode, hfps, hok]
  congr 1
  rw [hval, isDropFrame_of_eq_24 DefaultFPS rfl]
  rfl

/-! ### C1 support: how the scanner treats the written lines -/

theorem trimList_prefix_of_head {ch : Char} {t : List Char}
    (hch : goIsSpace ch = false) :
    trimList (ch :: t) <+: ch :: t ∧ ∃ t2, trimList (ch :: t) = ch :: t2 := by
  have hfront : (ch :: t).dropWhile goIsSpace = ch :: t :=
    dropWhile_eq_self_of_head (fun c hc => by injection hc with hc; exact hc ▸ hch)
  have hpre : trimList (ch :: t) <+: ch :: t := by
    have := trimList_prefix_dropWhile (ch :: t)
    rwa [hfront] at this
  refine ⟨hpre, ?_⟩
  have hne : trimList (ch :: t) ≠ [] := by
    unfold trimList
    rw [hfront]
    intro h0
    have h1 : (ch :: t).reverse.dropWhile goIsSpace = [] := by
      have := congrArg List.reverse h0
      simpa using this
    rw [List.dropWhile_eq_nil_iff] at h1
    exact absurd (h1 ch (by simp)) (by simp [hch])
  cases hT : trimList (ch :: t) with
  | nil => exact absurd hT hne
  | cons x t2 =>
    have hh := prefix_head? hpre (by rw [hT]; simp)
    rw [hT] at hh
    injection hh with hh
    refine ⟨t2, ?_⟩
    rw [← hh]

theorem not_prefix_of_head_ne {a b : Char} {l₁ l₂ : List Char} (h : a ≠ b) :
    ¬(a :: l₁ <+: b :: l₂) := by
  rintro ⟨t, ht⟩
  rw [List.cons_append] at ht
  injection ht with h1 _
  exact h h1

theorem not_prefix_append_tab (m : String) (a r : List Char)
    (hm : ¬(m.data <+: a)) (htab : '\t' ∉ m.data) :
    ¬(m.data <+: a ++ '\t' :: r) := by
  intro hp
  rcases le_or_lt m.data.length a.length with hle | hlt
  · apply hm
    have hm2 : m.data = (a ++ '\t' :: r).take m.data.length := List.prefix_iff_eq_take.mp hp
    rw [List.take_append_eq_append_take, Nat.sub_eq_zero_of_le hle, List.take_zero,
      List.append_nil] at hm2
    rw [hm2]
    exact List.take_prefix _ a
  · apply htab
    have hm2 : m.data = (a ++ '\t' :: r).take m.data.length := List.prefix_iff_eq_take.mp hp
    rw [List.take_append_eq_append_take] at hm2
    have h1 : m.data.length - a.length = (m.data.length - a.length - 1) + 1 := by omega
    rw [h1, List.take_succ_cons] at hm2
    rw [hm2]
    simp

theorem goTrimSpace_head_facts (line : String) (ch : Char) (t : List Char)
    (hd : line.data = ch :: t) (hch : goIsSpace ch = false) :
    goTrimSpace line ≠ "" ∧
    ∀ m : String, ¬(m.data <+: line.data) → goHasPrefix (goTrimSpace line) m = false := by
  have hdt : (goTrimSpace line).data = trimList line.data := rfl
  obtain ⟨hpre, t2, ht2⟩ := trimList_prefix_of_head (t := t) hch
  rw [← hd] at hpre ht2
  constructor
  · intro h0
    have h1 : (goTrimSpace line).data = [] := by rw [h0]
    rw [hdt, hd] at h1
    rw [hd] at ht2
    rw [h1] at ht2
    cases ht2
  · intro m hm
    show m.data.isPrefixOf (goTrimSpace line).data = false
    by_contra hc
    rw [Bool.not_eq_false] at hc
    have h2 : m.data <+: trimList line.data := by
      rw [← hdt]
      exact List.isPrefixOf_iff_prefix.mp hc
    exact hm (h2.trans hpre)

theorem splitTabs_ne_nil (s : String) : splitTabs s ≠ [] := by
  unfold splitTabs
  intro h
  exact splitOnChar_ne_nil '\t' s.data (List.map_eq_nil_iff.mp h)

theorem parseALEAux_blank (rest : List String) (inH inD : Bool) (cols : List String)
    (acc : ALEFile) :
    parseALEAux ("" :: rest) inH inD cols acc = parseALEAux rest inH inD cols acc := by
  rw [parseALEAux_cons, if_pos (show goTrimSpace "" = "" from rfl)]

theorem parseALEAux_heading_marker (rest : List String) (inH inD : Bool)
    (cols : List String) (acc : ALEFile) :
    parseALEAux ("Heading" :: rest) inH inD cols acc =
      parseALEAux rest true inD cols acc := by
  rw [parseALEAux_cons, if_neg (by decide), if_pos (by decide)]

theorem parseALEAux_column_marker (columnLine : String) (rest2 : List String)
    (inH inD : Bool) (cols : List String) (acc : ALEFile) :
    parseALEAux ("Column" :: columnLine :: rest2) inH inD cols acc =
      parseALEAux rest2 false inD ((splitTabs columnLine).map goTrimSpace)
        { acc with columns := (splitTabs columnLine).map goTrimSpace } := by
  rw [parseALEAux_cons, if_neg (by decide), if_neg (by decide), if_pos (by decide)]

theorem parseALEAux_data_marker (rest : List String) (inH inD : Bool)
    (cols : List String) (acc : ALEFile) :
    parseALEAux ("Data" :: rest) inH inD cols acc =
      parseALEAux rest inH true cols acc := by
  rw [parseALEAux_cons, if_neg (by decide), if_neg (by decide), if_neg (by decide),
    if_pos (by decide)]

theorem parseALEAux_heading_line (k v : String) (rest : List String) (inD : Bool)
    (cols : List String) (acc : ALEFile)
    (hk : '\t' ∉ k.data) (hv : '\t' ∉ v.data)
    (ch : Char) (t : List Char) (hd : k.data = ch :: t) (hch : goIsSpace ch = false)
    (hH : ch ≠ 'H') (hC : ch ≠ 'C') (hD : ch ≠ 'D') :
    parseALEAux ((k ++ "\t" ++ v) :: rest) true inD cols acc =
      parseALEAux rest true inD cols
        { acc with headers := mapSet acc.headers (goTrimSpace k) (goTrimSpace v) } := by
  have hline : (k ++ "\t" ++ v).data = ch :: (t ++ '\t' :: v.data) := by
    simp only [String.data_append, hd, List.cons_append, List.append_assoc]
    rfl
  obtain ⟨hblank, hnopre⟩ :=
    goTrimSpace_head_facts (k ++ "\t" ++ v) ch (t ++ '\t' :: v.data) hline hch
  have hmH : ¬(HeaderHeading.data <+: (k ++ "\t" ++ v).data) := by
    rw [hline, show HeaderHeading.data = 'H' :: "eading".data from rfl]
    exact not_prefix_of_head_ne (Ne.symm hH)
  have hmC : ¬(HeaderColumn.data <+: (k ++ "\t" ++ v).data) := by
    rw [hline, show HeaderColumn.data = 'C' :: "olumn".data from rfl]
    exact not_prefix_of_head_ne (Ne.symm hC)
  have hmD : ¬(HeaderData.data <+: (k ++ "\t" ++ v).data) := by
    rw [hline, show HeaderData.data = 'D' :: "ata".data from rfl]
    exact not_prefix_of_head_ne (Ne.symm hD)
  have hsplit : splitTabs (k ++ "\t" ++ v) = [k, v] := by
    unfold splitTabs
    have hkv : (k ++ "\t" ++ v).data = k.data ++ '\t' :: v.data := by
      simp only [String.data_append, List.append_assoc]
      rfl
    rw [hkv, splitOnChar_append_sep _ hk, splitOnChar_of_not_mem hv]
    rfl
  rw [parseALEAux_cons, if_neg hblank,
    if_neg (by rw [hnopre HeaderHeading hmH]; decide),
    if_neg (by rw [hnopre HeaderColumn hmC]; decide),
    if_neg (by rw [hnopre HeaderData hmD]; decide),
    if_pos rfl, hsplit]

theorem parseALEAux_data_line (line : String) (rest : List String)
    (cols : List String) (acc : ALEFile) (hcols : cols ≠ [])
    (ch : Char) (t : List Char) (hd : line.data = ch :: t) (hch : goIsSpace ch = false)
    (hH : ch ≠ 'H') (hC : ch ≠ 'C') (hD : ch ≠ 'D') :
    parseALEAux (line :: rest) false true cols acc =
      parseALEAux rest false true cols
        { acc with rows := acc.rows ++ [buildRow cols (splitTabs line)] } := by
  obtain ⟨hblank, hnopre⟩ := goTrimSpace_head_facts line ch t hd hch
  have hmH : ¬(HeaderHeading.data <+: line.data) := by
    rw [hd, show HeaderHeading.data = 'H' :: "eading".data from rfl]
    exact not_prefix_of_head_ne (Ne.symm hH)
  have hmC : ¬(HeaderColumn.data <+: line.data) := by
    rw [hd, show HeaderColumn.data = 'C' :: "olumn".data from rfl]
    exact not_prefix_of_head_ne (Ne.symm hC)
  have hmD : ¬(HeaderData.data <+: line.data) := by
    rw [hd, show HeaderData.data = 'D' :: "ata".data from rfl]
    exact not_prefix_of_head_ne (Ne.symm hD)
  rw [parseALEAux_cons, if_neg hblank,
    if_neg (by rw [hnopre HeaderHeading hmH]; decide),
    if_neg (by rw [hnopre HeaderColumn hmC]; decide),
    if_neg (by rw [hnopre HeaderData hmD]; decide),
    if_neg (by decide), if_pos ⟨rfl, hcols⟩]
  cases hs : splitTabs line with
  | nil => exact absurd hs (splitTabs_ne_nil line)
  | cons v vs => rfl

theorem parseALEAux_data_lines (cols : List String) (hcols : cols ≠ []) :
    ∀ (rows : List StrMap) (acc : ALEFile),
      (∀ row ∈ rows, ∃ ch t,
        (joinTabs (cols.map (fun col => getRow row col))).data = ch :: t ∧
        goIsSpace ch = false ∧ ch ≠ 'H' ∧ ch ≠ 'C' ∧ ch ≠ 'D') →
      (∀ row ∈ rows, ∀ cell ∈ cols.map (fun col => getRow row col), '\t' ∉ cell.data) →
      parseALEAux (rows.map (fun row => joinTabs (cols.map (fun col => getRow row col))))
          false true cols acc =
        { acc with rows := acc.rows ++
            rows.map (fun row => buildRow cols (cols.map (fun col => getRow row col))) }
  | [], acc, _, _ => by
    rw [List.map_nil, parseALEAux_nil, List.map_nil, List.append_nil]
  | row :: rows, acc, hgood, htab => by
    obtain ⟨ch, t, hd, hch, hH, hC, hD⟩ := hgood row (List.mem_cons_self row rows)
    rw [List.map_cons,
      parseALEAux_data_line _ _ cols acc hcols ch t hd hch hH hC hD,
      splitTabs_joinTabs _ (fun h => hcols (List.map_eq_nil_iff.mp h))
        (htab row (List.mem_cons_self row rows)),
      parseALEAux_data_lines cols hcols rows _
        (fun r hr => hgood r (List.mem_cons_of_mem row hr))
        (fun r hr => htab r (List.mem_cons_of_mem row hr))]
    cases acc
    simp

theorem formatFixed_tab_free (d : ℕ) (q : ℚ) : '\t' ∉ (formatFixed d q).data := by
  intro h
  rcases formatFixed_chars d q _ h with h1 | h1 | h1
  · exact absurd h1 (by decide)
  · exact absurd h1 (by decide)
  · exact absurd h1 (by decide)

theorem formatFixed_nl_free (d : ℕ) (q : ℚ) : '\n' ∉ (formatFixed d q).data := by
  intro h
  rcases formatFixed_chars d q _ h with h1 | h1 | h1
  · exact absurd h1 (by decide)
  · exact absurd h1 (by decide)
  · exact absurd h1 (by decide)

theorem formatFixed_cr_free (d : ℕ) (q : ℚ) : '\r' ∉ (formatFixed d q).data := by
  intro h
  rcases formatFixed_chars d q _ h with h1 | h1 | h1
  · exact absurd h1 (by decide)
  · exact absurd h1 (by decide)
  · exact absurd h1 (by decide)

theorem videoFormatFromDimensions_good (w h : ℕ) :
    goTrimSpace (videoFormatFromDimensions w h) = videoFormatFromDimensions w h ∧
    '\t' ∉ (videoFormatFromDimensions w h).data ∧
    '\n' ∉ (videoFormatFromDimensions w h).data ∧
    '\r' ∉ (videoFormatFromDimensions w h).data := by
  unfold videoFormatFromDimensions
  split_ifs <;> exact ⟨rfl, by decide, by decide, by decide⟩

theorem inferVideoFormat_good (clips : List Clip) :
    goTrimSpace (inferVideoFormat clips) = inferVideoFormat clips ∧
    '\t' ∉ (inferVideoFormat clips).data ∧
    '\n' ∉ (inferVideoFormat clips).data ∧
    '\r' ∉ (inferVideoFormat clips).data := by
  simp only [inferVideoFormat]
  split_ifs
  · exact videoFormatFromDimensions_good _ _
  · exact ⟨rfl, by decide, by decide, by decide⟩

/-! ### C1 support: row reconstruction and clip conversion -/

theorem buildRow_map_get (cols : List String) (f : String → String) (hnd : cols.Nodup)
    (c : String) (hc : c ∈ cols) :
    mapGet (buildRow cols (cols.map f)) c = some (goTrimSpace (f c)) := by
  obtain ⟨⟨i, hi⟩, rfl⟩ := List.mem_iff_get.mp hc
  rw [buildRow_get cols (cols.map f) hnd i hi]
  congr 2
  have hlen : cols.length - (cols.map f).length = 0 := by simp
  rw [hlen, List.replicate_zero, List.append_nil,
    List.getD_eq_getElem _ _ (by simpa using hi), List.getElem_map]
  rfl

theorem buildRow_get_notmem (cols vals : List String) (k : String) (h : k ∉ cols) :
    mapGet (buildRow cols vals) k = none := by
  rw [buildRow_eq_rowFold,
    rowFold_get_notmem _ _ _
      (fun p hp hk => h (by rw [← hk]; exact (List.of_mem_zip hp).1))]
  rfl

theorem mapSet_keys_nodup (m : StrMap) (k v : String) (h : (m.map Prod.fst).Nodup) :
    ((mapSet m k v).map Prod.fst).Nodup := by
  unfold mapSet
  rw [List.map_append]
  refine List.Nodup.append ?_ (by simp) ?_
  · exact h.sublist (List.Sublist.map _ (List.filter_sublist m))
  · intro x hx hxk
    simp only [List.map_cons, List.map_nil, List.mem_singleton] at hxk
    obtain ⟨p, hp, hpx⟩ := List.mem_map.mp hx
    have h2 : p.1 ≠ k := by simpa using (List.mem_filter.mp hp).2
    exact h2 (hpx.trans hxk)

theorem rowFold_keys_nodup (ps : List (String × String)) :
    ∀ r₀ : StrMap, (r₀.map Prod.fst).Nodup → ((rowFold ps r₀).map Prod.fst).Nodup := by
  induction ps with
  | nil => exact fun _ h => h
  | cons p ps ih =>
    intro r₀ h
    rw [rowFold, List.foldl_cons, ← rowFold]
    exact ih _ (mapSet_keys_nodup _ _ _ h)

theorem buildRow_keys_nodup (cols vals : List String) :
    ((buildRow cols vals).map Prod.fst).Nodup := by
  rw [buildRow_eq_rowFold]
  exact rowFold_keys_nodup _ _ (by simp)

theorem mapGet_eq_none_of_not_mem (m : StrMap) (k : String) (h : k ∉ m.map Prod.fst) :
    mapGet m k = none := by
  unfold mapGet
  have hfind : m.find? (fun p => p.1 == k) = none := by
    rw [List.find?_eq_none]
    intro p hp hpk
    exact h (List.mem_map.mpr ⟨p, hp, by simpa using hpk⟩)
  rw [hfind]
  rfl

theorem mapGet_filter (m : StrMap) (p : String × String → Bool) (k : String)
    (hnd : (m.map Prod.fst).Nodup) :
    mapGet (m.filter p) k =
      (mapGet m k).bind (fun v => if p (k, v) then some v else none) := by
  induction m with
  | nil => rfl
  | cons a t ih =>
    obtain ⟨a1, a2⟩ := a
    rw [List.map_cons, List.nodup_cons] at hnd
    obtain ⟨hnotin, hnd2⟩ := hnd
    rw [List.filter_cons]
    by_cases hk : a1 = k
    · subst hk
      have hget : mapGet ((a1, a2) :: t) a1 = some a2 := by
        unfold mapGet
        rw [List.find?_cons_of_pos _ (by simp)]
        rfl
      by_cases hp : p (a1, a2)
      · rw [if_pos hp, hget]
        show mapGet ((a1, a2) :: t.filter p) a1 = if p (a1, a2) = true then some a2 else none
        rw [if_pos hp]
        unfold mapGet
        rw [List.find?_cons_of_pos _ (by simp)]
        rfl
      · rw [if_neg hp, hget]
        have hnone : mapGet (t.filter p) a1 = none := by
          apply mapGet_eq_none_of_not_mem
          intro hmem
          obtain ⟨q, hq, hq1⟩ := List.mem_map.mp hmem
          exact hnotin (List.mem_map.mpr ⟨q, List.mem_of_mem_filter hq, hq1⟩)
        rw [hnone]
        show (none : Option String) = if p (a1, a2) = true then some a2 else none
        rw [if_neg hp]
    · have hstep : mapGet ((a1, a2) :: t) k = mapGet t k := by
        unfold mapGet
        rw [List.find?_cons_of_neg _ (by simpa using hk)]
      by_cases hp : p (a1, a2)
      · rw [if_pos hp]
        have hstep2 : mapGet ((a1, a2) :: t.filter p) k = mapGet (t.filter p) k := by
          unfold mapGet
          rw [List.find?_cons_of_neg _ (by simpa using hk)]
        rw [hstep2, hstep, ih hnd2]
      · rw [if_neg hp, hstep, ih hnd2]

theorem clipToRow_total (e : Encoder) (c : Clip)
    (hfmt : ∀ r, encSourceRange c = some r →
      (∃ a, formatTimecode r.startTime e.fps e.dropFrame = .ok a) ∧
      (∃ b, formatTimecode r.endTimeExclusive e.fps e.dropFrame = .ok b)) :
    ∀ (cols : List String) (row₀ : StrMap), ∃ row, clipToRow e c cols row₀ = .ok row
  | [], row₀ => ⟨row₀, rfl⟩
  | col :: rest, row₀ => by
    rw [clipToRow]
    split_ifs with h1 h2 h3 h4 h5 h6 h7 h8
    · exact clipToRow_total e c hfmt rest _
    · cases hsr : encSourceRange c with
      | none => exact clipToRow_total e c hfmt rest _
      | some r =>
        obtain ⟨⟨a, ha⟩, _⟩ := hfmt r hsr
        simp only [ha]
        exact clipToRow_total e c hfmt rest _
    · cases hsr : encSourceRange c with
      | none => exact clipToRow_total e c hfmt rest _
      | some r =>
        obtain ⟨_, ⟨b, hb⟩⟩ := hfmt r hsr
        simp only [hb]
        exact clipToRow_total e c hfmt rest _
    · cases hsr : encSourceRange c with
      | none => simp only [hsr]; exact clipToRow_total e c hfmt rest _
      | some r => simp only [hsr]; exact clipToRow_total e c hfmt rest _
    · exact clipToRow_total e c hfmt rest _
    · cases hmr : c.mediaRef with
      | external nm target ar => simp only [hmr]; exact clipToRow_total e c hfmt rest _
      | missing nm ar => simp only [hmr]; exact clipToRow_total e c hfmt rest _
    · cases hc : c.cdl with
      | none => simp only [hc]; exact clipToRow_total e c hfmt rest _
      | some cdl =>
        simp only [hc]
        cases hs : cdl.ascSOP with
        | none => simp only [hs]; exact clipToRow_total e c hfmt rest _
        | some sop => simp only [hs]; exact clipToRow_total e c hfmt rest _
    · cases hc : c.cdl with
      | none => simp only [hc]; exact clipToRow_total e c hfmt rest _
      | some cdl =>
        simp only [hc]
        cases hs : cdl.ascSat with
        | none => simp only [hs]; exact clipToRow_total e c hfmt rest _
        | some sat => simp only [hs]; exact clipToRow_total e c hfmt rest _
    · cases hv : mapGet c.ale col with
      | none => simp only [hv]; exact clipToRow_total e c hfmt rest _
      | some v => simp only [hv]; exact clipToRow_total e c hfmt rest _

theorem clipsToRows_total (e : Encoder) (cols : List String) :
    ∀ clips : List Clip,
      (∀ c ∈ clips, ∀ row₀ : StrMap, ∃ row, clipToRow e c cols row₀ = .ok row) →
      ∃ rows, clipsToRows e cols clips = .ok rows ∧
        List.Forall₂ (fun row c => clipToRow e c cols [] = .ok row) rows clips
  | [], _ => ⟨[], rfl, List.Forall₂.nil⟩
  | c :: cs, h => by
    obtain ⟨row, hrow⟩ := h c (List.mem_cons_self c cs) []
    obtain ⟨rows, hrows, hrel⟩ :=
      clipsToRows_total e cols cs (fun x hx => h x (List.mem_cons_of_mem c hx))
    refine ⟨row :: rows, ?_, List.Forall₂.cons hrow hrel⟩
    rw [clipsToRows, hrow, hrows]

theorem clipToRow_getRow (e : Encoder) (c : Clip) (cols : List String) (row : StrMap)
    (hok : clipToRow e c cols [] = .ok row) (k : String) (hk : k ∈ cols) :
    mapGet row k = clipCell e c k := by
  rw [clipToRow_ok_get e c cols [] row hok k, if_pos hk]
  cases clipCell e c k <;> rfl

/-! ### C1 support: the cells a good clip encodes to -/

theorem natToStr_good (n : ℕ) :
    goTrimSpace (natToStr n) = natToStr n ∧ '\t' ∉ (natToStr n).data ∧
    '\n' ∉ (natToStr n).data ∧ '\r' ∉ (natToStr n).data := by
  refine ⟨?_, ?_, ?_, ?_⟩
  · exact goTrimSpace_eq_self_of_all
      (fun c hc => isDigitChar_not_space (natToStr_all_digits n c hc))
  · intro h
    exact absurd (natToStr_all_digits n _ h) (by decide)
  · intro h
    exact absurd (natToStr_all_digits n _ h) (by decide)
  · intro h
    exact absurd (natToStr_all_digits n _ h) (by decide)

theorem natToStr_ne_empty (n : ℕ) : natToStr n ≠ "" := by
  intro h
  have h2 : (natToStr n).data = [] := by rw [h]
  exact natToStr_data_ne_nil n h2

theorem mapGet_mem {m : StrMap} {k v : String} (h : mapGet m k = some v) : (k, v) ∈ m := by
  unfold mapGet at h
  cases hf : m.find? (fun p => p.1 == k) with
  | none => rw [hf] at h; cases h
  | some p =>
    rw [hf] at h
    injection h with h
    have h1 : p.1 = k := by simpa using List.find?_some hf
    have h2 := List.mem_of_find?_eq_some hf
    obtain ⟨p1, p2⟩ := p
    cases h
    rw [← h1]
    exact h2

theorem contains_eq_false_of_not_mem {l : List String} {k : String} (h : k ∉ l) :
    l.contains k = false := by
  induction l with
  | nil => rfl
  | cons a t ih =>
    rw [List.contains_cons, Bool.or_eq_false_iff]
    exact ⟨beq_eq_false_iff_ne.mpr (fun he => h (he ▸ List.mem_cons_self a t)),
      ih (fun hm => h (List.mem_cons_of_mem a hm))⟩

theorem trim_head_nonspace {n : String} {ch : Char} {t : List Char}
    (htrim : goTrimSpace n = n) (hd : n.data = ch :: t) : goIsSpace ch = false := by
  by_contra hc
  rw [Bool.not_eq_false] at hc
  have h1 : (goTrimSpace n).data = trimList n.data := rfl
  rw [htrim, hd] at h1
  have hlen : (trimList (ch :: t)).length ≤ t.length := by
    have hpre := trimList_prefix_dropWhile (ch :: t)
    rw [List.dropWhile_cons_of_pos hc] at hpre
    calc (trimList (ch :: t)).length ≤ (t.dropWhile goIsSpace).length := hpre.length_le
      _ ≤ t.length := (List.dropWhile_sublist _).length_le
  rw [← h1, List.length_cons] at hlen
  omega

theorem joinTabs_cons_data (x : String) (xs : List String) (hxs : xs ≠ []) :
    (joinTabs (x :: xs)).data = x.data ++ '\t' :: (joinTabs xs).data := by
  unfold joinTabs
  rw [data_mk, data_mk]
  cases xs with
  | nil => exact absurd rfl hxs
  | cons y ys => simp [List.intercalate, List.intersperse]

theorem formatTimecode_enc (rt : RationalTime) (n : ℕ) (hval : rt.value = (n : ℚ))
    (hrate : rt.rate = DefaultFPS) :
    formatTimecode rt NewEncoder.fps NewEncoder.dropFrame =
      .ok (tcRender (n / 24 / 3600) (n / 24 / 60 % 60) (n / 24 % 60) (n % 24)) := by
  obtain ⟨v, r⟩ := rt
  have hv : v = (n : ℚ) := hval
  have hr : r = DefaultFPS := hrate
  subst hv
  subst hr
  show formatTimecode ⟨(n : ℚ), DefaultFPS⟩ DefaultFPS false = _
  exact formatTimecode_natCast _ n rfl

theorem formatFrameNumber_enc (rt : RationalTime) (n : ℕ) (hval : rt.value = (n : ℚ))
    (hrate : rt.rate = DefaultFPS) :
    formatFrameNumber rt NewEncoder.fps = natToStr n := by
  obtain ⟨v, r⟩ := rt
  have hv : v = (n : ℚ) := hval
  have hr : r = DefaultFPS := hrate
  subst hv
  subst hr
  show formatFrameNumber ⟨(n : ℚ), DefaultFPS⟩ DefaultFPS = _
  exact formatFrameNumber_natCast n

theorem c1_clipCell (c : Clip) (s dur : ℕ)
    (hsr : c.sourceRange = some ⟨⟨(s : ℚ), DefaultFPS⟩, ⟨(dur : ℚ), DefaultFPS⟩⟩) :
    clipCell NewEncoder c ColumnName = some c.name ∧
    clipCell NewEncoder c ColumnStart =
      some (tcRender (s / 24 / 3600) (s / 24 / 60 % 60) (s / 24 % 60) (s % 24)) ∧
    clipCell NewEncoder c ColumnEnd =
      some (tcRender ((s + dur) / 24 / 3600) ((s + dur) / 24 / 60 % 60)
        ((s + dur) / 24 % 60) ((s + dur) % 24)) ∧
    clipCell NewEncoder c ColumnDuration = some (natToStr dur) ∧
    clipCell NewEncoder c ColumnTracks = some "V" ∧
    (∀ k, goodKey k → clipCell NewEncoder c k = mapGet c.ale k) ∧
    (∀ r, encSourceRange c = some r →
      (∃ a, formatTimecode r.startTime NewEncoder.fps NewEncoder.dropFrame = .ok a) ∧
      (∃ b, formatTimecode r.endTimeExclusive NewEncoder.fps NewEncoder.dropFrame = .ok b)) := by
  have henc : encSourceRange c =
      some ⟨⟨(s : ℚ), DefaultFPS⟩, ⟨(dur : ℚ), DefaultFPS⟩⟩ := by
    simp only [encSourceRange, hsr]
  have hendval : (TimeRange.endTimeExclusive
      ⟨⟨(s : ℚ), DefaultFPS⟩, ⟨(dur : ℚ), DefaultFPS⟩⟩).value = ((s + dur : ℕ) : ℚ) := by
    show (s : ℚ) * DefaultFPS / DefaultFPS + (dur : ℚ) = _
    rw [mul_div_assoc, div_self (by norm_num [DefaultFPS]), mul_one]
    push_cast
    ring
  refine ⟨?_, ?_, ?_, ?_, ?_, ?_, ?_⟩
  · unfold clipCell
    rw [if_pos rfl]
  · unfold clipCell
    rw [if_neg (by decide), if_pos rfl]
    simp only [henc]
    rw [formatTimecode_enc _ s rfl rfl]
    rfl
  · unfold clipCell
    rw [if_neg (by decide), if_neg (by decide), if_pos rfl]
    simp only [henc]
    rw [formatTimecode_enc _ (s + dur) hendval rfl]
    rfl
  · unfold clipCell
    rw [if_neg (by decide), if_neg (by decide), if_neg (by decide), if_pos rfl]
    simp only [henc]
    rw [formatFrameNumber_enc _ dur rfl rfl]
  · unfold clipCell
    rw [if_neg (by decide), if_neg (by decide), if_neg (by decide), if_neg (by decide),
      if_pos rfl]
  · intro k hk
    obtain ⟨_, _, _, _, _, hk9⟩ := hk
    unfold clipCell
    rw [if_neg (fun h => hk9 (by rw [h]; decide)),
      if_neg (fun h => hk9 (by rw [h]; decide)),
      if_neg (fun h => hk9 (by rw [h]; decide)),
      if_neg (fun h => hk9 (by rw [h]; decide)),
      if_neg (fun h => hk9 (by rw [h]; decide)),
      if_neg (fun h => by rcases h with h | h <;> exact hk9 (by rw [h]; decide)),
      if_neg (fun h => hk9 (by rw [h]; decide)),
      if_neg (fun h => hk9 (by rw [h]; decide))]
  · intro r hr
    rw [henc] at hr
    injection hr with hr
    subst hr
    exact ⟨⟨_, formatTimecode_enc _ s rfl rfl⟩, ⟨_, formatTimecode_enc _ (s + dur) hendval rfl⟩⟩

/-! ### C1 support: the inferred columns of a good timeline -/

theorem c1_columns (t : Timeline) (hg : GoodTimeline t) :
    determineColumns NewEncoder t =
      [ColumnName, ColumnStart, ColumnEnd, ColumnDuration, ColumnTracks] ++
        List.insertionSort strLe (encodeExtras t) ∧
    ([ColumnName, ColumnStart, ColumnEnd, ColumnDuration, ColumnTracks] ++
        List.insertionSort strLe (encodeExtras t)).Nodup ∧
    (∀ k ∈ List.insertionSort strLe (encodeExtras t), goodKey k) ∧
    (∀ c ∈ t.findClips, ∀ p ∈ c.ale, p.1 ∈ List.insertionSort strLe (encodeExtras t)) := by
  have hgoodk : ∀ k ∈ List.insertionSort strLe (encodeExtras t), goodKey k := by
    intro k hk
    rw [(List.perm_insertionSort strLe (encodeExtras t)).mem_iff, mem_encodeExtras] at hk
    obtain ⟨c, hc, hkc⟩ := hk
    obtain ⟨_, _, ⟨m, hmr⟩, hcdl, _, hale⟩ := hg.2.2 c hc
    simp only [clipExtraColumns, hmr, hcdl, List.nil_append, List.append_nil] at hkc
    obtain ⟨p, hp, rfl⟩ := List.mem_map.mp hkc
    exact (hale p hp).1
  refine ⟨?_, ?_, hgoodk, ?_⟩
  · have h0 : ¬(NewEncoder.columns ≠ []) := by simp [NewEncoder]
    have h1 : determineColumns NewEncoder t =
        (if t.videoTracks ≠ [] ∨ t.audioTracks ≠ []
          then [ColumnName, ColumnStart, ColumnEnd, ColumnDuration] ++ [ColumnTracks]
          else [ColumnName, ColumnStart, ColumnEnd, ColumnDuration]) ++
        List.insertionSort strLe (encodeExtras t) := by
      unfold determineColumns
      rw [if_neg h0]
      rfl
    rw [h1, if_pos (Or.inl hg.2.1)]
    rfl
  · refine List.Nodup.append (by decide)
      ((List.perm_insertionSort strLe (encodeExtras t)).nodup_iff.mpr
        (nodup_encodeExtras t)) ?_
    intro x hx hxs
    have h9 := (hgoodk x hxs).2.2.2.2.2
    simp only [List.mem_cons, List.not_mem_nil, or_false] at hx
    rcases hx with rfl | rfl | rfl | rfl | rfl <;> exact h9 (by decide)
  · intro c hc p hp
    rw [(List.perm_insertionSort strLe (encodeExtras t)).mem_iff, mem_encodeExtras]
    refine ⟨c, hc, ?_⟩
    unfold clipExtraColumns
    exact List.mem_append.mpr (Or.inl (List.mem_append.mpr
      (Or.inr (List.mem_map.mpr ⟨p, hp, rfl⟩))))

theorem rowToClip_of_rowSourceRange (d : Decoder) (row : StrMap) (i : ℕ)
    (sr : Option TimeRange) (h : rowSourceRange d row = .ok sr) :
    ∃ clip, rowToClip d row i = .ok clip ∧ clip.sourceRange = sr := by
  simp only [rowToClip, h]
  exact ⟨_, rfl, rfl⟩

/-- The per-clip core of the restricted round trip: a good clip's encoded
row, written as one tab-joined data line and read back through the
section parser's `buildRow`, decodes to a clip with the same name, the
same time range, and the clip's residual metadata plus the decoder's
extra `Tracks ↦ V` entry. -/
theorem c1_clip_core (c : Clip) (cols exs : List String) (row : StrMap)
    (hgc : GoodClip c)
    (hcols : cols = [ColumnName, ColumnStart, ColumnEnd, ColumnDuration, ColumnTracks] ++ exs)
    (hnd : cols.Nodup)
    (hexs : ∀ k ∈ exs, goodKey k)
    (hsub : ∀ p ∈ c.ale, p.1 ∈ exs)
    (hrow : clipToRow NewEncoder c cols [] = .ok row) :
    (∀ cell ∈ cols.map (fun col => getRow row col),
      '\t' ∉ cell.data ∧ '\n' ∉ cell.data ∧ '\r' ∉ cell.data) ∧
    (∃ ch t2, (joinTabs (cols.map (fun col => getRow row col))).data = ch :: t2 ∧
      goIsSpace ch = false ∧ ch ≠ 'H' ∧ ch ≠ 'C' ∧ ch ≠ 'D') ∧
    getRow (buildRow cols (cols.map (fun col => getRow row col))) ColumnTracks = "V" ∧
    (∀ i : ℕ, ∃ clip',
      rowToClip NewDecoder (buildRow cols (cols.map (fun col => getRow row col))) i =
        .ok clip' ∧
      clip'.name = c.name ∧
      (∀ r, c.sourceRange = some r → ∃ r', clip'.sourceRange = some r' ∧
        r'.startTime = r.startTime ∧ r'.duration.value = r.duration.value ∧
        r'.duration.rate = r.duration.rate) ∧
      (∀ k, mapGet clip'.ale k =
        if k = ColumnTracks then some "V" else mapGet c.ale k)) := by
  obtain ⟨hnm, ⟨s, dur, hsr⟩, hmr, hcdl, hndale, hale⟩ := hgc
  obtain ⟨htrimN, htabN, hnlN, hcrN, chN, tN, hdN, hHN, hCN, hDN⟩ := hnm
  obtain ⟨hcN, hcS, hcE, hcD, hcT, hcK, hcF⟩ := c1_clipCell c s dur hsr
  have hnameNe : c.name ≠ "" := by
    intro h
    rw [h] at hdN
    cases hdN
  have hm5 : ∀ x ∈ ([ColumnName, ColumnStart, ColumnEnd, ColumnDuration,
      ColumnTracks] : List String), x ∈ cols := by
    intro x hx
    rw [hcols]
    exact List.mem_append.mpr (Or.inl hx)
  have hmex : ∀ x ∈ exs, x ∈ cols := by
    intro x hx
    rw [hcols]
    exact List.mem_append.mpr (Or.inr hx)
  have hrowget : ∀ col ∈ cols, mapGet row col = clipCell NewEncoder c col :=
    fun col hcol => clipToRow_getRow NewEncoder c cols row hrow col hcol
  have hName : getRow row ColumnName = c.name := by
    unfold getRow
    rw [hrowget _ (hm5 _ (by decide)), hcN]
    rfl
  have hStart : getRow row ColumnStart =
      tcRender (s / 24 / 3600) (s / 24 / 60 % 60) (s / 24 % 60) (s % 24) := by
    unfold getRow
    rw [hrowget _ (hm5 _ (by decide)), hcS]
    rfl
  have hEnd : getRow row ColumnEnd =
      tcRender ((s + dur) / 24 / 3600) ((s + dur) / 24 / 60 % 60)
        ((s + dur) / 24 % 60) ((s + dur) % 24) := by
    unfold getRow
    rw [hrowget _ (hm5 _ (by decide)), hcE]
    rfl
  have hDur : getRow row ColumnDuration = natToStr dur := by
    unfold getRow
    rw [hrowget _ (hm5 _ (by decide)), hcD]
    rfl
  have hTracks : getRow row ColumnTracks = "V" := by
    unfold getRow
    rw [hrowget _ (hm5 _ (by decide)), hcT]
    rfl
  have hRes : ∀ k ∈ exs, getRow row k = (mapGet c.ale k).getD "" := by
    intro k hk
    unfold getRow
    rw [hrowget _ (hmex _ hk), hcK k (hexs k hk)]
  have hvals : ∀ col ∈ cols,
      goTrimSpace (getRow row col) = getRow row col ∧
      '\t' ∉ (getRow row col).data ∧ '\n' ∉ (getRow row col).data ∧
      '\r' ∉ (getRow row col).data := by
    intro col hcol
    rw [hcols] at hcol
    rcases List.mem_append.mp hcol with h5 | hex
    · simp only [List.mem_cons, List.not_mem_nil, or_false] at h5
      rcases h5 with rfl | rfl | rfl | rfl | rfl
      · rw [hName]; exact ⟨htrimN, htabN, hnlN, hcrN⟩
      · rw [hStart]
        exact ⟨tcRender_trim _ _ _ _, tcRender_tab_free _ _ _ _, tcRender_nl_free _ _ _ _,
          tcRender_cr_free _ _ _ _⟩
      · rw [hEnd]
        exact ⟨tcRender_trim _ _ _ _, tcRender_tab_free _ _ _ _, tcRender_nl_free _ _ _ _,
          tcRender_cr_free _ _ _ _⟩
      · rw [hDur]; exact natToStr_good dur
      · rw [hTracks]; exact ⟨rfl, by decide, by decide, by decide⟩
    · rw [hRes col hex]
      cases hv : mapGet c.ale col with
      | none => exact ⟨rfl, by decide, by decide, by decide⟩
      | some v =>
        have hgv := (hale (col, v) (mapGet_mem hv)).2
        exact ⟨hgv.1, hgv.2.1, hgv.2.2.1, hgv.2.2.2.1⟩
  set row' := buildRow cols (cols.map (fun col => getRow row col)) with hrowdef
  have hget' : ∀ col ∈ cols, mapGet row' col = some (getRow row col) := by
    intro col hcol
    rw [hrowdef, buildRow_map_get cols _ hnd col hcol, (hvals col hcol).1]
  have hnot' : ∀ k, k ∉ cols → mapGet row' k = none :=
    fun k hk => buildRow_get_notmem _ _ _ hk
  have hSFn : ColumnSourceFile ∉ cols := by
    rw [hcols]
    intro hmem
    rcases List.mem_append.mp hmem with h | h
    · exact absurd h (by decide)
    · exact (hexs _ h).2.2.2.2.2 (by decide)
  have hTapen : ColumnTape ∉ cols := by
    rw [hcols]
    intro hmem
    rcases List.mem_append.mp hmem with h | h
    · exact absurd h (by decide)
    · exact (hexs _ h).2.2.2.2.2 (by decide)
  have hSOPn : ("ASC_SOP" : String) ∉ cols := by
    rw [hcols]
    intro hmem
    rcases List.mem_append.mp hmem with h | h
    · exact absurd h (by decide)
    · exact (hexs _ h).2.2.2.2.2 (by decide)
  have hSATn : ("ASC_SAT" : String) ∉ cols := by
    rw [hcols]
    intro hmem
    rcases List.mem_append.mp hmem with h | h
    · exact absurd h (by decide)
    · exact (hexs _ h).2.2.2.2.2 (by decide)
  have gName : getRow row' ColumnName = c.name := by
    unfold getRow
    rw [hget' _ (hm5 _ (by decide)), hName]
    rfl
  have gStart : getRow row' ColumnStart =
      tcRender (s / 24 / 3600) (s / 24 / 60 % 60) (s / 24 % 60) (s % 24) := by
    unfold getRow
    rw [hget' _ (hm5 _ (by decide)), hStart]
    rfl
  have gEnd : getRow row' ColumnEnd =
      tcRender ((s + dur) / 24 / 3600) ((s + dur) / 24 / 60 % 60)
        ((s + dur) / 24 % 60) ((s + dur) % 24) := by
    unfold getRow
    rw [hget' _ (hm5 _ (by decide)), hEnd]
    rfl
  have gTracks : getRow row' ColumnTracks = "V" := by
    unfold getRow
    rw [hget' _ (hm5 _ (by decide)), hTracks]
    rfl
  refine ⟨?_, ?_, gTracks, ?_⟩
  · intro cell hcell
    obtain ⟨col, hcol, rfl⟩ := List.mem_map.mp hcell
    exact (hvals col hcol).2
  · refine ⟨chN, tN ++ '\t' :: (joinTabs (([ColumnStart, ColumnEnd, ColumnDuration,
        ColumnTracks] ++ exs).map (fun col => getRow row col))).data, ?_,
      trim_head_nonspace htrimN hdN, hHN, hCN, hDN⟩
    rw [hcols]
    show (joinTabs ((ColumnName :: ([ColumnStart, ColumnEnd, ColumnDuration,
      ColumnTracks] ++ exs)).map (fun col => getRow row col))).data = _
    rw [List.map_cons, joinTabs_cons_data _ _ (by simp), hName, hdN, List.cons_append]
  · intro i
    have hsrr : rowSourceRange NewDecoder row' = .ok (some
        ⟨⟨(s : ℚ), DefaultFPS⟩,
         durationFromStartEndTime ⟨(s : ℚ), DefaultFPS⟩
           ⟨((s + dur : ℕ) : ℚ), DefaultFPS⟩⟩) := by
      have hfps : NewDecoder.fps = DefaultFPS := rfl
      simp only [rowSourceRange, hfps, gStart, gEnd]
      rw [if_pos ⟨tcRender_ne_empty _ _ _ _, tcRender_ne_empty _ _ _ _⟩]
      simp only [parseTimecode_roundtrip24]
    obtain ⟨clip', hclip, hcsr⟩ := rowToClip_of_rowSourceRange NewDecoder row' i _ hsrr
    obtain ⟨hname', hale', _⟩ := rowToClip_ok_fields NewDecoder row' i clip' hclip
    have hkey : NewDecoder.nameColumnKey = ColumnName := rfl
    refine ⟨clip', hclip, ?_, ?_, ?_⟩
    · rw [hname', hkey, gName, if_neg hnameNe]
    · intro r hr
      rw [hsr] at hr
      injection hr with hr
      refine ⟨⟨⟨(s : ℚ), DefaultFPS⟩, durationFromStartEndTime ⟨(s : ℚ), DefaultFPS⟩
        ⟨((s + dur : ℕ) : ℚ), DefaultFPS⟩⟩, hcsr, ?_, ?_, ?_⟩
      · rw [← hr]
      · rw [← hr]
        show ((s + dur : ℕ) : ℚ) * DefaultFPS / DefaultFPS - (s : ℚ) = (dur : ℚ)
        rw [mul_div_assoc, div_self (by norm_num [DefaultFPS]), mul_one]
        push_cast
        ring
      · rw [← hr]
        rfl
    · intro k
      rw [hale']
      simp only [hkey]
      rw [mapGet_filter _ _ _ (by rw [hrowdef]; exact buildRow_keys_nodup _ _)]
      by_cases hkT : k = ColumnTracks
      · subst hkT
        have hL : mapGet row' ColumnTracks = some "V" := by
          rw [hget' _ (hm5 _ (by decide)), hTracks]
        rw [hL, if_pos rfl]
        show (if (!(([ColumnName, ColumnStart, ColumnEnd, ColumnDuration,
            ColumnSourceFile, ColumnTape, "ASC_SOP", "ASC_SAT"] : List String).contains
              ColumnTracks) && !(("V" : String) == "")) = true
          then some ("V" : String) else none) = some "V"
        rw [if_pos (by decide)]
      · rw [if_neg hkT]
        by_cases hkc : k ∈ cols
        · have hkc2 := hkc
          rw [hcols] at hkc2
          rcases List.mem_append.mp hkc2 with h5 | hex
          · simp only [List.mem_cons, List.not_mem_nil, or_false] at h5
            have hRnone : ∀ x : String, x ∈ ([ColumnName, ColumnStart, ColumnEnd,
                ColumnDuration, ColumnTracks, ColumnSourceFile, ColumnTape,
                "ASC_SOP", "ASC_SAT"] : List String) → mapGet c.ale x = none := by
              intro x hx
              apply mapGet_eq_none_of_not_mem
              intro hmem
              obtain ⟨p, hp, hp1⟩ := List.mem_map.mp hmem
              exact ((hale p hp).1).2.2.2.2.2 (by rw [hp1]; exact hx)
            rcases h5 with rfl | rfl | rfl | rfl | rfl
            · have hL : mapGet row' ColumnName = some c.name := by
                rw [hget' _ (hm5 _ (by decide)), hName]
              rw [hL, hRnone _ (by decide)]
              show (if (!(([ColumnName, ColumnStart, ColumnEnd, ColumnDuration,
                  ColumnSourceFile, ColumnTape, "ASC_SOP", "ASC_SAT"] : List String).contains
                    ColumnName) && !(c.name == "")) = true
                then some c.name else none) = none
              rw [if_neg (by simp)]
            · have hL : mapGet row' ColumnStart = some (tcRender (s / 24 / 3600)
                  (s / 24 / 60 % 60) (s / 24 % 60) (s % 24)) := by
                rw [hget' _ (hm5 _ (by decide)), hStart]
              rw [hL, hRnone _ (by decide)]
              show (if (!(([ColumnName, ColumnStart, ColumnEnd, ColumnDuration,
                  ColumnSourceFile, ColumnTape, "ASC_SOP", "ASC_SAT"] : List String).contains
                    ColumnStart) && !(tcRender (s / 24 / 3600) (s / 24 / 60 % 60)
                      (s / 24 % 60) (s % 24) == "")) = true
                then some (tcRender (s / 24 / 3600) (s / 24 / 60 % 60)
                  (s / 24 % 60) (s % 24)) else none) = none
              rw [if_neg (by simp)]
            · have hL : mapGet row' ColumnEnd = some (tcRender ((s + dur) / 24 / 3600)
                  ((s + dur) / 24 / 60 % 60) ((s + dur) / 24 % 60) ((s + dur) % 24)) := by
                rw [hget' _ (hm5 _ (by decide)), hEnd]
              rw [hL, hRnone _ (by decide)]
              show (if (!(([ColumnName, ColumnStart, ColumnEnd, ColumnDuration,
                  ColumnSourceFile, ColumnTape, "ASC_SOP", "ASC_SAT"] : List String).contains
                    ColumnEnd) && !(tcRender ((s + dur) / 24 / 3600)
                      ((s + dur) / 24 / 60 % 60) ((s + dur) / 24 % 60)
                      ((s + dur) % 24) == "")) = true
                then some (tcRender ((s + dur) / 24 / 3600) ((s + dur) / 24 / 60 % 60)
                  ((s + dur) / 24 % 60) ((s + dur) % 24)) else none) = none
              rw [if_neg (by simp)]
            · have hL : mapGet row' ColumnDuration = some (natToStr dur) := by
                rw [hget' _ (hm5 _ (by decide)), hDur]
              rw [hL, hRnone _ (by decide)]
              show (if (!(([ColumnName, ColumnStart, ColumnEnd, ColumnDuration,
                  ColumnSourceFile, ColumnTape, "ASC_SOP", "ASC_SAT"] : List String).contains
                    ColumnDuration) && !(natToStr dur == "")) = true
                then some (natToStr dur) else none) = none
              rw [if_neg (by simp)]
            · exact absurd rfl hkT
          · have hgk := hexs k hex
            have hL : mapGet row' k = some ((mapGet c.ale k).getD "") := by
              rw [hget' _ (hmex _ hex), hRes k hex]
            have hcont : ([ColumnName, ColumnStart, ColumnEnd, ColumnDuration,
                ColumnSourceFile, ColumnTape, "ASC_SOP", "ASC_SAT"] : List String).contains
                  k = false := by
              apply contains_eq_false_of_not_mem
              intro hmem
              have h9 := hgk.2.2.2.2.2
              simp only [List.mem_cons, List.not_mem_nil, or_false] at hmem
              rcases hmem with rfl | rfl | rfl | rfl | rfl | rfl | rfl | rfl <;>
                exact h9 (by decide)
            rw [hL]
            cases hv : mapGet c.ale k with
            | none =>
              show (if (!(([ColumnName, ColumnStart, ColumnEnd, ColumnDuration,
                  ColumnSourceFile, ColumnTape, "ASC_SOP", "ASC_SAT"] : List String).contains
                    k) && !(((none : Option String).getD "") == "")) = true
                then some ((none : Option String).getD "") else none) = none
              rw [hcont]
              decide
            | some v =>
              obtain ⟨_, hvv⟩ := hale (k, v) (mapGet_mem hv)
              show (if (!(([ColumnName, ColumnStart, ColumnEnd, ColumnDuration,
                  ColumnSourceFile, ColumnTape, "ASC_SOP", "ASC_SAT"] : List String).contains
                    k) && !(((some v : Option String).getD "") == "")) = true
                then some ((some v : Option String).getD "") else none) = some v
              rw [hcont]
              have hvne : (v == "") = false := beq_eq_false_iff_ne.mpr hvv.2.2.2.2
              show (if (!false && !(v == "")) = true then some v else none) = some v
              rw [hvne]
              rfl
        · rw [hnot' k hkc]
          have hR : mapGet c.ale k = none := by
            apply mapGet_eq_none_of_not_mem
            intro hmem
            obtain ⟨p, hp, hp1⟩ := List.mem_map.mp hmem
            exact hkc (by rw [← hp1]; exact hmex _ (hsub p hp))
          rw [hR]
          rfl

/-! ### C1 support: the full pipeline over a good timeline -/

theorem forall₂_mem_left {α β : Type} {R : α → β → Prop} :
    ∀ {l1 : List α} {l2 : List β}, List.Forall₂ R l1 l2 → ∀ a ∈ l1, ∃ b ∈ l2, R a b := by
  intro l1 l2 h
  induction h with
  | nil => intro a ha; cases ha
  | cons hR hrest ih =>
    intro a ha
    rcases List.mem_cons.mp ha with rfl | ha
    · exact ⟨_, List.mem_cons_self _ _, hR⟩
    · obtain ⟨b, hb, hRb⟩ := ih a ha
      exact ⟨b, List.mem_cons_of_mem _ hb, hRb⟩

theorem groupRows_allV (d : Decoder) :
    ∀ (rows : List StrMap) (i : ℕ) (pre : List Clip) (cs : List Clip),
      (∀ row ∈ rows, getRow row ColumnTracks = "V") →
      rowsToClips d rows i = .ok cs →
      groupRows d rows i [("V", TrackKindVideo, pre)] =
        .ok [("V", TrackKindVideo, pre ++ cs)]
  | [], i, pre, cs, _, hok => by
    rw [rowsToClips] at hok
    injection hok with hok
    subst hok
    rw [groupRows, List.append_nil]
  | row :: rest, i, pre, cs, hV, hok => by
    rw [rowsToClips] at hok
    cases hc : rowToClip d row i with
    | error e => simp only [hc] at hok; exact Except.noConfusion hok
    | ok clip =>
      simp only [hc] at hok
      cases hrest : rowsToClips d rest (i + 1) with
      | error e => simp only [hrest] at hok; exact Except.noConfusion hok
      | ok cs2 =>
        simp only [hrest] at hok
        injection hok with hok
        subst hok
        rw [groupRows]
        simp only [hc, hV row (List.mem_cons_self row rest)]
        have hrec := groupRows_allV d rest (i + 1) (pre ++ [clip]) cs2
          (fun r hr => hV r (List.mem_cons_of_mem row hr)) hrest
        rw [show ((pre ++ [clip]) ++ cs2 : List Clip) = pre ++ clip :: cs2 from by simp]
          at hrec
        exact hrec

theorem groupRows_allV_start (d : Decoder) (rows : List StrMap) (i : ℕ) (cs : List Clip)
    (hV : ∀ row ∈ rows, getRow row ColumnTracks = "V")
    (hok : rowsToClips d rows i = .ok cs) (hne : rows ≠ []) :
    groupRows d rows i [] = .ok [("V", TrackKindVideo, cs)] := by
  cases rows with
  | nil => exact absurd rfl hne
  | cons r0 rest =>
    rw [rowsToClips] at hok
    cases hc0 : rowToClip d r0 i with
    | error e => simp only [hc0] at hok; exact Except.noConfusion hok
    | ok c0 =>
      simp only [hc0] at hok
      cases hrest : rowsToClips d rest (i + 1) with
      | error e => simp only [hrest] at hok; exact Except.noConfusion hok
      | ok cs1 =>
        simp only [hrest] at hok
        injection hok with hok
        subst hok
        rw [groupRows]
        simp only [hc0, hV r0 (List.mem_cons_self r0 rest)]
        have hrec := groupRows_allV d rest (i + 1) [c0] cs1
          (fun r hr => hV r (List.mem_cons_of_mem r0 hr)) hrest
        rw [show ([c0] ++ cs1 : List Clip) = c0 :: cs1 from rfl] at hrec
        exact hrec

/-- Row-by-row decoding of the rebuilt rows of a good timeline's
clips. -/
theorem c1_rows_to_clips (t : Timeline) (hg : GoodTimeline t) (cols exs : List String)
    (hcols : cols = [ColumnName, ColumnStart, ColumnEnd, ColumnDuration, ColumnTracks] ++ exs)
    (hnd : cols.Nodup) (hexs : ∀ k ∈ exs, goodKey k)
    (hsubt : ∀ c ∈ t.findClips, ∀ p ∈ c.ale, p.1 ∈ exs) :
    ∀ (clips : List Clip) (rows : List StrMap),
      List.Forall₂ (fun row c => clipToRow NewEncoder c cols [] = .ok row) rows clips →
      ∀ i : ℕ, (∀ c ∈ clips, c ∈ t.findClips) →
      ∃ cs, rowsToClips NewDecoder
          (rows.map (fun row => buildRow cols (cols.map (fun col => getRow row col)))) i =
          .ok cs ∧
        List.Forall₂ c1Rel cs clips := by
  intro clips rows hf
  induction hf with
  | nil => exact fun i _ => ⟨[], rfl, List.Forall₂.nil⟩
  | cons hok hrest ih =>
    rename_i row c rows2 clips2
    intro i hmem
    have hc : c ∈ t.findClips := hmem c (List.mem_cons_self _ _)
    obtain ⟨_, _, _, hdec⟩ := c1_clip_core c cols exs row (hg.2.2 c hc) hcols hnd hexs
      (hsubt c hc) hok
    obtain ⟨clip', hclip', hn, hr, ha⟩ := hdec i
    obtain ⟨cs, hcs, hrel2⟩ := ih (i + 1) (fun x hx => hmem x (List.mem_cons_of_mem _ hx))
    refine ⟨clip' :: cs, ?_, List.Forall₂.cons ⟨hn, hr, ha⟩ hrel2⟩
    rw [List.map_cons, rowsToClips]
    simp only [hclip', hcs]

/-- The written lines of a good file parse back into the same headers,
columns and rebuilt rows. -/
theorem c1_parse_written (cols : List String) (rows : List StrMap) (vf : String)
    (hvf : goTrimSpace vf = vf ∧ '\t' ∉ vf.data)
    (hcolsne : cols ≠ [])
    (hcolstab : ∀ s ∈ cols, '\t' ∉ s.data)
    (hcolstrim : ∀ s ∈ cols, goTrimSpace s = s)
    (hLineGood : ∀ row ∈ rows, ∃ ch t2,
      (joinTabs (cols.map (fun col => getRow row col))).data = ch :: t2 ∧
      goIsSpace ch = false ∧ ch ≠ 'H' ∧ ch ≠ 'C' ∧ ch ≠ 'D')
    (hLineTab : ∀ row ∈ rows, ∀ cell ∈ cols.map (fun col => getRow row col),
      '\t' ∉ cell.data) :
    parseALE (writeALELines ⟨mapSet (mapSet (mapSet (mapSet [] HeaderFieldDelim
        DefaultFieldDelim)
        HeaderAudioFormat "48kHz") HeaderFPS (formatFixed 2 NewEncoder.fps))
        HeaderVideoFormat vf, cols, rows⟩) =
      ⟨mapSet (mapSet (mapSet (mapSet [] HeaderFieldDelim DefaultFieldDelim)
        HeaderAudioFormat "48kHz") HeaderFPS (formatFixed 2 NewEncoder.fps))
        HeaderVideoFormat vf, cols,
       rows.map (fun row => buildRow cols (cols.map (fun col => getRow row col)))⟩ := by
  have hcolssplit : (splitTabs (joinTabs cols)).map goTrimSpace = cols := by
    rw [splitTabs_joinTabs cols hcolsne hcolstab]
    exact (List.map_congr_left (fun x hx => hcolstrim x hx)).trans (List.map_id cols)
  have hlines : writeALELines ⟨mapSet (mapSet (mapSet (mapSet [] HeaderFieldDelim
      DefaultFieldDelim)
      HeaderAudioFormat "48kHz") HeaderFPS (formatFixed 2 NewEncoder.fps))
      HeaderVideoFormat vf, cols, rows⟩ =
      "Heading" :: (HeaderFieldDelim ++ "\t" ++ DefaultFieldDelim) ::
      (HeaderAudioFormat ++ "\t" ++ "48kHz") ::
      (HeaderFPS ++ "\t" ++ formatFixed 2 NewEncoder.fps) ::
      (HeaderVideoFormat ++ "\t" ++ vf) :: "" :: "Column" :: joinTabs cols :: "" :: "Data" ::
      rows.map (fun row => joinTabs (cols.map (fun col => getRow row col))) := rfl
  unfold parseALE
  rw [hlines, parseALEAux_heading_marker,
    parseALEAux_heading_line _ _ _ _ _ _ (by decide) (by decide) 'F' ("IELD_DELIM".data)
      (show HeaderFieldDelim.data = 'F' :: "IELD_DELIM".data from rfl) (by decide)
      (by decide) (by decide) (by decide),
    parseALEAux_heading_line _ _ _ _ _ _ (by decide) (by decide) 'A' ("UDIO_FORMAT".data)
      (show HeaderAudioFormat.data = 'A' :: "UDIO_FORMAT".data from rfl) (by decide)
      (by decide) (by decide) (by decide),
    parseALEAux_heading_line _ _ _ _ _ _ (by decide) (formatFixed_tab_free 2 _) 'F'
      ("PS".data) (show HeaderFPS.data = 'F' :: "PS".data from rfl) (by decide)
      (by decide) (by decide) (by decide),
    parseALEAux_heading_line _ _ _ _ _ _ (by decide) hvf.2 'V' ("IDEO_FORMAT".data)
      (show HeaderVideoFormat.data = 'V' :: "IDEO_FORMAT".data from rfl) (by decide)
      (by decide) (by decide) (by decide),
    parseALEAux_blank, parseALEAux_column_marker, hcolssplit,
    parseALEAux_blank, parseALEAux_data_marker,
    parseALEAux_data_lines cols hcolsne rows _ hLineGood hLineTab]
  rw [show goTrimSpace HeaderFieldDelim = HeaderFieldDelim from rfl,
    show goTrimSpace DefaultFieldDelim = DefaultFieldDelim from rfl,
    show goTrimSpace HeaderAudioFormat = HeaderAudioFormat from rfl,
    show goTrimSpace ("48kHz" : String) = "48kHz" from rfl,
    show goTrimSpace HeaderFPS = HeaderFPS from rfl,
    formatFixed_trim 2 NewEncoder.fps,
    show goTrimSpace HeaderVideoFormat = HeaderVideoFormat from rfl,
    hvf.1]
  rfl

/-- The serialized output of a good file scans back into exactly the
written lines: no written line embeds a newline or a carriage return,
and the final line (the `Data` marker, or the last data row) is
non-empty. -/
theorem c1_scan_written (cols : List String) (rows : List StrMap) (vf : String)
    (hvfn : '\n' ∉ vf.data) (hvfr : '\r' ∉ vf.data)
    (hcolsn : ∀ s ∈ cols, '\n' ∉ s.data) (hcolsr : ∀ s ∈ cols, '\r' ∉ s.data)
    (hcells : ∀ row ∈ rows, ∀ cell ∈ cols.map (fun col => getRow row col),
      '\n' ∉ cell.data ∧ '\r' ∉ cell.data)
    (hrowhead : ∀ row ∈ rows, ∃ ch t2,
      (joinTabs (cols.map (fun col => getRow row col))).data = ch :: t2) :
    scanLines (writeALE ⟨mapSet (mapSet (mapSet (mapSet [] HeaderFieldDelim DefaultFieldDelim)
        HeaderAudioFormat "48kHz") HeaderFPS (formatFixed 2 NewEncoder.fps))
        HeaderVideoFormat vf, cols, rows⟩) =
      writeALELines ⟨mapSet (mapSet (mapSet (mapSet [] HeaderFieldDelim DefaultFieldDelim)
        HeaderAudioFormat "48kHz") HeaderFPS (formatFixed 2 NewEncoder.fps))
        HeaderVideoFormat vf, cols, rows⟩ := by
  have hlines : writeALELines ⟨mapSet (mapSet (mapSet (mapSet [] HeaderFieldDelim
      DefaultFieldDelim)
      HeaderAudioFormat "48kHz") HeaderFPS (formatFixed 2 NewEncoder.fps))
      HeaderVideoFormat vf, cols, rows⟩ =
      ["Heading", HeaderFieldDelim ++ "\t" ++ DefaultFieldDelim,
       HeaderAudioFormat ++ "\t" ++ "48kHz",
       HeaderFPS ++ "\t" ++ formatFixed 2 NewEncoder.fps,
       HeaderVideoFormat ++ "\t" ++ vf, "", "Column", joinTabs cols, "", "Data"] ++
      rows.map (fun row => joinTabs (cols.map (fun col => getRow row col))) := rfl
  have hjoin : ∀ (cells : List String),
      (∀ cell ∈ cells, '\n' ∉ cell.data ∧ '\r' ∉ cell.data) →
      '\n' ∉ (joinTabs cells).data ∧ '\r' ∉ (joinTabs cells).data := by
    intro cells hc
    constructor
    · intro hmem
      unfold joinTabs at hmem
      rw [data_mk] at hmem
      rcases mem_intercalate_sep hmem with h | ⟨l, hl, hcl⟩
      · exact absurd h (by decide)
      · obtain ⟨s, hs, rfl⟩ := List.mem_map.mp hl
        exact (hc s hs).1 hcl
    · intro hmem
      unfold joinTabs at hmem
      rw [data_mk] at hmem
      rcases mem_intercalate_sep hmem with h | ⟨l, hl, hcl⟩
      · exact absurd h (by decide)
      · obtain ⟨s, hs, rfl⟩ := List.mem_map.mp hl
        exact (hc s hs).2 hcl
  have hgood : ∀ l ∈ writeALELines ⟨mapSet (mapSet (mapSet (mapSet [] HeaderFieldDelim
      DefaultFieldDelim)
      HeaderAudioFormat "48kHz") HeaderFPS (formatFixed 2 NewEncoder.fps))
      HeaderVideoFormat vf, cols, rows⟩, '\n' ∉ l.data ∧ '\r' ∉ l.data := by
    rw [hlines]
    intro l hl
    rcases List.mem_append.mp hl with h10 | hdl
    · simp only [List.mem_cons, List.not_mem_nil, or_false] at h10
      rcases h10 with rfl | rfl | rfl | rfl | rfl | rfl | rfl | rfl | rfl | rfl
      · exact ⟨by decide, by decide⟩
      · exact ⟨by decide, by decide⟩
      · exact ⟨by decide, by decide⟩
      · constructor
        · intro hmem
          simp only [String.data_append] at hmem
          rcases List.mem_append.mp hmem with h | h
          · exact absurd h (by decide)
          · rcases formatFixed_chars 2 _ _ h with h1 | h1 | h1
            · exact absurd h1 (by decide)
            · exact absurd h1 (by decide)
            · exact absurd h1 (by decide)
        · intro hmem
          simp only [String.data_append] at hmem
          rcases List.mem_append.mp hmem with h | h
          · exact absurd h (by decide)
          · rcases formatFixed_chars 2 _ _ h with h1 | h1 | h1
            · exact absurd h1 (by decide)
            · exact absurd h1 (by decide)
            · exact absurd h1 (by decide)
      · constructor
        · intro hmem
          simp only [String.data_append] at hmem
          rcases List.mem_append.mp hmem with h | h
          · exact absurd h (by decide)
          · exact hvfn h
        · intro hmem
          simp only [String.data_append] at hmem
          rcases List.mem_append.mp hmem with h | h
          · exact absurd h (by decide)
          · exact hvfr h
      · exact ⟨by decide, by decide⟩
      · exact ⟨by decide, by decide⟩
      · exact hjoin cols (fun s hs => ⟨hcolsn s hs, hcolsr s hs⟩)
      · exact ⟨by decide, by decide⟩
      · exact ⟨by decide, by decide⟩
    · obtain ⟨row, hrow, rfl⟩ := List.mem_map.mp hdl
      exact hjoin _ (hcells row hrow)
  by_cases hrows0 : rows = []
  · subst hrows0
    refine scanLines_writeALE _ "Data" ?_ (by decide) (fun l hl => (hgood l hl).1)
      (fun l hl => (hgood l hl).2)
    rw [hlines]
    rfl
  · have hdlsne : rows.map (fun row => joinTabs (cols.map (fun col => getRow row col))) ≠ [] :=
      fun h0 => hrows0 (List.map_eq_nil_iff.mp h0)
    have hl0mem := List.getLast_mem hdlsne
    obtain ⟨row, hrow, hfeq⟩ := List.mem_map.mp hl0mem
    obtain ⟨ch, t2, hdata⟩ := hrowhead row hrow
    have hdata2 : ((rows.map (fun row => joinTabs (cols.map (fun col =>
        getRow row col)))).getLast hdlsne).data = ch :: t2 := by
      rw [← hfeq]
      exact hdata
    have hl0ne : (rows.map (fun row => joinTabs (cols.map (fun col =>
        getRow row col)))).getLast hdlsne ≠ "" := by
      intro h0
      rw [h0] at hdata2
      cases hdata2
    refine scanLines_writeALE _ _ ?_ hl0ne (fun l hl => (hgood l hl).1)
      (fun l hl => (hgood l hl).2)
    rw [hlines]
    exact (getLast?_append_right _ hdlsne).trans (List.getLast?_eq_getLast _ hdlsne)

/-- C1 amended: the encode→decode round trip reproduces a timeline only
under side conditions, and even then not verbatim.  For a good timeline
(at least one clip, a video track, and clips whose names are trim-stable,
free of tabs, newlines and carriage returns and non-marker, with
whole-frame ranges at the default 24 fps, missing media references, no
CDL and good residual metadata) encoding yields the serialized output
string, the decoder's line scanner splits it back, decoding succeeds and
yields the same number of clips with identical names and identical time
ranges; the residual metadata, however, is NOT identical: every decoded
clip additionally carries the entry `Tracks ↦ "V"`, because the
encoder's Tracks column is not excluded when the decoder collects
leftover columns into clip metadata. -/
theorem c1_amended (t : Timeline) (hg : GoodTimeline t) :
    ∃ (output : String) (t' : Timeline),
      Encode NewEncoder t = .ok output ∧
      Decode NewDecoder (scanLines output) = .ok t' ∧
      t'.findClips.length = t.findClips.length ∧
      List.Forall₂ c1Rel t'.findClips t.findClips := by
  have hne := hg.1
  have hvid := hg.2.1
  have hclips := hg.2.2
  obtain ⟨hdc, hndc, hexsc, hsubc⟩ := c1_columns t hg
  set exs := List.insertionSort strLe (encodeExtras t) with hexsdef
  set cols := [ColumnName, ColumnStart, ColumnEnd, ColumnDuration, ColumnTracks] ++ exs
    with hcolsdef
  set hdrs0 := mapSet (mapSet (mapSet (mapSet [] HeaderFieldDelim DefaultFieldDelim)
    HeaderAudioFormat "48kHz") HeaderFPS (formatFixed 2 NewEncoder.fps))
    HeaderVideoFormat (inferVideoFormat t.findClips) with hhdrs0
  have hcolsMemT : ColumnTracks ∈ cols := by
    rw [hcolsdef]
    exact List.mem_append.mpr (Or.inl (by decide))
  have hcolsne : cols ≠ [] := by
    rw [hcolsdef]
    simp
  have hcolstab : ∀ s ∈ cols, '\t' ∉ s.data := by
    intro s hs
    rw [hcolsdef] at hs
    rcases List.mem_append.mp hs with h | h
    · simp only [List.mem_cons, List.not_mem_nil, or_false] at h
      rcases h with rfl | rfl | rfl | rfl | rfl <;> decide
    · exact (hexsc s h).2.1
  have hcolstrim : ∀ s ∈ cols, goTrimSpace s = s := by
    intro s hs
    rw [hcolsdef] at hs
    rcases List.mem_append.mp hs with h | h
    · simp only [List.mem_cons, List.not_mem_nil, or_false] at h
      rcases h with rfl | rfl | rfl | rfl | rfl <;> rfl
    · exact (hexsc s h).1
  have htot : ∀ c ∈ t.findClips, ∀ row₀ : StrMap, ∃ row,
      clipToRow NewEncoder c cols row₀ = .ok row := by
    intro c hc row₀
    obtain ⟨_, ⟨s, dur, hsr⟩, _, _, _, _⟩ := hclips c hc
    exact clipToRow_total NewEncoder c ((c1_clipCell c s dur hsr).2.2.2.2.2.2) cols row₀
  obtain ⟨rows, hrows, hrel2⟩ := clipsToRows_total NewEncoder cols t.findClips htot
  have htl : timelineToALE NewEncoder t = .ok ⟨hdrs0, cols, rows⟩ := by
    simp only [timelineToALE, hdc, hrows]
  have henc : Encode NewEncoder t = .ok (writeALE ⟨hdrs0, cols, rows⟩) := by
    simp only [Encode, htl]
  have hcore : ∀ row ∈ rows, ∃ c, c ∈ t.findClips ∧
      clipToRow NewEncoder c cols [] = .ok row := by
    intro row hrow0
    obtain ⟨c, hc, hok⟩ := forall₂_mem_left hrel2 row hrow0
    exact ⟨c, hc, hok⟩
  have hLineTab : ∀ row ∈ rows, ∀ cell ∈ cols.map (fun col => getRow row col),
      '\t' ∉ cell.data := by
    intro row hrow0
    obtain ⟨c, hc, hok⟩ := hcore row hrow0
    exact fun cell hcell => ((c1_clip_core c cols exs row (hclips c hc) hcolsdef hndc hexsc
      (hsubc c hc) hok).1 cell hcell).1
  have hLineNlCr : ∀ row ∈ rows, ∀ cell ∈ cols.map (fun col => getRow row col),
      '\n' ∉ cell.data ∧ '\r' ∉ cell.data := by
    intro row hrow0
    obtain ⟨c, hc, hok⟩ := hcore row hrow0
    exact fun cell hcell => ((c1_clip_core c cols exs row (hclips c hc) hcolsdef hndc hexsc
      (hsubc c hc) hok).1 cell hcell).2
  have hLineGood : ∀ row ∈ rows, ∃ ch t2,
      (joinTabs (cols.map (fun col => getRow row col))).data = ch :: t2 ∧
      goIsSpace ch = false ∧ ch ≠ 'H' ∧ ch ≠ 'C' ∧ ch ≠ 'D' := by
    intro row hrow0
    obtain ⟨c, hc, hok⟩ := hcore row hrow0
    exact (c1_clip_core c cols exs row (hclips c hc) hcolsdef hndc hexsc
      (hsubc c hc) hok).2.1
  have hTrV : ∀ row' ∈ rows.map (fun row => buildRow cols
      (cols.map (fun col => getRow row col))), getRow row' ColumnTracks = "V" := by
    intro row' hrow'
    obtain ⟨row, hrow0, rfl⟩ := List.mem_map.mp hrow'
    obtain ⟨c, hc, hok⟩ := hcore row hrow0
    exact (c1_clip_core c cols exs row (hclips c hc) hcolsdef hndc hexsc
      (hsubc c hc) hok).2.2.1
  have hcolsnl : ∀ s ∈ cols, '\n' ∉ s.data := by
    intro s hs
    rw [hcolsdef] at hs
    rcases List.mem_append.mp hs with h | h
    · simp only [List.mem_cons, List.not_mem_nil, or_false] at h
      rcases h with rfl | rfl | rfl | rfl | rfl <;> decide
    · exact (hexsc s h).2.2.1
  have hcolscr : ∀ s ∈ cols, '\r' ∉ s.data := by
    intro s hs
    rw [hcolsdef] at hs
    rcases List.mem_append.mp hs with h | h
    · simp only [List.mem_cons, List.not_mem_nil, or_false] at h
      rcases h with rfl | rfl | rfl | rfl | rfl <;> decide
    · exact (hexsc s h).2.2.2.1
  have hwalk : parseALE (writeALELines ⟨hdrs0, cols, rows⟩) =
      ⟨hdrs0, cols, rows.map (fun row => buildRow cols
        (cols.map (fun col => getRow row col)))⟩ := by
    rw [hhdrs0]
    exact c1_parse_written cols rows (inferVideoFormat t.findClips)
      ⟨(inferVideoFormat_good t.findClips).1, (inferVideoFormat_good t.findClips).2.1⟩
      hcolsne hcolstab hcolstrim hLineGood hLineTab
  have hscan : scanLines (writeALE ⟨hdrs0, cols, rows⟩) =
      writeALELines ⟨hdrs0, cols, rows⟩ := by
    rw [hhdrs0]
    exact c1_scan_written cols rows (inferVideoFormat t.findClips)
      (inferVideoFormat_good t.findClips).2.2.1 (inferVideoFormat_good t.findClips).2.2.2
      hcolsnl hcolscr hLineNlCr
      (fun row hrow0 => by
        obtain ⟨ch, t2, h1, _⟩ := hLineGood row hrow0
        exact ⟨ch, t2, h1⟩)
  have hfps : mapGet (parseALE (writeALELines ⟨hdrs0, cols, rows⟩)).headers HeaderFPS =
      some (formatFixed 2 DefaultFPS) := by
    rw [hwalk]
    show mapGet hdrs0 HeaderFPS = some (formatFixed 2 DefaultFPS)
    rw [hhdrs0, mapGet_mapSet, if_neg (by decide), mapGet_mapSet, if_pos rfl]
    rfl
  have hrowsne : rows ≠ [] := by
    intro h0
    have hlen := List.Forall₂.length_eq hrel2
    rw [h0] at hlen
    exact hne (List.length_eq_zero.mp hlen.symm)
  obtain ⟨cs, hcs, hcsrel⟩ := c1_rows_to_clips t hg cols exs hcolsdef hndc hexsc hsubc
    t.findClips rows hrel2 0 (fun c hc => hc)
  have hgr := groupRows_allV_start NewDecoder
    (rows.map (fun row => buildRow cols (cols.map (fun col => getRow row col)))) 0 cs
    hTrV hcs (fun h0 => hrowsne (List.map_eq_nil_iff.mp h0))
  have hale2 : aleToTimeline NewDecoder (parseALE (writeALELines ⟨hdrs0, cols, rows⟩)) =
      .ok ⟨"ALE Timeline", [⟨"V", TrackKindVideo, cs⟩]⟩ := by
    rw [hwalk]
    simp only [aleToTimeline]
    rw [if_neg (fun h0 => hrowsne (List.map_eq_nil_iff.mp h0)), if_pos hcolsMemT]
    simp only [hgr]
    rfl
  have hdec2 : Decode NewDecoder (writeALELines ⟨hdrs0, cols, rows⟩) =
      .ok ⟨"ALE Timeline", [⟨"V", TrackKindVideo, cs⟩]⟩ := by
    rw [decode_override _ hfps, hale2]
  have hfc : (⟨"ALE Timeline", [⟨"V", TrackKindVideo, cs⟩]⟩ : Timeline).findClips = cs := by
    simp [Timeline.findClips]
  refine ⟨writeALE ⟨hdrs0, cols, rows⟩, ⟨"ALE Timeline", [⟨"V", TrackKindVideo, cs⟩]⟩,
    henc, ?_, ?_, ?_⟩
  · rw [hscan]
    exact hdec2
  · rw [hfc]
    exact List.Forall₂.length_eq hcsrel
  · rw [hfc]
    exact hcsrel

theorem c1_amended_witness :
    ∃ (output : String) (t' : Timeline),
      Encode NewEncoder c1Timeline = .ok output ∧
      Decode NewDecoder (scanLines output) = .ok t' ∧
      t'.findClips.length = c1Timeline.findClips.length ∧
      List.Forall₂ c1Rel t'.findClips c1Timeline.findClips :=
  c1_amended c1Timeline
    ⟨by decide, by decide,
     by
      intro c hc
      have hc2 : c = c1Clip := by
        simpa [Timeline.findClips, c1Timeline] using hc
      subst hc2
      exact ⟨⟨rfl, by decide, by decide, by decide, 'X', [], rfl, by decide, by decide,
          by decide⟩,
        ⟨0, 24, rfl⟩, ⟨"X", rfl⟩, rfl, by decide,
        by
          intro p hp
          have hp2 : p = ("Scene", "5") := by simpa [c1Clip] using hp
          subst hp2
          exact ⟨⟨rfl, by decide, by decide, by decide, by decide, by decide⟩,
            rfl, by decide, by decide, by decide, by decide⟩⟩⟩

/-- C1 counterexample: the empty timeline encodes successfully, but its
ALE file has no data rows, so decoding what was just encoded fails with
the empty-input error instead of returning a timeline with the same
(zero) clips — the claimed round trip does not hold for every
timeline. -/
theorem c1_counterexample :
    ∃ output : String,
      Encode NewEncoder ⟨"Empty", []⟩ = .ok output ∧
      Decode NewDecoder (scanLines output) = .error .emptyInput := by
  have hcols : determineColumns NewEncoder ⟨"Empty", []⟩ =
      [ColumnName, ColumnStart, ColumnEnd, ColumnDuration] := rfl
  have htl : timelineToALE NewEncoder ⟨"Empty", []⟩ = .ok
      ⟨mapSet (mapSet (mapSet (mapSet [] HeaderFieldDelim DefaultFieldDelim)
        HeaderAudioFormat "48kHz") HeaderFPS (formatFixed 2 NewEncoder.fps))
        HeaderVideoFormat (inferVideoFormat (Timeline.findClips ⟨"Empty", []⟩)),
       [ColumnName, ColumnStart, ColumnEnd, ColumnDuration], []⟩ := rfl
  have henc : Encode NewEncoder ⟨"Empty", []⟩ = .ok (writeALE
      ⟨mapSet (mapSet (mapSet (mapSet [] HeaderFieldDelim DefaultFieldDelim)
        HeaderAudioFormat "48kHz") HeaderFPS (formatFixed 2 NewEncoder.fps))
        HeaderVideoFormat (inferVideoFormat (Timeline.findClips ⟨"Empty", []⟩)),
       [ColumnName, ColumnStart, ColumnEnd, ColumnDuration], []⟩) := by
    simp only [Encode, htl]
  refine ⟨_, henc, ?_⟩
  have hscan := c1_scan_written [ColumnName, ColumnStart, ColumnEnd, ColumnDuration] []
    (inferVideoFormat (Timeline.findClips ⟨"Empty", []⟩))
    (inferVideoFormat_good _).2.2.1 (inferVideoFormat_good _).2.2.2
    (by decide) (by decide)
    (fun row hrow => absurd hrow (List.not_mem_nil row))
    (fun row hrow => absurd hrow (List.not_mem_nil row))
  have hwalk := c1_parse_written [ColumnName, ColumnStart, ColumnEnd, ColumnDuration] []
    (inferVideoFormat (Timeline.findClips ⟨"Empty", []⟩))
    ⟨(inferVideoFormat_good _).1, (inferVideoFormat_good _).2.1⟩
    (by decide) (by decide) (by decide)
    (fun row hrow => absurd hrow (List.not_mem_nil row))
    (fun row hrow => absurd hrow (List.not_mem_nil row))
  rw [hscan]
  unfold Decode
  rw [hwalk]
  simp only [aleToTimeline]
  rfl

end OtioAle
